import Mathlib

/-!
# DUNEGenChannelMapSP: a shallow embedding and its verified properties

Embedding of `dunecore/ChannelMap/DUNEGenChannelMapSP.{h,cxx}`.

Modelling conventions.

* `std::unordered_map<K,V>` is an association list with at most one entry per
  key as long as it is only built with `AMap.set` (the `m[k] = v` of C++).
* `std::vector<T>` is a `List T`; `push_back` appends at the end; `.at(i)`
  raises `std::out_of_range` when `i` is not a position.
* `std::any` is the tagged value `AnyVal`; `std::any_cast<int>` raises
  `std::bad_any_cast` on every tag but `int`.
* C++ exceptions are the `Except Exn` monad.
* `int` values are `Int`s; what `operator>>` stores is clamped to the 32-bit
  range, as the library does.  A `float` is carried as its 32-bit pattern.
* `std::stringstream` is the list of unread characters with the fail bit.
  The text-to-float conversion of the library (`num_get` for `float`) is
  not part of the repository: it is the parameter `rdF` of the loader.
* `std::ifstream` is `Option (List String)`: `none` when the file cannot be
  opened, else the sequence of lines that `std::getline` delivers.
-/

namespace dune

/-! ## Library layer -/

/-- Exceptions thrown by the code of the class, directly or through the
standard library calls it makes. -/
inductive Exn where
  | bad_typeid
  | domain_error (what : String)
  | logic_error (what : String)
  | out_of_range
  | bad_any_cast
  deriving DecidableEq, Repr

/-- Contents of a `std::any` as used by the class and its callers. -/
inductive AnyVal where
  | int (v : Int)
  | str (s : String)
  | flt (bits : Nat)
  | bool (b : Bool)
  deriving DecidableEq, Repr

/-- The call `std::any_cast<int>(a)`. -/
def any_cast_int : AnyVal → Except Exn Int
  | .int v => .ok v
  | _ => .error .bad_any_cast

/-- Association list standing for `std::unordered_map<κ, α>`. -/
abbrev AMap (κ : Type) (α : Type) := List (κ × α)

namespace AMap

variable {κ α : Type} [DecidableEq κ]

/-- The call `m.find(k)`: `none` stands for `m.end()`. -/
def find (k : κ) : AMap κ α → Option α
  | [] => none
  | (k', v) :: t => if k' = k then some v else find k t

/-- The assignment `m[k] = v`. -/
def set (k : κ) (v : α) : AMap κ α → AMap κ α
  | [] => [(k, v)]
  | (k', v') :: t => if k' = k then (k, v) :: t else (k', v') :: set k v t

/-- The reference `m[k]` read as a value: a missing key is default-constructed. -/
def getD (k : κ) (d : α) (m : AMap κ α) : α :=
  match find k m with
  | some v => v
  | none => d

end AMap

/-- The call `v.at(i)` of a `std::vector`. -/
def vecAt {α : Type} (v : List α) (i : Nat) : Except Exn α :=
  match v[i]? with
  | some x => .ok x
  | none => .error .out_of_range

/-- The assignment `v.at(i) = x` of a `std::vector`. -/
def vecSetAt {α : Type} (v : List α) (i : Nat) (x : α) : Except Exn (List α) :=
  if i < v.length then .ok (v.set i x) else .error .out_of_range

def INT_MIN : Int := -2147483648
def INT_MAX : Int := 2147483647

/-- Conversion of an `int` to `unsigned int`. -/
def toUnsigned (i : Int) : Nat := (i % 4294967296).toNat

/-- Whitespace of the classic locale (`std::isspace`). -/
def isSpace (c : Char) : Bool :=
  c = ' ' || c = '\t' || c = '\n' || c = '\x0b' || c = '\x0c' || c = '\r'

/-- A `std::stringstream` being read: the unread characters and whether
`failbit` is set.  Once `failbit` is set no extraction reads `buf` again. -/
structure IStream where
  buf : List Char
  fail : Bool
  deriving DecidableEq, Repr

/-- The `sentry` of a formatted input function: skips leading whitespace;
`none` when the stream is not good or is exhausted. -/
def sentry (s : IStream) : Option (List Char) :=
  if s.fail then none
  else
    match s.buf.dropWhile isSpace with
    | [] => none
    | c :: cs => some (c :: cs)

/-- Extraction `s >> str` into a `std::string` holding `old`. -/
def extractString (s : IStream) (old : String) : IStream × String :=
  match sentry s with
  | none => ({ s with fail := true }, old)
  | some cs =>
    ({ buf := cs.dropWhile (fun c => !isSpace c), fail := false },
     String.mk (cs.takeWhile (fun c => !isSpace c)))

/-- Value of a run of decimal digits, most significant first. -/
def digitsVal (ds : List Char) : Nat :=
  ds.foldl (fun acc c => 10 * acc + (c.toNat - '0'.toNat)) 0

/-- The conversion `num_get` performs for an `int` in the default (decimal)
base: optional sign, then digits.  No digit: zero is stored and the
extraction fails.  Out of range: the nearest bound is stored and the
extraction fails. -/
def numGetInt (cs : List Char) : IStream × Int :=
  let neg : Bool := cs.head? = some '-'
  let body : List Char :=
    if cs.head? = some '-' || cs.head? = some '+' then cs.tail else cs
  let ds := body.takeWhile Char.isDigit
  let rest := body.dropWhile Char.isDigit
  if ds = [] then ({ buf := rest, fail := true }, 0)
  else
    let v : Int := if neg then - (digitsVal ds : Int) else (digitsVal ds : Int)
    if v < INT_MIN then ({ buf := rest, fail := true }, INT_MIN)
    else if v > INT_MAX then ({ buf := rest, fail := true }, INT_MAX)
    else ({ buf := rest, fail := false }, v)

/-- Extraction `s >> n` into an `int` holding `old`. -/
def extractInt (s : IStream) (old : Int) : IStream × Int :=
  match sentry s with
  | none => ({ s with fail := true }, old)
  | some cs => numGetInt cs

/-- The conversion `num_get` performs for a `float`, not part of the
repository: from the characters at the read position to the stream left
behind and the 32-bit pattern stored. -/
abbrev FloatReader := List Char → IStream × Nat

/-- Extraction `s >> x` into a `float` holding `old`. -/
def extractFloat (rdF : FloatReader) (s : IStream) (old : Nat) : IStream × Nat :=
  match sentry s with
  | none => ({ s with fail := true }, old)
  | some cs => rdF cs

/-! ## The class -/

/-- The type `ChanInfo_t`: a map from names to values with the extra member
`offlchan`. -/
structure ChanInfo_t where
  fields : AMap String AnyVal
  offlchan : Int
  deriving DecidableEq, Repr

/-- The four-level map `m_DetToChanInfo`. -/
abbrev DetMap := AMap Int (AMap Int (AMap Int (AMap Int Nat)))

/-- Data members of `DUNEGenChannelMapSP`. -/
structure DUNEGenChannelMapSP where
  m_DetToChanInfo : DetMap
  m_OfflToChanInfo : AMap Nat Nat
  m_KeyStrings : List String
  m_ColumnNames : List String
  m_CIMap : AMap String Nat
  m_ColumnTypes : List Int
  m_KeyColFlags : List Int
  m_WhichKey : List Nat
  m_MapInfo : List (List AnyVal)
  deriving Repr

/-- The constructor: every member default-constructed. -/
def DUNEGenChannelMapSP.new : DUNEGenChannelMapSP :=
  { m_DetToChanInfo := [], m_OfflToChanInfo := [], m_KeyStrings := [],
    m_ColumnNames := [], m_CIMap := [], m_ColumnTypes := [],
    m_KeyColFlags := [], m_WhichKey := [], m_MapInfo := [] }

/-- The assignment `m[k0][k1][k2][k3] = v` on the four-level map. -/
def detSet (m : DetMap) (k : List Int) (v : Nat) : DetMap :=
  let m1 := AMap.getD (k.getD 0 0) [] m
  let m2 := AMap.getD (k.getD 1 0) [] m1
  let m3 := AMap.getD (k.getD 2 0) [] m2
  AMap.set (k.getD 0 0) (AMap.set (k.getD 1 0) (AMap.set (k.getD 2 0)
    (AMap.set (k.getD 3 0) v m3) m2) m1) m

/-- The four chained `find` calls of `GetChanInfoFromDetectorElements`;
`none` where the source returns `badInfo`. -/
def detFind (m : DetMap) (k : List Int) : Option Nat :=
  match AMap.find (k.getD 0 0) m with
  | none => none
  | some m1 =>
    match AMap.find (k.getD 1 0) m1 with
    | none => none
    | some m2 =>
      match AMap.find (k.getD 2 0) m2 with
      | none => none
      | some m3 => AMap.find (k.getD 3 0) m3

/-- Comment filtering of `ReadMapFromFile`: the text before the first `#`. -/
def stripComment (rawline : String) : List Char :=
  rawline.data.takeWhile (fun c => c ≠ '#')

/-- Loop of state 1: reads `n` more column names, the next having index `i`. -/
def readNames (ls : IStream) (i : Nat) : Nat → DUNEGenChannelMapSP → DUNEGenChannelMapSP
  | 0, self => self
  | n + 1, self =>
    let (ls1, cn) := extractString ls ""
    readNames ls1 (i + 1) n
      { self with m_ColumnNames := self.m_ColumnNames ++ [cn],
                  m_CIMap := AMap.set cn i self.m_CIMap }

/-- Loop of state 2: reads `n` more column types. -/
def readTypes (ls : IStream) : Nat → DUNEGenChannelMapSP → DUNEGenChannelMapSP
  | 0, self => self
  | n + 1, self =>
    let (ls1, ct) := extractString ls ""
    if ct = "I" then
      readTypes ls1 n { self with m_ColumnTypes := self.m_ColumnTypes ++ [0] }
    else if ct = "C" ∨ ct = "S" then
      readTypes ls1 n { self with m_ColumnTypes := self.m_ColumnTypes ++ [1] }
    else if ct = "F" then
      readTypes ls1 n { self with m_ColumnTypes := self.m_ColumnTypes ++ [2] }
    else
      readTypes ls1 n self

/-- Loop of state 3: reads `n` more key flags, the next having index `i`. -/
def readFlags (ls : IStream) (i : Nat) :
    Nat → DUNEGenChannelMapSP → Except Exn DUNEGenChannelMapSP
  | 0, self => .ok self
  | n + 1, self =>
    let (ls1, cf) := extractInt ls 0
    (if cf ≠ 0 then vecAt self.m_ColumnTypes i else .ok 0) >>= fun ty =>
    if cf ≠ 0 ∧ ty ≠ 0 then .error .bad_typeid
    else
      if cf ≠ 0 then
        vecAt self.m_ColumnNames i >>= fun nm =>
        readFlags ls1 (i + 1) n
          { self with m_KeyColFlags := self.m_KeyColFlags ++ [cf],
                      m_WhichKey := self.m_WhichKey ++ [self.m_KeyStrings.length],
                      m_KeyStrings := self.m_KeyStrings ++ [nm] }
      else
        readFlags ls1 (i + 1) n
          { self with m_KeyColFlags := self.m_KeyColFlags ++ [cf],
                      m_WhichKey := self.m_WhichKey ++ [0] }

/-- Local variables of the state 4 branch that live across its column loop. -/
structure RowVars where
  linestream : IStream
  ci : Int
  cs : String
  cf : Nat
  dataline : List AnyVal
  mapkeys : List Int
  ikey : Nat
  offlchan : Int
  deriving DecidableEq, Repr

/-- Values of the locals before the column loop of state 4. -/
def RowVars.init (line : List Char) : RowVars :=
  { linestream := { buf := line, fail := false }, ci := 0, cs := "", cf := 0,
    dataline := [], mapkeys := [0, 0, 0, 0], ikey := 0, offlchan := 0 }

/-- One iteration of the column loop of state 4, for column `i`. -/
def readColumn (rdF : FloatReader) (types flags : List Int) (names : List String)
    (i : Nat) (r : RowVars) : Except Exn RowVars :=
  vecAt types i >>= fun ty =>
  if ty = 0 then
    let (ls1, ci) := extractInt r.linestream r.ci
    let r1 := { r with linestream := ls1, ci := ci, dataline := r.dataline ++ [AnyVal.int ci] }
    vecAt flags i >>= fun fl =>
    (if fl ≠ 0 then
        vecSetAt r1.mapkeys r1.ikey ci >>= fun mk =>
        .ok { r1 with mapkeys := mk, ikey := r1.ikey + 1 }
      else .ok r1) >>= fun r2 =>
    vecAt names i >>= fun nm =>
    if nm = "offlchan" then .ok { r2 with offlchan := ci } else .ok r2
  else if ty = 1 then
    let (ls1, cs) := extractString r.linestream r.cs
    .ok { r with linestream := ls1, cs := cs, dataline := r.dataline ++ [AnyVal.str cs] }
  else if ty = 2 then
    let (ls1, cf) := extractFloat rdF r.linestream r.cf
    .ok { r with linestream := ls1, cf := cf, dataline := r.dataline ++ [AnyVal.flt cf] }
  else .ok r

/-- Column loop of state 4: `n` more columns, the next having index `i`. -/
def readColumns (rdF : FloatReader) (types flags : List Int) (names : List String)
    (i : Nat) : Nat → RowVars → Except Exn RowVars
  | 0, r => .ok r
  | n + 1, r => readColumn rdF types flags names i r >>= readColumns rdF types flags names (i + 1) n

/-- Loop variables of `ReadMapFromFile`: the object, `state` and `ncolumns`. -/
structure LoadVars where
  self : DUNEGenChannelMapSP
  state : Nat
  ncolumns : Int
  deriving Repr

/-- Body of the `while (std::getline(inFile, rawline))` loop for a line that
is not empty after comment filtering. -/
def processLine (rdF : FloatReader) (v : LoadVars) (line : List Char) : Except Exn LoadVars :=
  let linestream : IStream := { buf := line, fail := false }
  if v.state = 0 then
    .ok { v with ncolumns := (extractInt linestream v.ncolumns).2, state := v.state + 1 }
  else if v.state = 1 then
    .ok { v with self := readNames linestream 0 v.ncolumns.toNat v.self, state := v.state + 1 }
  else if v.state = 2 then
    .ok { v with self := readTypes linestream v.ncolumns.toNat v.self, state := v.state + 1 }
  else if v.state = 3 then
    readFlags linestream 0 v.ncolumns.toNat v.self >>= fun self1 =>
    .ok { v with self := self1, state := v.state + 1 }
  else if v.state = 4 then
    readColumns rdF v.self.m_ColumnTypes v.self.m_KeyColFlags v.self.m_ColumnNames
      0 v.ncolumns.toNat (RowVars.init line) >>= fun r =>
    let mloc := v.self.m_MapInfo.length
    .ok { v with self :=
      { v.self with
        m_DetToChanInfo := detSet v.self.m_DetToChanInfo r.mapkeys mloc,
        m_OfflToChanInfo := AMap.set (toUnsigned r.offlchan) mloc v.self.m_OfflToChanInfo,
        m_MapInfo := v.self.m_MapInfo ++ [r.dataline] } }
  else .ok v

/-- One turn of the `while` loop on a raw line. -/
def processRawLine (rdF : FloatReader) (v : LoadVars) (rawline : String) : Except Exn LoadVars :=
  let line := stripComment rawline
  if line.length = 0 then .ok v else processLine rdF v line

/-- The whole `while` loop over the lines delivered by `std::getline`. -/
def readLoop (rdF : FloatReader) : LoadVars → List String → Except Exn LoadVars
  | v, [] => .ok v
  | v, rawline :: rest => processRawLine rdF v rawline >>= fun v1 => readLoop rdF v1 rest

/-- The method `ReadMapFromFile` run on the object `self`; `inFile` is `none`
when the file cannot be opened, in which case `std::getline` delivers no
line. -/
def ReadMapFromFile (rdF : FloatReader) (self : DUNEGenChannelMapSP)
    (inFile : Option (List String)) : Except Exn DUNEGenChannelMapSP :=
  readLoop rdF { self := self, state := 0, ncolumns := 0 } (inFile.getD []) >>= fun v =>
  if v.self.m_KeyStrings.length > 4 then
    .error (.domain_error "DUNEGenChannelMapSP: Too Many Map Keys")
  else .ok v.self

/-- The value `badInfo` of both accessors. -/
def badInfo : ChanInfo_t :=
  { fields := AMap.set "valid" (AnyVal.bool false) [], offlchan := 0 }

/-- Loop of `GetChanInfoFromDetectorElements` over the entries of `detinfo`,
in iteration order, assembling `mapkeys`. -/
def assembleKeys (self : DUNEGenChannelMapSP) :
    List (String × AnyVal) → List Int → Except Exn (List Int)
  | [], mapkeys => .ok mapkeys
  | (name, val) :: rest, mapkeys =>
    match AMap.find name self.m_CIMap with
    | none => .error (.logic_error ("DUNEGenChannelMapSP ununderstood map key name " ++ name))
    | some icol =>
      vecAt self.m_KeyColFlags icol >>= fun fl =>
      if fl ≠ 0 then
        any_cast_int val >>= fun x =>
        vecAt self.m_WhichKey icol >>= fun wk =>
        vecSetAt mapkeys wk x >>= fun mk =>
        assembleKeys self rest mk
      else assembleKeys self rest mapkeys

/-- Materialisation loop of `GetChanInfoFromDetectorElements` over the
columns at positions `i`, `i+1`, ... whose names are `names`. -/
def fillInfoDet (self : DUNEGenChannelMapSP) (infoindex : Nat) :
    List String → Nat → ChanInfo_t → Except Exn ChanInfo_t
  | [], _, info => .ok info
  | name :: rest, i, info =>
    vecAt self.m_MapInfo infoindex >>= fun row =>
    vecAt row i >>= fun x =>
    if name = "offlchan" then
      any_cast_int x >>= fun oc =>
      fillInfoDet self infoindex rest (i + 1) { info with offlchan := oc }
    else
      fillInfoDet self infoindex rest (i + 1) { info with fields := AMap.set name x info.fields }

/-- The method `GetChanInfoFromDetectorElements`. -/
def GetChanInfoFromDetectorElements (self : DUNEGenChannelMapSP) (detinfo : ChanInfo_t) :
    Except Exn ChanInfo_t :=
  assembleKeys self detinfo.fields [0, 0, 0, 0] >>= fun mapkeys =>
  match detFind self.m_DetToChanInfo mapkeys with
  | none => .ok badInfo
  | some infoindex =>
    fillInfoDet self infoindex self.m_ColumnNames 0 { fields := [], offlchan := 0 } >>= fun info =>
    .ok { info with fields := AMap.set "valid" (AnyVal.bool true) info.fields }

/-- Materialisation loop of `GetChanInfoFromOfflChan`; the flag is the local
`infovalid`. -/
def fillInfoOffl (self : DUNEGenChannelMapSP) (infoindex : Nat) :
    List String → Nat → ChanInfo_t × Bool → Except Exn (ChanInfo_t × Bool)
  | [], _, acc => .ok acc
  | name :: rest, i, (info, infovalid) =>
    vecAt self.m_MapInfo infoindex >>= fun row =>
    vecAt row i >>= fun x =>
    if name = "offlchan" then
      any_cast_int x >>= fun oc =>
      fillInfoOffl self infoindex rest (i + 1) ({ info with offlchan := oc }, true)
    else
      fillInfoOffl self infoindex rest (i + 1)
        ({ info with fields := AMap.set name x info.fields }, infovalid)

/-- The method `GetChanInfoFromOfflChan`. -/
def GetChanInfoFromOfflChan (self : DUNEGenChannelMapSP) (offlchan : Int) :
    Except Exn ChanInfo_t :=
  match AMap.find (toUnsigned offlchan) self.m_OfflToChanInfo with
  | none => .ok badInfo
  | some infoindex =>
    fillInfoOffl self infoindex self.m_ColumnNames 0
      ({ fields := [], offlchan := -1 }, false) >>= fun acc =>
    .ok { acc.1 with fields := AMap.set "valid" (AnyVal.bool acc.2) acc.1.fields }

/-! ## Notions used to state the properties -/

/-- Lines that survive comment filtering, comment removed, in file order. -/
def retained (lines : List String) : List (List Char) :=
  (lines.map stripComment).filter (fun l => l.length ≠ 0)

/-- The first four retained lines: column count, names, types, key flags. -/
def headerLines (lines : List String) : List (List Char) := (retained lines).take 4

/-- The retained lines after the fourth: the data rows. -/
def dataLines (lines : List String) : List (List Char) := (retained lines).drop 4

/-- The `while` loop restricted to retained lines. -/
def processLines (rdF : FloatReader) : LoadVars → List (List Char) → Except Exn LoadVars
  | v, [] => .ok v
  | v, line :: rest => processLine rdF v line >>= fun v1 => processLines rdF v1 rest

/-- The column loop of state 4 run on one data line against the schema held
by `self`: the locals it ends with. -/
def decodeRow (rdF : FloatReader) (self : DUNEGenChannelMapSP) (line : List Char) :
    Except Exn RowVars :=
  readColumns rdF self.m_ColumnTypes self.m_KeyColFlags self.m_ColumnNames
    0 self.m_ColumnNames.length (RowVars.init line)

/-- The three updates that end the state 4 branch, for a decoded row. -/
def addRow (self : DUNEGenChannelMapSP) (r : RowVars) : DUNEGenChannelMapSP :=
  { self with
    m_DetToChanInfo := detSet self.m_DetToChanInfo r.mapkeys self.m_MapInfo.length,
    m_OfflToChanInfo := AMap.set (toUnsigned r.offlchan) self.m_MapInfo.length self.m_OfflToChanInfo,
    m_MapInfo := self.m_MapInfo ++ [r.dataline] }

/-- Position of the last element of `l` that satisfies `p`. -/
def lastIdx {α : Type} (p : α → Bool) : List α → Option Nat
  | [] => none
  | x :: xs =>
    match lastIdx p xs with
    | some j => some (j + 1)
    | none => if p x then some 0 else none

/-- Bounds of the type `int`. -/
def inIntRange (i : Int) : Prop := INT_MIN ≤ i ∧ i ≤ INT_MAX

/-- Type code of a stored value, as in `m_ColumnTypes`: 0 int, 1 string,
2 float. -/
def tagOf : AnyVal → Int
  | .int _ => 0
  | .str _ => 1
  | .flt _ => 2
  | .bool _ => 3

/-- The integer values a row holds in its flagged columns, in column order. -/
def keyVals : List Int → List AnyVal → List Int
  | fl :: fs, x :: xs =>
    (if fl ≠ 0 then (match x with
      | .int v => [v]
      | _ => []) else []) ++ keyVals fs xs
  | _, _ => []

/-- Fills a list of key values up to the four slots of a key tuple with 0. -/
def pad4 (l : List Int) : List Int := (l ++ [0, 0, 0, 0]).take 4

/-- The key tuple of a row: the values of its key columns, in column order,
unused trailing slots at 0. -/
def rowKeys (flags : List Int) (row : List AnyVal) : List Int := pad4 (keyVals flags row)

/-- The value a row holds in the integer column named `offlchan` (the last
one if several), `acc` when it has none. -/
def rowOfflFrom (acc : Int) : List String → List AnyVal → Int
  | nm :: ns, x :: xs =>
    rowOfflFrom (if nm = "offlchan" then (match x with
      | .int v => v
      | _ => acc) else acc) ns xs
  | _, _ => acc

/-- The reverse key captured for a row: its `offlchan` value, 0 without one. -/
def rowOffl (names : List String) (row : List AnyVal) : Int := rowOfflFrom 0 names row

/-- The entries naming a row's own key-column values: one per flagged
column, from the column name to the value the row holds there. -/
def rowQuery : List String → List Int → List AnyVal → List (String × AnyVal)
  | nm :: ns, fl :: fs, x :: xs =>
    if fl ≠ 0 then (nm, x) :: rowQuery ns fs xs else rowQuery ns fs xs
  | _, _, _ => []

/-- Invariant of the column loop of state 4 before column `i`. -/
structure RowInv (types flags : List Int) (names : List String) (i : Nat) (r : RowVars) :
    Prop where
  len : r.dataline.length = i
  keys : r.mapkeys = rowKeys flags r.dataline
  ikey : r.ikey = (keyVals flags r.dataline).length
  offl : r.offlchan = rowOffl names r.dataline
  ci_rng : inIntRange r.ci
  offl_rng : inIntRange r.offlchan
  tags : ∀ (j : Nat) (x : AnyVal), r.dataline[j]? = some x → types[j]? = some (tagOf x)

/-- The names of the flagged columns, in column order. -/
def keyNames : List String → List Int → List String
  | nm :: ns, fl :: fs => if fl ≠ 0 then nm :: keyNames ns fs else keyNames ns fs
  | _, _ => []

/-- What the column-name line establishes: `m_CIMap` sends a name to the
last column bearing it. -/
def NamesInv (self : DUNEGenChannelMapSP) : Prop :=
  ∀ name : String,
    AMap.find name self.m_CIMap = lastIdx (fun x => decide (x = name)) self.m_ColumnNames

/-- What the key-flag line establishes. -/
structure FlagsInv (m : DUNEGenChannelMapSP) : Prop where
  wk_len : m.m_WhichKey.length = m.m_KeyColFlags.length
  ks_len : m.m_KeyStrings.length = m.m_KeyColFlags.countP (fun fl => decide (fl ≠ 0))
  ks : m.m_KeyStrings = keyNames m.m_ColumnNames m.m_KeyColFlags
  flagged : ∀ (i : Nat) (fl : Int), m.m_KeyColFlags[i]? = some fl → fl ≠ 0 →
    m.m_ColumnTypes[i]? = some 0 ∧
    m.m_WhichKey[i]? = some ((m.m_KeyColFlags.take i).countP (fun fl => decide (fl ≠ 0)))

/-- What a load that raised nothing leaves in a freshly constructed object;
`rs` holds, for each data line in file order, the locals of the column loop
when that line has been read. -/
structure LoadedFrom (rdF : FloatReader) (lines : List String) (m : DUNEGenChannelMapSP)
    (rs : List RowVars) : Prop where
  names_inv : NamesInv m
  flags_inv : FlagsInv m
  nkeys : m.m_KeyStrings.length ≤ 4
  types_ok : ∀ ty ∈ m.m_ColumnTypes, ty = 0 ∨ ty = 1 ∨ ty = 2
  types_len : m.m_ColumnTypes.length ≤ m.m_ColumnNames.length
  flags_len : 4 ≤ (retained lines).length → m.m_KeyColFlags.length = m.m_ColumnNames.length
  flags_nil : (retained lines).length < 4 → m.m_KeyColFlags = []
  rows : List.Forall₂ (fun d r => decodeRow rdF m d = .ok r) (dataLines lines) rs
  row_inv : ∀ r ∈ rs,
    RowInv m.m_ColumnTypes m.m_KeyColFlags m.m_ColumnNames m.m_ColumnNames.length r
  full_types : rs ≠ [] → m.m_ColumnTypes.length = m.m_ColumnNames.length
  mapInfo : m.m_MapInfo = rs.map (fun r => r.dataline)
  det : ∀ t : List Int, t.length = 4 →
    detFind m.m_DetToChanInfo t = lastIdx (fun r => decide (r.mapkeys = t)) rs
  offl : ∀ u : Nat,
    AMap.find u m.m_OfflToChanInfo = lastIdx (fun r => decide (toUnsigned r.offlchan = u)) rs

/-- The entry `e` of a key-set query writes slot `s` of `mapkeys`: its name
resolves to a flagged column whose key ordinal is `s`. -/
def writesSlot (self : DUNEGenChannelMapSP) (s : Nat) (e : String × AnyVal) : Prop :=
  ∃ (icol : Nat) (fl : Int), AMap.find e.1 self.m_CIMap = some icol ∧
    self.m_KeyColFlags[icol]? = some fl ∧ fl ≠ 0 ∧ self.m_WhichKey[icol]? = some s

/-! ## Concrete files -/

/-- A float conversion for files without float columns: it reads nothing
and fails. -/
def noFloat : FloatReader := fun cs => ({ buf := cs, fail := true }, 0)

/-- The example file of the specification: four integer key columns and
one data row. -/
def exampleFile : List String :=
  ["4", "crate slot stream chan", "I I I I", "1 1 1 1", "1 2 3 4"]

/-- The object after loading `exampleFile`. -/
def exampleMap : DUNEGenChannelMapSP :=
  { m_DetToChanInfo := [(1, [(2, [(3, [(4, 0)])])])],
    m_OfflToChanInfo := [(0, 0)],
    m_KeyStrings := ["crate", "slot", "stream", "chan"],
    m_ColumnNames := ["crate", "slot", "stream", "chan"],
    m_CIMap := [("crate", 0), ("slot", 1), ("stream", 2), ("chan", 3)],
    m_ColumnTypes := [0, 0, 0, 0],
    m_KeyColFlags := [1, 1, 1, 1],
    m_WhichKey := [0, 1, 2, 3],
    m_MapInfo := [[AnyVal.int 1, AnyVal.int 2, AnyVal.int 3, AnyVal.int 4]] }

/-- The key-set query of the example scenario. -/
def exampleQuery : ChanInfo_t :=
  { fields := [("crate", AnyVal.int 1), ("slot", AnyVal.int 2), ("stream", AnyVal.int 3),
      ("chan", AnyVal.int 4)],
    offlchan := 0 }

/-- A file whose two data rows share the key tuple (1) and differ in the
column `name`. -/
def dupKeyFile : List String := ["2", "crate name", "I C", "1 0", "1 a", "1 b"]

/-- The object after loading `dupKeyFile`. -/
def dupKeyMap : DUNEGenChannelMapSP :=
  { m_DetToChanInfo := [(1, [(0, [(0, [(0, 1)])])])],
    m_OfflToChanInfo := [(0, 1)],
    m_KeyStrings := ["crate"],
    m_ColumnNames := ["crate", "name"],
    m_CIMap := [("crate", 0), ("name", 1)],
    m_ColumnTypes := [0, 1],
    m_KeyColFlags := [1, 0],
    m_WhichKey := [0, 0],
    m_MapInfo := [[AnyVal.int 1, AnyVal.str "a"], [AnyVal.int 1, AnyVal.str "b"]] }

/-- A file with a reverse-key column: one key column, the column
`offlchan`, a string column, one data row. -/
def offlFile : List String := ["3", "crate offlchan name", "I I C", "1 0 0", "1 10 a"]

/-- The object after loading `offlFile`. -/
def offlMap : DUNEGenChannelMapSP :=
  { m_DetToChanInfo := [(1, [(0, [(0, [(0, 0)])])])],
    m_OfflToChanInfo := [(10, 0)],
    m_KeyStrings := ["crate"],
    m_ColumnNames := ["crate", "offlchan", "name"],
    m_CIMap := [("crate", 0), ("offlchan", 1), ("name", 2)],
    m_ColumnTypes := [0, 0, 1],
    m_KeyColFlags := [1, 0, 0],
    m_WhichKey := [0, 0, 0],
    m_MapInfo := [[AnyVal.int 1, AnyVal.int 10, AnyVal.str "a"]] }

/-- A file whose two data rows share the key tuple (1) and have distinct
`offlchan` values. -/
def dupKeyOfflFile : List String :=
  ["3", "crate offlchan name", "I I C", "1 0 0", "1 10 a", "1 20 b"]

/-- The object after loading `dupKeyOfflFile`. -/
def dupKeyOfflMap : DUNEGenChannelMapSP :=
  { m_DetToChanInfo := [(1, [(0, [(0, [(0, 1)])])])],
    m_OfflToChanInfo := [(10, 0), (20, 1)],
    m_KeyStrings := ["crate"],
    m_ColumnNames := ["crate", "offlchan", "name"],
    m_CIMap := [("crate", 0), ("offlchan", 1), ("name", 2)],
    m_ColumnTypes := [0, 0, 1],
    m_KeyColFlags := [1, 0, 0],
    m_WhichKey := [0, 0, 0],
    m_MapInfo := [[AnyVal.int 1, AnyVal.int 10, AnyVal.str "a"],
                  [AnyVal.int 1, AnyVal.int 20, AnyVal.str "b"]] }

/-- A file whose column `offlchan` is declared a string column. -/
def strOfflFile : List String := ["1", "offlchan", "C", "0", "x"]

/-- The object after loading `strOfflFile`. -/
def strOfflMap : DUNEGenChannelMapSP :=
  { m_DetToChanInfo := [(0, [(0, [(0, [(0, 0)])])])],
    m_OfflToChanInfo := [(0, 0)],
    m_KeyStrings := [],
    m_ColumnNames := ["offlchan"],
    m_CIMap := [("offlchan", 0)],
    m_ColumnTypes := [1],
    m_KeyColFlags := [0],
    m_WhichKey := [0],
    m_MapInfo := [[AnyVal.str "x"]] }

/-- A file flagging five integer columns as keys, with one data row. -/
def fiveKeyFile : List String :=
  ["5", "a b c d e", "I I I I I", "1 1 1 1 1", "1 2 3 4 5"]

/-- The header of `fiveKeyFile` alone. -/
def fiveKeyHeader : List String := ["5", "a b c d e", "I I I I I", "1 1 1 1 1"]

/-- A file whose first type token is not recognised and whose first column
is flagged as a key. -/
def badTypeFile : List String := ["2", "a b", "X I", "1 0"]

/-- The object after loading `badTypeFile`. -/
def badTypeMap : DUNEGenChannelMapSP :=
  { m_DetToChanInfo := [],
    m_OfflToChanInfo := [],
    m_KeyStrings := ["a"],
    m_ColumnNames := ["a", "b"],
    m_CIMap := [("a", 0), ("b", 1)],
    m_ColumnTypes := [0],
    m_KeyColFlags := [1, 0],
    m_WhichKey := [0, 0],
    m_MapInfo := [] }

/-- A file flagging a string column as a key. -/
def strKeyFile : List String := ["2", "crate name", "I C", "1 1", "1 a"]

/-- The strings that the type loop of state 2 extracts from a line: `k`
successive extractions, each into a fresh empty string. -/
def readTokens (ls : IStream) : Nat → List String
  | 0 => []
  | k + 1 => (extractString ls "").2 :: readTokens (extractString ls "").1 k

/-- The flags that the loop of state 3 extracts from a line: `k` successive
extractions, each into a fresh `int` holding 0. -/
def readInts (ls : IStream) : Nat → List Int
  | 0 => []
  | k + 1 => (extractInt ls 0).2 :: readInts (extractInt ls 0).1 k

/-- The type code pushed for a recognised type token. -/
def typeCode (tok : String) : Int :=
  if tok = "I" then 0 else if tok = "C" ∨ tok = "S" then 1 else 2

/-- A line that comment filtering removes whole: the empty line, and the
line whose first character is `#`. -/
def isSkippable (rawline : String) : Bool :=
  rawline.data.head? = none || rawline.data.head? = some '#'

/-- The file `F'` is the file `F` with empty lines and full-line comments
inserted at any positions. -/
inductive InsertedSkippable : List String → List String → Prop where
  | done : InsertedSkippable [] []
  | keep (l : String) {F F' : List String} :
      InsertedSkippable F F' → InsertedSkippable (l :: F) (l :: F')
  | ins (l : String) {F F' : List String} :
      isSkippable l = true → InsertedSkippable F F' → InsertedSkippable F (l :: F')

/-- The example file with an empty line or a full-line comment inserted
before, between and after its lines. -/
def exampleFileCommented : List String :=
  ["# WIBEth map", "4", "", "crate slot stream chan", "#names above", "I I I I", "",
   "1 1 1 1", "# data", "1 2 3 4", ""]

/-- The column count a file declares: the integer read from its first
retained line. -/
def declaredCount (lines : List String) : Int :=
  match retained lines with
  | a :: _ => (extractInt { buf := a, fail := false } 0).2
  | [] => 0

/-- The type tokens a file declares: what the type loop extracts from its
third retained line, one string per declared column. -/
def typeTokens (lines : List String) : List String :=
  match retained lines with
  | a :: _ :: c :: _ =>
    readTokens { buf := c, fail := false } (extractInt { buf := a, fail := false } 0).2.toNat
  | _ => []

/-- A file declaring a negative column count. -/
def negCountFile : List String := ["-1", "x", "x", "x", "x"]

/-- A file declaring two columns and naming one. -/
def shortNamesFile : List String := ["2", "a", "I I", "0 0", "1 2"]

/-- A file declaring two columns and flagging one. -/
def shortFlagsFile : List String := ["2", "a b", "I I", "1", "1 2"]

/-- A header declaring two columns and typing one. -/
def shortTypesFile : List String := ["2", "a b", "I", "0 0"]

/-- A file with two key columns whose only data row holds 0 in the first. -/
def zeroKeyFile : List String := ["2", "crate slot", "I I", "1 1", "0 5"]

/-- The object after loading `zeroKeyFile`. -/
def zeroKeyMap : DUNEGenChannelMapSP :=
  { m_DetToChanInfo := [(0, [(5, [(0, [(0, 0)])])])],
    m_OfflToChanInfo := [(0, 0)],
    m_KeyStrings := ["crate", "slot"],
    m_ColumnNames := ["crate", "slot"],
    m_CIMap := [("crate", 0), ("slot", 1)],
    m_ColumnTypes := [0, 0],
    m_KeyColFlags := [1, 1],
    m_WhichKey := [0, 1],
    m_MapInfo := [[AnyVal.int 0, AnyVal.int 5]] }

/-- A file without key columns, with two data rows. -/
def noKeyFile : List String := ["1", "val", "I", "0", "7", "8"]

/-- The object after loading `noKeyFile`. -/
def noKeyMap : DUNEGenChannelMapSP :=
  { m_DetToChanInfo := [(0, [(0, [(0, [(0, 1)])])])],
    m_OfflToChanInfo := [(0, 1)],
    m_KeyStrings := [],
    m_ColumnNames := ["val"],
    m_CIMap := [("val", 0)],
    m_ColumnTypes := [0],
    m_KeyColFlags := [0],
    m_WhichKey := [0],
    m_MapInfo := [[AnyVal.int 7], [AnyVal.int 8]] }

/-- A file whose two data rows share the key tuple (1) and whose column
`offlchan` is declared a string column. -/
def dupKeyStrOfflFile : List String := ["2", "crate offlchan", "I C", "1 0", "1 a", "1 b"]

/-- The object after loading `dupKeyStrOfflFile`. -/
def dupKeyStrOfflMap : DUNEGenChannelMapSP :=
  { m_DetToChanInfo := [(1, [(0, [(0, [(0, 1)])])])],
    m_OfflToChanInfo := [(0, 1)],
    m_KeyStrings := ["crate"],
    m_ColumnNames := ["crate", "offlchan"],
    m_CIMap := [("crate", 0), ("offlchan", 1)],
    m_ColumnTypes := [0, 1],
    m_KeyColFlags := [1, 0],
    m_WhichKey := [0, 0],
    m_MapInfo := [[AnyVal.int 1, AnyVal.str "a"], [AnyVal.int 1, AnyVal.str "b"]] }

/-- A file declaring two columns and typing one, with a data row. -/
def shortTypesDataFile : List String := ["2", "a b", "I", "0 0", "1 2"]

/-- A header declaring two columns, typing one and flagging the other. -/
def shortTypesFlaggedFile : List String := ["2", "a b", "I", "0 1"]

/-! ## Association maps and the four-level index -/

theorem AMap.find_set {κ α : Type} [DecidableEq κ] (k k' : κ) (v : α) (m : AMap κ α) :
    AMap.find k' (AMap.set k v m) = if k = k' then some v else AMap.find k' m := by
  induction m with
  | nil => simp [AMap.set, AMap.find]
  | cons hd tl ih =>
    obtain ⟨a, b⟩ := hd
    by_cases h1 : a = k
    · subst h1
      by_cases h2 : a = k' <;> simp [AMap.set, AMap.find, h2]
    · by_cases h2 : a = k'
      · subst h2
        simp [AMap.set, AMap.find, h1, Ne.symm h1]
      · simp [AMap.set, AMap.find, h1, h2, ih]

theorem AMap.getD_of_find {κ α : Type} [DecidableEq κ] (k : κ) (d : α) (m : AMap κ α) :
    AMap.getD k d m = (AMap.find k m).getD d := by
  unfold AMap.getD
  cases AMap.find k m <;> rfl

/-- Four-slot key tuples agree when their four components agree. -/
theorem keys_eq_of_getD (k k' : List Int) (hk : k.length = 4) (hk' : k'.length = 4)
    (h0 : k.getD 0 0 = k'.getD 0 0) (h1 : k.getD 1 0 = k'.getD 1 0)
    (h2 : k.getD 2 0 = k'.getD 2 0) (h3 : k.getD 3 0 = k'.getD 3 0) : k = k' := by
  match k, k', hk, hk' with
  | [a, b, c, d], [a', b', c', d'], _, _ =>
    simp at h0 h1 h2 h3
    simp [h0, h1, h2, h3]

theorem detFind_detSet (m : DetMap) (k k' : List Int) (v : Nat)
    (hk : k.length = 4) (hk' : k'.length = 4) :
    detFind (detSet m k v) k' = if k = k' then some v else detFind m k' := by
  by_cases h : k = k'
  · subst h
    simp [detFind, detSet, AMap.find_set]
  · rw [if_neg h]
    by_cases h0 : k.getD 0 0 = k'.getD 0 0
    · by_cases h1 : k.getD 1 0 = k'.getD 1 0
      · by_cases h2 : k.getD 2 0 = k'.getD 2 0
        · have h3 : k.getD 3 0 ≠ k'.getD 3 0 := fun h3 =>
            h (keys_eq_of_getD k k' hk hk' h0 h1 h2 h3)
          simp only [detFind, detSet, AMap.find_set, h0, h1, h2, h3, if_true, if_false,
            AMap.getD_of_find]
          cases AMap.find (k'.getD 0 0) m with
          | none => simp [AMap.find]
          | some m1 =>
            simp only [Option.getD_some]
            cases AMap.find (k'.getD 1 0) m1 with
            | none => simp [AMap.find]
            | some m2 =>
              simp only [Option.getD_some]
              cases AMap.find (k'.getD 2 0) m2 with
              | none => simp [AMap.find]
              | some m3 => simp
        · simp only [detFind, detSet, AMap.find_set, h0, h1, h2, if_true, if_false,
            AMap.getD_of_find]
          cases AMap.find (k'.getD 0 0) m with
          | none => simp [AMap.find]
          | some m1 =>
            simp only [Option.getD_some]
            cases AMap.find (k'.getD 1 0) m1 with
            | none => simp [AMap.find]
            | some m2 => simp
      · simp only [detFind, detSet, AMap.find_set, h0, h1, if_true, if_false,
          AMap.getD_of_find]
        cases AMap.find (k'.getD 0 0) m with
        | none => simp [AMap.find]
        | some m1 => simp
    · simp only [detFind, detSet, AMap.find_set, h0, if_false]

/-! ## Last position satisfying a predicate -/

theorem lastIdx_append_singleton {α : Type} (p : α → Bool) (l : List α) (x : α) :
    lastIdx p (l ++ [x]) = if p x then some l.length else lastIdx p l := by
  induction l with
  | nil => simp [lastIdx]
  | cons hd tl ih =>
    have hcons : lastIdx p (hd :: (tl ++ [x])) =
        match lastIdx p (tl ++ [x]) with
        | some j => some (j + 1)
        | none => if p hd then some 0 else none := rfl
    have hcons2 : lastIdx p (hd :: tl) =
        match lastIdx p tl with
        | some j => some (j + 1)
        | none => if p hd then some 0 else none := rfl
    rw [List.cons_append, hcons, hcons2, ih]
    by_cases hx : p x
    · simp [hx]
    · simp [hx]

theorem lastIdx_eq_none_iff {α : Type} (p : α → Bool) (l : List α) :
    lastIdx p l = none ↔ ∀ x ∈ l, p x = false := by
  induction l with
  | nil => simp [lastIdx]
  | cons hd tl ih =>
    simp only [lastIdx, List.mem_cons, forall_eq_or_imp]
    cases h : lastIdx p tl with
    | some j =>
      simp only [false_iff, not_and, reduceCtorEq]
      intro _ hall
      rw [ih.mpr hall] at h
      cases h
    | none =>
      have := ih.mp h
      by_cases hp : p hd
      · simp [hp]
      · have hp' : p hd = false := by simpa using hp
        simp only [hp', Bool.false_eq_true, if_false, true_and]
        exact ⟨fun _ => this, fun _ => trivial⟩

theorem lastIdx_eq_some_iff {α : Type} (p : α → Bool) (l : List α) (j : Nat) :
    lastIdx p l = some j ↔
      (∃ x, l[j]? = some x ∧ p x = true) ∧
      ∀ j' x', j < j' → l[j']? = some x' → p x' = false := by
  induction l generalizing j with
  | nil => simp [lastIdx]
  | cons hd tl ih =>
    simp only [lastIdx]
    cases h : lastIdx p tl with
    | some i =>
      have hi := (ih i).mp h
      constructor
      · intro hj
        simp only [Option.some.injEq] at hj
        subst hj
        refine ⟨by simpa using hi.1, ?_⟩
        intro j' x' hlt hget
        obtain ⟨j'', rfl⟩ : ∃ j'', j' = j'' + 1 := ⟨j' - 1, by omega⟩
        exact hi.2 j'' x' (by omega) (by simpa using hget)
      · rintro ⟨⟨x, hx, hpx⟩, hlast⟩
        cases j with
        | zero =>
          obtain ⟨y, hy, hpy⟩ := hi.1
          have := hlast (i + 1) y (by omega) (by simpa using hy)
          rw [this] at hpy
          cases hpy
        | succ j0 =>
          have : lastIdx p tl = some j0 := (ih j0).mpr
            ⟨⟨x, by simpa using hx, hpx⟩, fun j' x' hlt hget =>
              hlast (j' + 1) x' (by omega) (by simpa using hget)⟩
          rw [h] at this
          simpa using this
    | none =>
      have hnone := (lastIdx_eq_none_iff p tl).mp h
      by_cases hp : p hd
      · simp only [hp, if_true, Option.some.injEq]
        constructor
        · intro hj
          subst hj
          refine ⟨⟨hd, by simp, hp⟩, ?_⟩
          intro j' x' hlt hget
          obtain ⟨j'', rfl⟩ : ∃ j'', j' = j'' + 1 := ⟨j' - 1, by omega⟩
          exact hnone x' (List.getElem?_mem (by simpa using hget))
        · rintro ⟨⟨x, hx, hpx⟩, _⟩
          cases j with
          | zero => rfl
          | succ j0 =>
            have := hnone x (List.getElem?_mem (by simpa using hx))
            rw [this] at hpx
            cases hpx
      · simp only [hp, if_false, false_iff, not_and, reduceCtorEq, Bool.false_eq_true]
        rintro ⟨x, hx, hpx⟩
        cases j with
        | zero =>
          simp at hx
          subst hx
          exact absurd hpx hp
        | succ j0 =>
          have := hnone x (List.getElem?_mem (by simpa using hx))
          rw [this] at hpx
          cases hpx

theorem lastIdx_lt {α : Type} (p : α → Bool) (l : List α) (j : Nat)
    (h : lastIdx p l = some j) : j < l.length := by
  obtain ⟨⟨x, hx, _⟩, _⟩ := (lastIdx_eq_some_iff p l j).mp h
  exact (List.getElem?_eq_some_iff.mp hx).1

/-! ## Structure of the load loop -/

theorem bind_eq_ok {α β : Type} (x : Except Exn α) (f : α → Except Exn β) (b : β) :
    (x >>= f) = .ok b ↔ ∃ a, x = .ok a ∧ f a = .ok b := by
  cases x with
  | error e => simp [bind, Except.bind]
  | ok a => simp [bind, Except.bind]

theorem ok_bind {α β : Type} (a : α) (f : α → Except Exn β) :
    ((Except.ok a : Except Exn α) >>= f) = f a := rfl

theorem error_bind {α β : Type} (e : Exn) (f : α → Except Exn β) :
    ((Except.error e : Except Exn α) >>= f) = .error e := rfl

theorem readLoop_eq_processLines (rdF : FloatReader) (v : LoadVars) (lines : List String) :
    readLoop rdF v lines = processLines rdF v (retained lines) := by
  induction lines generalizing v with
  | nil => rfl
  | cons hd tl ih =>
    by_cases h : (stripComment hd).length = 0
    · have : retained (hd :: tl) = retained tl := by
        simp only [retained, List.map_cons]
        rw [List.filter_cons_of_neg (by simp [h])]
      rw [this, readLoop, processRawLine]
      simp only [h, if_true, ok_bind]
      exact ih v
    · have : retained (hd :: tl) = stripComment hd :: retained tl := by
        simp only [retained, List.map_cons]
        rw [List.filter_cons_of_pos (by simp [h])]
      rw [this, readLoop, processRawLine, processLines]
      simp only [h, if_false]
      congr 1
      funext v1
      exact ih v1

theorem processLines_append (rdF : FloatReader) (v : LoadVars) (l1 l2 : List (List Char)) :
    processLines rdF v (l1 ++ l2) =
      processLines rdF v l1 >>= fun v1 => processLines rdF v1 l2 := by
  induction l1 generalizing v with
  | nil => rfl
  | cons hd tl ih =>
    simp only [List.cons_append, processLines]
    cases h : processLine rdF v hd with
    | error e => rfl
    | ok v1 => simp only [ok_bind]; exact ih v1

theorem processLine_data (rdF : FloatReader) (v : LoadVars) (line : List Char)
    (hs : v.state = 4) :
    processLine rdF v line =
      readColumns rdF v.self.m_ColumnTypes v.self.m_KeyColFlags v.self.m_ColumnNames
        0 v.ncolumns.toNat (RowVars.init line) >>= fun r =>
      .ok { v with self := addRow v.self r } := by
  simp [processLine, hs, addRow]

theorem processLines_data (rdF : FloatReader) (ds : List (List Char)) (v v' : LoadVars)
    (hs : v.state = 4) (h : processLines rdF v ds = .ok v') :
    v'.state = 4 ∧ v'.ncolumns = v.ncolumns ∧
    ∃ rs : List RowVars,
      List.Forall₂ (fun d r =>
        readColumns rdF v.self.m_ColumnTypes v.self.m_KeyColFlags v.self.m_ColumnNames
          0 v.ncolumns.toNat (RowVars.init d) = .ok r) ds rs ∧
      v'.self = rs.foldl addRow v.self := by
  induction ds generalizing v with
  | nil =>
    simp only [processLines, Except.ok.injEq] at h
    subst h
    exact ⟨hs, rfl, [], List.Forall₂.nil, rfl⟩
  | cons d tl ih =>
    rw [processLines, processLine_data rdF v d hs] at h
    obtain ⟨v1, hv1, h2⟩ := (bind_eq_ok _ _ _).mp h
    obtain ⟨r, hr, hv1'⟩ := (bind_eq_ok _ _ _).mp hv1
    simp only [Except.ok.injEq] at hv1'
    subst hv1'
    obtain ⟨h4, hn, rs, hall, hself⟩ :=
      ih { self := addRow v.self r, state := v.state, ncolumns := v.ncolumns } hs h2
    exact ⟨h4, hn, r :: rs, List.Forall₂.cons hr hall, hself⟩

/-! ## Decoding of a data row -/

theorem pad4_length (l : List Int) : (pad4 l).length = 4 := by
  simp [pad4]

theorem pad4_snoc (l : List Int) (v : Int) (h : l.length < 4) :
    pad4 (l ++ [v]) = (pad4 l).set l.length v := by
  match l, h with
  | [], _ => rfl
  | [_], _ => rfl
  | [_, _], _ => rfl
  | [_, _, _], _ => rfl

theorem keyVals_snoc (fs : List Int) (xs : List AnyVal) (x : AnyVal) :
    keyVals fs (xs ++ [x]) = keyVals fs xs ++
      (match fs[xs.length]?, x with
       | some fl, .int v => if fl ≠ 0 then [v] else []
       | _, _ => []) := by
  induction fs generalizing xs with
  | nil => cases xs <;> simp [keyVals]
  | cons fl fs ih =>
    cases xs with
    | nil =>
      cases x <;> cases fs <;> simp [keyVals]
    | cons y ys =>
      have h := ih ys
      rw [List.cons_append]
      simp only [keyVals, List.length_cons, List.getElem?_cons_succ]
      rw [h, List.append_assoc]

theorem rowOfflFrom_snoc (acc : Int) (ns : List String) (xs : List AnyVal) (x : AnyVal) :
    rowOfflFrom acc ns (xs ++ [x]) =
      (match ns[xs.length]?, x with
       | some nm, .int v => if nm = "offlchan" then v else rowOfflFrom acc ns xs
       | _, _ => rowOfflFrom acc ns xs) := by
  induction ns generalizing xs acc with
  | nil => cases xs <;> cases x <;> simp [rowOfflFrom]
  | cons nm ns ih =>
    cases xs with
    | nil =>
      cases x <;> cases ns <;> simp [rowOfflFrom]
    | cons y ys =>
      rw [List.cons_append]
      simp only [rowOfflFrom, List.length_cons, List.getElem?_cons_succ]
      exact ih _ ys

theorem numGetInt_range (cs : List Char) : inIntRange (numGetInt cs).2 := by
  unfold numGetInt inIntRange INT_MIN INT_MAX
  dsimp only
  split_ifs <;> constructor <;> simp only [] <;> omega

theorem extractInt_range (s : IStream) (old : Int) (h : inIntRange old) :
    inIntRange (extractInt s old).2 := by
  unfold extractInt
  split
  · exact h
  · exact numGetInt_range _

theorem vecAt_eq_ok {α : Type} (v : List α) (i : Nat) (x : α) :
    vecAt v i = .ok x ↔ v[i]? = some x := by
  unfold vecAt
  cases v[i]? <;> simp

theorem vecSetAt_eq_ok {α : Type} (v : List α) (i : Nat) (x : α) (w : List α) :
    vecSetAt v i x = .ok w ↔ i < v.length ∧ w = v.set i x := by
  unfold vecSetAt
  by_cases h : i < v.length <;> simp [h, eq_comm]

theorem RowInv_init (types flags : List Int) (names : List String) (line : List Char) :
    RowInv types flags names 0 (RowVars.init line) := by
  refine ⟨rfl, ?_, ?_, ?_, ?_, ?_, ?_⟩
  · cases flags <;> rfl
  · cases flags <;> rfl
  · cases names <;> rfl
  · simp [RowVars.init, inIntRange, INT_MIN, INT_MAX]
  · simp [RowVars.init, inIntRange, INT_MIN, INT_MAX]
  · intro j x h
    simp [RowVars.init] at h

theorem tags_snoc (types : List Int) (dl : List AnyVal) (x : AnyVal)
    (h : ∀ (j : Nat) (y : AnyVal), dl[j]? = some y → types[j]? = some (tagOf y))
    (hx : types[dl.length]? = some (tagOf x)) :
    ∀ (j : Nat) (y : AnyVal), (dl ++ [x])[j]? = some y → types[j]? = some (tagOf y) := by
  intro j y hj
  by_cases hlt : j < dl.length
  · rw [List.getElem?_append_left hlt] at hj
    exact h j y hj
  · have hle : dl.length ≤ j := by omega
    rw [List.getElem?_append_right hle] at hj
    have : j - dl.length = 0 := by
      by_contra hne
      have : ([x] : List AnyVal)[j - dl.length]? = none := by
        apply List.getElem?_eq_none
        simp; omega
      rw [this] at hj
      cases hj
    rw [this] at hj
    simp at hj
    subst hj
    have : j = dl.length := by omega
    rw [this]
    exact hx

theorem readColumn_inv (rdF : FloatReader) (types flags : List Int) (names : List String)
    (htypes : ∀ ty ∈ types, ty = 0 ∨ ty = 1 ∨ ty = 2)
    (i : Nat) (r r' : RowVars) (hinv : RowInv types flags names i r)
    (h : readColumn rdF types flags names i r = .ok r') :
    RowInv types flags names (i + 1) r' := by
  unfold readColumn at h
  obtain ⟨ty, hty, h⟩ := (bind_eq_ok _ _ _).mp h
  have hty' := (vecAt_eq_ok _ _ _).mp hty
  have hmem : ty ∈ types := List.getElem?_mem hty'
  by_cases h0 : ty = 0
  · simp only [h0, if_true] at h
    rcases hx : extractInt r.linestream r.ci with ⟨ls1, ci⟩
    rw [hx] at h
    simp only at h
    have hci : inIntRange ci := by
      have := extractInt_range r.linestream r.ci hinv.ci_rng
      rw [hx] at this
      exact this
    obtain ⟨fl, hfl, h⟩ := (bind_eq_ok _ _ _).mp h
    have hfl' := (vecAt_eq_ok _ _ _).mp hfl
    obtain ⟨r2, hr2, h⟩ := (bind_eq_ok _ _ _).mp h
    obtain ⟨nm, hnm, h⟩ := (bind_eq_ok _ _ _).mp h
    have hnm' := (vecAt_eq_ok _ _ _).mp hnm
    have hkv : keyVals flags (r.dataline ++ [AnyVal.int ci]) =
        keyVals flags r.dataline ++ (if fl ≠ 0 then [ci] else []) := by
      rw [keyVals_snoc, hinv.len, hfl']
    have hof : rowOffl names (r.dataline ++ [AnyVal.int ci]) =
        if nm = "offlchan" then ci else rowOffl names r.dataline := by
      unfold rowOffl
      rw [rowOfflFrom_snoc, hinv.len, hnm']
    have htag : ∀ (j : Nat) (y : AnyVal), (r.dataline ++ [AnyVal.int ci])[j]? = some y →
        types[j]? = some (tagOf y) :=
      tags_snoc types r.dataline (AnyVal.int ci) hinv.tags
        (by rw [hinv.len, hty', h0]; rfl)
    -- the state after the key flag test
    have hr2' : r2.dataline = r.dataline ++ [AnyVal.int ci] ∧ r2.ci = ci ∧
        r2.offlchan = r.offlchan ∧ r2.mapkeys = rowKeys flags r2.dataline ∧
        r2.ikey = (keyVals flags r2.dataline).length := by
      by_cases hf : fl ≠ 0
      · simp only [hf, if_true, ne_eq, not_false_eq_true] at hr2
        obtain ⟨mk, hmk, hr2⟩ := (bind_eq_ok _ _ _).mp hr2
        obtain ⟨hlt, hmk'⟩ := (vecSetAt_eq_ok _ _ _ _).mp hmk
        simp only [Except.ok.injEq] at hr2
        subst hr2
        simp only [hinv.keys, rowKeys, pad4_length, hinv.ikey] at hlt
        refine ⟨rfl, rfl, rfl, ?_, ?_⟩
        · simp only [hmk', rowKeys, hkv, hf, if_true, ne_eq, not_false_eq_true]
          rw [pad4_snoc _ _ hlt, hinv.keys, hinv.ikey]
          rfl
        · simp only [hkv, hf, if_true, ne_eq, not_false_eq_true, List.length_append,
            List.length_singleton, hinv.ikey]
      · simp only [hf, if_false] at hr2
        simp only [Except.ok.injEq] at hr2
        subst hr2
        refine ⟨rfl, rfl, rfl, ?_, ?_⟩
        · simp only [rowKeys, hkv, hf, if_false, List.append_nil]
          exact hinv.keys
        · simp only [hkv, hf, if_false, List.append_nil]
          exact hinv.ikey
    obtain ⟨hdl, hci2, hoff2, hkeys2, hikey2⟩ := hr2'
    by_cases hn : nm = "offlchan"
    · simp only [hn, if_true, Except.ok.injEq] at h
      subst h
      refine ⟨by simp [hdl, hinv.len], hkeys2, hikey2, ?_, by simpa [hci2] using hci,
        hci, by simpa [hdl] using htag⟩
      simp only [hdl, hof, hn, if_true]
    · simp only [hn, if_false, Except.ok.injEq] at h
      subst h
      refine ⟨by simp [hdl, hinv.len], hkeys2, hikey2, ?_, by simpa [hci2] using hci,
        by simpa [hoff2] using hinv.offl_rng, by simpa [hdl] using htag⟩
      simp only [hdl, hof, hn, if_false, hoff2]
      exact hinv.offl
  · simp only [h0, if_false] at h
    have hnonint : ∀ x : AnyVal, (∀ v, x ≠ AnyVal.int v) →
        types[r.dataline.length]? = some (tagOf x) →
        RowInv types flags names (i + 1)
          { r with dataline := r.dataline ++ [x] } := by
      intro x hx htx
      refine ⟨by simp [hinv.len], ?_, ?_, ?_, hinv.ci_rng, hinv.offl_rng,
        tags_snoc types r.dataline x hinv.tags htx⟩
      · have : keyVals flags (r.dataline ++ [x]) = keyVals flags r.dataline := by
          rw [keyVals_snoc]
          cases x with
          | int v => exact absurd rfl (hx v)
          | _ => cases flags[r.dataline.length]? <;> simp
        simp only [rowKeys, this]
        exact hinv.keys
      · have : keyVals flags (r.dataline ++ [x]) = keyVals flags r.dataline := by
          rw [keyVals_snoc]
          cases x with
          | int v => exact absurd rfl (hx v)
          | _ => cases flags[r.dataline.length]? <;> simp
        simp only [this]
        exact hinv.ikey
      · have : rowOffl names (r.dataline ++ [x]) = rowOffl names r.dataline := by
          unfold rowOffl
          rw [rowOfflFrom_snoc]
          cases x with
          | int v => exact absurd rfl (hx v)
          | _ => cases names[r.dataline.length]? <;> simp
        simp only [this]
        exact hinv.offl
    by_cases h1 : ty = 1
    · simp only [h1, if_true] at h
      rcases hx : extractString r.linestream r.cs with ⟨ls1, cs⟩
      rw [hx] at h
      simp only [Except.ok.injEq] at h
      subst h
      have := hnonint (AnyVal.str cs) (by intro v; simp)
        (by rw [hinv.len, hty', h1]; rfl)
      exact ⟨this.len, this.keys, this.ikey, this.offl, this.ci_rng, this.offl_rng, this.tags⟩
    · have h2 : ty = 2 := by
        rcases htypes ty hmem with h | h | h
        · exact absurd h h0
        · exact absurd h h1
        · exact h
      simp only [h2, if_true] at h
      have h21 : ¬ ((2 : Int) = 1) := by decide
      simp only [h21, if_false] at h
      rcases hx : extractFloat rdF r.linestream r.cf with ⟨ls1, cf⟩
      rw [hx] at h
      simp only [Except.ok.injEq] at h
      subst h
      have := hnonint (AnyVal.flt cf) (by intro v; simp)
        (by rw [hinv.len, hty', h2]; rfl)
      exact ⟨this.len, this.keys, this.ikey, this.offl, this.ci_rng, this.offl_rng, this.tags⟩

theorem readColumns_inv (rdF : FloatReader) (types flags : List Int) (names : List String)
    (htypes : ∀ ty ∈ types, ty = 0 ∨ ty = 1 ∨ ty = 2)
    (n i : Nat) (r r' : RowVars) (hinv : RowInv types flags names i r)
    (h : readColumns rdF types flags names i n r = .ok r') :
    RowInv types flags names (i + n) r' ∧ i + n ≤ types.length + (if n = 0 then i else 0) := by
  induction n generalizing i r with
  | zero =>
    simp only [readColumns, Except.ok.injEq] at h
    subst h
    exact ⟨hinv, by simp⟩
  | succ n ih =>
    rw [readColumns] at h
    obtain ⟨r1, hr1, h⟩ := (bind_eq_ok _ _ _).mp h
    have h1 := readColumn_inv rdF types flags names htypes i r r1 hinv hr1
    obtain ⟨h2, hlen⟩ := ih (i + 1) r1 h1 h
    refine ⟨by rw [show i + (n + 1) = i + 1 + n by omega]; exact h2, ?_⟩
    simp only [Nat.add_one_ne_zero, if_false, Nat.add_zero]
    by_cases hn : n = 0
    · subst hn
      -- the last column read is a position of `types`
      unfold readColumn at hr1
      obtain ⟨ty, hty, _⟩ := (bind_eq_ok _ _ _).mp hr1
      have := (vecAt_eq_ok _ _ _).mp hty
      have := (List.getElem?_eq_some_iff.mp this).1
      omega
    · simp only [hn, if_false, Nat.add_zero] at hlen
      omega

/-! ## The three header loops -/

theorem readNames_spec (ls : IStream) (i k : Nat) (self : DUNEGenChannelMapSP)
    (hi : i = self.m_ColumnNames.length) (hinv : NamesInv self) :
    NamesInv (readNames ls i k self) ∧
    (readNames ls i k self).m_ColumnNames.length = i + k ∧
    (readNames ls i k self).m_ColumnTypes = self.m_ColumnTypes ∧
    (readNames ls i k self).m_KeyColFlags = self.m_KeyColFlags ∧
    (readNames ls i k self).m_WhichKey = self.m_WhichKey ∧
    (readNames ls i k self).m_KeyStrings = self.m_KeyStrings ∧
    (readNames ls i k self).m_DetToChanInfo = self.m_DetToChanInfo ∧
    (readNames ls i k self).m_OfflToChanInfo = self.m_OfflToChanInfo ∧
    (readNames ls i k self).m_MapInfo = self.m_MapInfo := by
  induction k generalizing ls i self with
  | zero => exact ⟨hinv, by simpa [readNames] using hi.symm, rfl, rfl, rfl, rfl, rfl, rfl, rfl⟩
  | succ k ih =>
    rw [readNames]
    rcases hx : extractString ls "" with ⟨ls1, cn⟩
    simp only
    have hinv1 : NamesInv { self with m_ColumnNames := self.m_ColumnNames ++ [cn],
                                      m_CIMap := AMap.set cn i self.m_CIMap } := by
      intro name
      simp only [AMap.find_set, lastIdx_append_singleton, decide_eq_true_eq, hi]
      by_cases hn : cn = name
      · simp [hn]
      · simp only [hn, if_false]
        exact hinv name
    obtain ⟨h1, h2, h3, h4, h5, h6, h7, h8, h9⟩ :=
      ih ls1 (i + 1) _ (by simp [hi]) hinv1
    exact ⟨h1, by rw [h2]; omega, h3, h4, h5, h6, h7, h8, h9⟩

theorem readTypes_spec (ls : IStream) (k : Nat) (self : DUNEGenChannelMapSP)
    (hty : ∀ ty ∈ self.m_ColumnTypes, ty = 0 ∨ ty = 1 ∨ ty = 2) :
    (∀ ty ∈ (readTypes ls k self).m_ColumnTypes, ty = 0 ∨ ty = 1 ∨ ty = 2) ∧
    (readTypes ls k self).m_ColumnTypes.length ≤ self.m_ColumnTypes.length + k ∧
    (readTypes ls k self).m_ColumnNames = self.m_ColumnNames ∧
    (readTypes ls k self).m_CIMap = self.m_CIMap ∧
    (readTypes ls k self).m_KeyColFlags = self.m_KeyColFlags ∧
    (readTypes ls k self).m_WhichKey = self.m_WhichKey ∧
    (readTypes ls k self).m_KeyStrings = self.m_KeyStrings ∧
    (readTypes ls k self).m_DetToChanInfo = self.m_DetToChanInfo ∧
    (readTypes ls k self).m_OfflToChanInfo = self.m_OfflToChanInfo ∧
    (readTypes ls k self).m_MapInfo = self.m_MapInfo := by
  induction k generalizing ls self with
  | zero => exact ⟨hty, by simp [readTypes], rfl, rfl, rfl, rfl, rfl, rfl, rfl, rfl⟩
  | succ k ih =>
    rw [readTypes]
    rcases hx : extractString ls "" with ⟨ls1, ct⟩
    simp only
    have push : ∀ c : Int, (c = 0 ∨ c = 1 ∨ c = 2) →
        ∀ ty ∈ self.m_ColumnTypes ++ [c], ty = 0 ∨ ty = 1 ∨ ty = 2 := by
      intro c hc ty hmem
      rcases List.mem_append.mp hmem with h | h
      · exact hty ty h
      · simp at h
        subst h
        exact hc
    split_ifs
    · obtain ⟨h1, h2, h3⟩ := ih ls1 { self with m_ColumnTypes := self.m_ColumnTypes ++ [0] }
        (push 0 (Or.inl rfl))
      exact ⟨h1, by simp at h2; omega, h3⟩
    · obtain ⟨h1, h2, h3⟩ := ih ls1 { self with m_ColumnTypes := self.m_ColumnTypes ++ [1] }
        (push 1 (Or.inr (Or.inl rfl)))
      exact ⟨h1, by simp at h2; omega, h3⟩
    · obtain ⟨h1, h2, h3⟩ := ih ls1 { self with m_ColumnTypes := self.m_ColumnTypes ++ [2] }
        (push 2 (Or.inr (Or.inr rfl)))
      exact ⟨h1, by simp at h2; omega, h3⟩
    · obtain ⟨h1, h2, h3⟩ := ih ls1 self hty
      exact ⟨h1, by omega, h3⟩

theorem keyNames_snoc (ns : List String) (fs : List Int) (fl : Int) :
    keyNames ns (fs ++ [fl]) = keyNames ns fs ++
      (match ns[fs.length]? with
       | some nm => if fl ≠ 0 then [nm] else []
       | none => []) := by
  induction ns generalizing fs with
  | nil => cases fs <;> simp [keyNames]
  | cons nm ns ih =>
    cases fs with
    | nil => cases ns <;> simp [keyNames]
    | cons g gs =>
      have h := ih gs
      rw [List.cons_append]
      simp only [keyNames, List.length_cons, List.getElem?_cons_succ]
      rw [h]
      split_ifs <;> simp

theorem FlagsInv_snoc (self : DUNEGenChannelMapSP) (cf : Int) (wk : Nat) (ks : List String)
    (hinv : FlagsInv self)
    (hwk : cf ≠ 0 → wk = self.m_KeyStrings.length)
    (hks : ks = self.m_KeyStrings ++
      (match self.m_ColumnNames[self.m_KeyColFlags.length]? with
       | some nm => if cf ≠ 0 then [nm] else []
       | none => []))
    (hkl : ks.length = self.m_KeyStrings.length + (if cf ≠ 0 then 1 else 0))
    (hty : cf ≠ 0 → self.m_ColumnTypes[self.m_KeyColFlags.length]? = some 0) :
    FlagsInv { self with m_KeyColFlags := self.m_KeyColFlags ++ [cf],
                         m_WhichKey := self.m_WhichKey ++ [wk],
                         m_KeyStrings := ks } := by
  refine ⟨by simp [hinv.wk_len], ?_, ?_, ?_⟩
  · simp only [hkl, List.countP_append, hinv.ks_len, List.countP_singleton]
    by_cases h : cf ≠ 0 <;> simp [h]
  · simp only [hks, keyNames_snoc, hinv.ks]
  · intro i fl hget hfl
    simp only at hget ⊢
    by_cases hlt : i < self.m_KeyColFlags.length
    · rw [List.getElem?_append_left hlt] at hget
      obtain ⟨h1, h2⟩ := hinv.flagged i fl hget hfl
      refine ⟨h1, ?_⟩
      rw [List.getElem?_append_left (by rw [hinv.wk_len]; exact hlt), h2,
        List.take_append_of_le_length (by omega)]
    · have hle : self.m_KeyColFlags.length ≤ i := by omega
      rw [List.getElem?_append_right hle] at hget
      have hi0 : i - self.m_KeyColFlags.length = 0 := by
        by_contra hne
        have : ([cf] : List Int)[i - self.m_KeyColFlags.length]? = none := by
          apply List.getElem?_eq_none
          simp; omega
        rw [this] at hget
        cases hget
      rw [hi0] at hget
      simp at hget
      subst hget
      have hi : i = self.m_KeyColFlags.length := by omega
      subst hi
      refine ⟨hty hfl, ?_⟩
      rw [List.getElem?_append_right (by rw [hinv.wk_len])]
      simp only [hinv.wk_len, Nat.sub_self, List.getElem?_cons_zero, Option.some.injEq]
      rw [hwk hfl, hinv.ks_len, List.take_left']
      rfl

theorem readFlags_spec (ls : IStream) (i k : Nat) (self s' : DUNEGenChannelMapSP)
    (hi : i = self.m_KeyColFlags.length) (hinv : FlagsInv self)
    (h : readFlags ls i k self = .ok s') :
    FlagsInv s' ∧
    s'.m_KeyColFlags.length = i + k ∧
    s'.m_ColumnNames = self.m_ColumnNames ∧
    s'.m_CIMap = self.m_CIMap ∧
    s'.m_ColumnTypes = self.m_ColumnTypes ∧
    s'.m_DetToChanInfo = self.m_DetToChanInfo ∧
    s'.m_OfflToChanInfo = self.m_OfflToChanInfo ∧
    s'.m_MapInfo = self.m_MapInfo := by
  induction k generalizing ls i self with
  | zero =>
    simp only [readFlags, Except.ok.injEq] at h
    subst h
    exact ⟨hinv, by simpa using hi.symm, rfl, rfl, rfl, rfl, rfl, rfl⟩
  | succ k ih =>
    rw [readFlags] at h
    rcases hx : extractInt ls 0 with ⟨ls1, cf⟩
    rw [hx] at h
    simp only at h
    obtain ⟨ty, hty, h⟩ := (bind_eq_ok _ _ _).mp h
    by_cases hcf : cf ≠ 0
    · simp only [hcf, if_true, ne_eq, not_false_eq_true, true_and] at h hty
      have hty' := (vecAt_eq_ok _ _ _).mp hty
      by_cases ht0 : ty = 0
      · subst ht0
        simp only [not_true_eq_false, if_false] at h
        obtain ⟨nm, hnm, h⟩ := (bind_eq_ok _ _ _).mp h
        have hnm' := (vecAt_eq_ok _ _ _).mp hnm
        have hinv1 := FlagsInv_snoc self cf self.m_KeyStrings.length
          (self.m_KeyStrings ++ [nm]) hinv (fun _ => rfl)
          (by rw [← hi, hnm']; simp [hcf]) (by simp [hcf])
          (fun _ => by rw [← hi]; exact hty')
        obtain ⟨h1, h2, h3⟩ := ih ls1 (i + 1) _ (by simp [hi]) hinv1 h
        exact ⟨h1, by rw [h2]; omega, h3⟩
      · simp only [ht0, not_false_eq_true, if_true] at h
        cases h
    · have hcf0 : cf = 0 := by simpa using hcf
      subst hcf0
      simp only [ne_eq, not_true_eq_false, if_false, false_and] at h
      have hinv1 := FlagsInv_snoc self 0 0 self.m_KeyStrings hinv (fun h => absurd rfl h)
        (by cases self.m_ColumnNames[self.m_KeyColFlags.length]? <;> simp) (by simp)
        (fun h => absurd rfl h)
      obtain ⟨h1, h2, h3⟩ := ih ls1 (i + 1) _ (by simp [hi]) hinv1 h
      exact ⟨h1, by rw [h2]; omega, h3⟩

/-! ## What a load leaves behind -/

theorem foldl_addRow_snoc (s : DUNEGenChannelMapSP) (rs : List RowVars) (r : RowVars) :
    (rs ++ [r]).foldl addRow s = addRow (rs.foldl addRow s) r := by
  simp [List.foldl_append]

theorem foldl_addRow_schema (s : DUNEGenChannelMapSP) (rs : List RowVars) :
    (rs.foldl addRow s).m_ColumnNames = s.m_ColumnNames ∧
    (rs.foldl addRow s).m_CIMap = s.m_CIMap ∧
    (rs.foldl addRow s).m_ColumnTypes = s.m_ColumnTypes ∧
    (rs.foldl addRow s).m_KeyColFlags = s.m_KeyColFlags ∧
    (rs.foldl addRow s).m_WhichKey = s.m_WhichKey ∧
    (rs.foldl addRow s).m_KeyStrings = s.m_KeyStrings := by
  induction rs generalizing s with
  | nil => exact ⟨rfl, rfl, rfl, rfl, rfl, rfl⟩
  | cons r rs ih => exact ih (addRow s r)

theorem foldl_addRow_mapInfo (s : DUNEGenChannelMapSP) (rs : List RowVars) :
    (rs.foldl addRow s).m_MapInfo = s.m_MapInfo ++ rs.map (fun r => r.dataline) := by
  induction rs generalizing s with
  | nil => simp
  | cons r rs ih =>
    rw [List.foldl_cons, ih (addRow s r)]
    simp [addRow]

theorem foldl_addRow_det (s : DUNEGenChannelMapSP) (rs : List RowVars)
    (hm : s.m_MapInfo = []) (hd : s.m_DetToChanInfo = [])
    (hlen : ∀ r ∈ rs, r.mapkeys.length = 4) (t : List Int) (ht : t.length = 4) :
    detFind (rs.foldl addRow s).m_DetToChanInfo t =
      lastIdx (fun r => decide (r.mapkeys = t)) rs := by
  induction rs using List.reverseRecOn with
  | nil => simp [hd, detFind, AMap.find, lastIdx]
  | append_singleton rs r ih =>
    have hlen' : ∀ r ∈ rs, r.mapkeys.length = 4 := fun x hx =>
      hlen x (List.mem_append_left _ hx)
    have hr : r.mapkeys.length = 4 := hlen r (by simp)
    rw [foldl_addRow_snoc, lastIdx_append_singleton]
    show detFind (detSet _ r.mapkeys _) t = _
    rw [detFind_detSet _ _ _ _ hr ht, ih hlen', foldl_addRow_mapInfo, hm]
    simp

theorem foldl_addRow_offl (s : DUNEGenChannelMapSP) (rs : List RowVars)
    (hm : s.m_MapInfo = []) (hd : s.m_OfflToChanInfo = []) (u : Nat) :
    AMap.find u (rs.foldl addRow s).m_OfflToChanInfo =
      lastIdx (fun r => decide (toUnsigned r.offlchan = u)) rs := by
  induction rs using List.reverseRecOn with
  | nil => simp [hd, AMap.find, lastIdx]
  | append_singleton rs r ih =>
    rw [foldl_addRow_snoc, lastIdx_append_singleton]
    show AMap.find u (AMap.set _ _ _) = _
    rw [AMap.find_set, ih, foldl_addRow_mapInfo, hm]
    simp

theorem keyNames_nil_right (ns : List String) : keyNames ns [] = [] := by
  cases ns <;> rfl

theorem header_pre (lsN lsT : IStream) (kn kt : Nat) (hk : kt ≤ kn) :
    let s2 := readTypes lsT kt (readNames lsN 0 kn DUNEGenChannelMapSP.new)
    NamesInv s2 ∧ s2.m_ColumnNames.length = kn ∧
    (∀ ty ∈ s2.m_ColumnTypes, ty = 0 ∨ ty = 1 ∨ ty = 2) ∧
    s2.m_ColumnTypes.length ≤ s2.m_ColumnNames.length ∧
    s2.m_KeyColFlags = [] ∧ s2.m_WhichKey = [] ∧ s2.m_KeyStrings = [] ∧
    s2.m_DetToChanInfo = [] ∧ s2.m_OfflToChanInfo = [] ∧ s2.m_MapInfo = [] := by
  intro s2
  have hnew : NamesInv DUNEGenChannelMapSP.new := by
    intro name
    simp [DUNEGenChannelMapSP.new, AMap.find, lastIdx]
  obtain ⟨a1, a2, a3, a4, a5, a6, a7, a8, a9⟩ :=
    readNames_spec lsN 0 kn DUNEGenChannelMapSP.new rfl hnew
  obtain ⟨b1, b2, b3, b4, b5, b6, b7, b8, b9, b10⟩ :=
    readTypes_spec lsT kt (readNames lsN 0 kn DUNEGenChannelMapSP.new)
      (by rw [a3]; simp [DUNEGenChannelMapSP.new])
  have hnames : s2.m_ColumnNames.length = kn := by
    show (readTypes lsT kt _).m_ColumnNames.length = kn
    rw [b3, a2]; omega
  refine ⟨?_, hnames, b1, ?_, ?_, ?_, ?_, ?_, ?_, ?_⟩
  · intro name
    show AMap.find name (readTypes lsT kt _).m_CIMap = lastIdx _ (readTypes lsT kt _).m_ColumnNames
    rw [b4, b3]
    exact a1 name
  · rw [hnames]
    have : (readNames lsN 0 kn DUNEGenChannelMapSP.new).m_ColumnTypes.length = 0 := by
      rw [a3]; rfl
    show (readTypes lsT kt _).m_ColumnTypes.length ≤ kn
    omega
  · show (readTypes lsT kt _).m_KeyColFlags = []
    rw [b5, a4]; rfl
  · show (readTypes lsT kt _).m_WhichKey = []
    rw [b6, a5]; rfl
  · show (readTypes lsT kt _).m_KeyStrings = []
    rw [b7, a6]; rfl
  · show (readTypes lsT kt _).m_DetToChanInfo = []
    rw [b8, a7]; rfl
  · show (readTypes lsT kt _).m_OfflToChanInfo = []
    rw [b9, a8]; rfl
  · show (readTypes lsT kt _).m_MapInfo = []
    rw [b10, a9]; rfl


theorem forall₂_right_of {α β : Type} (R : α → β → Prop) (P : β → Prop)
    (l1 : List α) (l2 : List β) (h : List.Forall₂ R l1 l2)
    (hp : ∀ a b, R a b → P b) : ∀ b ∈ l2, P b := by
  induction h with
  | nil => simp
  | cons hab _ ih =>
    intro b hb
    rcases List.mem_cons.mp hb with h | h
    · subst h; exact hp _ _ hab
    · exact ih b h

theorem short_loaded (rdF : FloatReader) (lines : List String) (lsN lsT : IStream)
    (kn kt : Nat) (hk : kt ≤ kn) (hshort : (retained lines).length < 4) :
    LoadedFrom rdF lines (readTypes lsT kt (readNames lsN 0 kn DUNEGenChannelMapSP.new)) [] := by
  obtain ⟨h1, h2, h3, h4, h5, h6, h7, h8, h9, h10⟩ := header_pre lsN lsT kn kt hk
  have hdata : dataLines lines = [] := by
    unfold dataLines
    exact List.drop_eq_nil_of_le (by omega)
  refine
    { names_inv := h1
      flags_inv := ⟨by rw [h5, h6]; rfl, by rw [h5, h7]; rfl, by rw [h5, h7, keyNames_nil_right],
        by intro i fl hget; rw [h5] at hget; simp at hget⟩
      nkeys := by rw [h7]; simp
      types_ok := h3
      types_len := h4
      flags_len := by intro h; omega
      flags_nil := fun _ => h5
      rows := by rw [hdata]; exact List.Forall₂.nil
      row_inv := by simp
      full_types := by simp
      mapInfo := by rw [h10]; rfl
      det := by intro t _; rw [h8]; simp [detFind, AMap.find, lastIdx]
      offl := by intro u; rw [h9]; simp [AMap.find, lastIdx] }

theorem full_loaded (rdF : FloatReader) (lines : List String) (a b c d : List Char)
    (ds : List (List Char)) (hret : retained lines = a :: b :: c :: d :: ds)
    (n : Int) (s3 : DUNEGenChannelMapSP) (v : LoadVars)
    (hflags : readFlags { buf := d, fail := false } 0 n.toNat
      (readTypes { buf := c, fail := false } n.toNat
        (readNames { buf := b, fail := false } 0 n.toNat DUNEGenChannelMapSP.new)) = .ok s3)
    (hdata : processLines rdF { self := s3, state := 4, ncolumns := n } ds = .ok v)
    (hk : v.self.m_KeyStrings.length ≤ 4) :
    ∃ rs, LoadedFrom rdF lines v.self rs := by
  obtain ⟨h1, h2, h3, h4, h5, h6, h7, h8, h9, h10⟩ :=
    header_pre { buf := b, fail := false } { buf := c, fail := false } n.toNat n.toNat
      (Nat.le_refl _)
  have hF0 : FlagsInv (readTypes { buf := c, fail := false } n.toNat
      (readNames { buf := b, fail := false } 0 n.toNat DUNEGenChannelMapSP.new)) :=
    ⟨by rw [h5, h6]; rfl, by rw [h5, h7]; rfl, by rw [h5, h7, keyNames_nil_right],
      by intro i fl hget; rw [h5] at hget; simp at hget⟩
  obtain ⟨f1, f2, f3, f4, f5, f6, f7, f8⟩ :=
    readFlags_spec _ 0 n.toNat _ s3 (by rw [h5]; rfl) hF0 hflags
  obtain ⟨_, _, rs, hrows, hself⟩ := processLines_data rdF ds _ v rfl hdata
  obtain ⟨g1, g2, g3, g4, g5, g6⟩ := foldl_addRow_schema s3 rs
  simp only at hrows hself
  have hnames : v.self.m_ColumnNames = s3.m_ColumnNames := by rw [hself, g1]
  have htypes : v.self.m_ColumnTypes = s3.m_ColumnTypes := by rw [hself, g3]
  have hfl : v.self.m_KeyColFlags = s3.m_KeyColFlags := by rw [hself, g4]
  have hnlen : s3.m_ColumnNames.length = n.toNat := by rw [f3, h2]
  have hdl : dataLines lines = ds := by simp [dataLines, hret]
  have hret4 : 4 ≤ (retained lines).length := by rw [hret]; simp
  have htok : ∀ ty ∈ s3.m_ColumnTypes, ty = 0 ∨ ty = 1 ∨ ty = 2 := by rw [f5]; exact h3
  have hinvs : ∀ r ∈ rs, RowInv s3.m_ColumnTypes s3.m_KeyColFlags s3.m_ColumnNames
      n.toNat r ∧ n.toNat ≤ s3.m_ColumnTypes.length :=
    forall₂_right_of _ _ ds rs hrows (by
      intro d r hr
      have := readColumns_inv rdF _ _ _ htok n.toNat 0 _ r (RowInv_init _ _ _ d) hr
      simp only [Nat.zero_add] at this
      refine ⟨this.1, ?_⟩
      have h2 := this.2
      split_ifs at h2 <;> omega)
  refine ⟨rs,
    { names_inv := ?_
      flags_inv := ?_
      nkeys := hk
      types_ok := by rw [htypes]; exact htok
      types_len := by rw [htypes, hnames, f5, f3]; exact h4
      flags_len := by intro _; rw [hfl, hnames, f2, hnlen]; omega
      flags_nil := by intro h; omega
      rows := ?_
      row_inv := ?_
      full_types := ?_
      mapInfo := by rw [hself, foldl_addRow_mapInfo, f8, h10]; rfl
      det := ?_
      offl := ?_ }⟩
  · intro name
    rw [hself, g2, g1, f4, f3]
    exact h1 name
  · refine ⟨?_, ?_, ?_, ?_⟩
    · rw [hself, g5, g4]; exact f1.wk_len
    · rw [hself, g6, g4]; exact f1.ks_len
    · rw [hself, g6, g4, g1]; exact f1.ks
    · intro i fl hget hfl0
      rw [hself, g4] at hget
      rw [hself, g3, g5, g4]
      exact f1.flagged i fl hget hfl0
  · rw [hdl]
    refine List.Forall₂.imp ?_ hrows
    intro d r hr
    unfold decodeRow
    rw [htypes, hfl, hnames, hnlen]
    exact hr
  · intro r hr
    rw [htypes, hfl, hnames, hnlen]
    exact (hinvs r hr).1
  · intro hne
    obtain ⟨r, hr⟩ := List.exists_mem_of_ne_nil rs hne
    have := (hinvs r hr).2
    have hle : s3.m_ColumnTypes.length ≤ s3.m_ColumnNames.length := by
      rw [f5, f3]; exact h4
    rw [htypes, hnames]
    omega
  · intro t ht
    rw [hself]
    exact foldl_addRow_det s3 rs (by rw [f8, h10]) (by rw [f6, h8])
      (fun r hr => by rw [(hinvs r hr).1.keys]; exact pad4_length _) t ht
  · intro u
    rw [hself]
    exact foldl_addRow_offl s3 rs (by rw [f8, h10]) (by rw [f7, h9]) u

theorem processLines_header1 (rdF : FloatReader) (a : List Char) :
    processLines rdF { self := DUNEGenChannelMapSP.new, state := 0, ncolumns := 0 } [a] =
      .ok { self := DUNEGenChannelMapSP.new, state := 1,
            ncolumns := (extractInt { buf := a, fail := false } 0).2 } := rfl

theorem processLines_header2 (rdF : FloatReader) (a b : List Char) :
    processLines rdF { self := DUNEGenChannelMapSP.new, state := 0, ncolumns := 0 } [a, b] =
      .ok { self := readNames { buf := b, fail := false } 0
              (extractInt { buf := a, fail := false } 0).2.toNat DUNEGenChannelMapSP.new,
            state := 2,
            ncolumns := (extractInt { buf := a, fail := false } 0).2 } := rfl

theorem processLines_header3 (rdF : FloatReader) (a b c : List Char) :
    processLines rdF { self := DUNEGenChannelMapSP.new, state := 0, ncolumns := 0 } [a, b, c] =
      .ok { self := readTypes { buf := c, fail := false }
              (extractInt { buf := a, fail := false } 0).2.toNat
              (readNames { buf := b, fail := false } 0
                (extractInt { buf := a, fail := false } 0).2.toNat DUNEGenChannelMapSP.new),
            state := 3,
            ncolumns := (extractInt { buf := a, fail := false } 0).2 } := rfl

theorem processLines_header4 (rdF : FloatReader) (a b c d : List Char)
    (ds : List (List Char)) :
    processLines rdF { self := DUNEGenChannelMapSP.new, state := 0, ncolumns := 0 }
        (a :: b :: c :: d :: ds) =
      readFlags { buf := d, fail := false } 0
        (extractInt { buf := a, fail := false } 0).2.toNat
        (readTypes { buf := c, fail := false }
          (extractInt { buf := a, fail := false } 0).2.toNat
          (readNames { buf := b, fail := false } 0
            (extractInt { buf := a, fail := false } 0).2.toNat DUNEGenChannelMapSP.new)) >>=
      fun s3 => processLines rdF
        { self := s3, state := 4, ncolumns := (extractInt { buf := a, fail := false } 0).2 }
        ds := by
  show (processLine rdF _ d >>= fun v1 => processLines rdF v1 ds) = _
  show ((readFlags _ 0 _ _ >>= fun self1 => Except.ok _) >>= fun v1 =>
    processLines rdF v1 ds) = _
  cases readFlags { buf := d, fail := false } 0
        (extractInt { buf := a, fail := false } 0).2.toNat
        (readTypes { buf := c, fail := false }
          (extractInt { buf := a, fail := false } 0).2.toNat
          (readNames { buf := b, fail := false } 0
            (extractInt { buf := a, fail := false } 0).2.toNat DUNEGenChannelMapSP.new)) <;> rfl

/-- Every load of a file into a fresh object that raises nothing leaves the
object in a state described by `LoadedFrom`. -/
theorem load_ok (rdF : FloatReader) (lines : List String) (self : DUNEGenChannelMapSP)
    (h : ReadMapFromFile rdF DUNEGenChannelMapSP.new (some lines) = .ok self) :
    ∃ rs, LoadedFrom rdF lines self rs := by
  unfold ReadMapFromFile at h
  obtain ⟨v, hv, h⟩ := (bind_eq_ok _ _ _).mp h
  have hk : v.self.m_KeyStrings.length ≤ 4 := by
    by_contra hc
    simp only [show v.self.m_KeyStrings.length > 4 by omega, if_true] at h
    cases h
  have hself : self = v.self := by
    simp only [show ¬ v.self.m_KeyStrings.length > 4 by omega, if_false,
      Except.ok.injEq] at h
    exact h.symm
  subst hself
  simp only [Option.getD_some] at hv
  rw [readLoop_eq_processLines] at hv
  match hret : retained lines with
  | [] =>
    rw [hret] at hv
    simp only [processLines, Except.ok.injEq] at hv
    subst hv
    exact ⟨[], short_loaded rdF lines ⟨[], false⟩ ⟨[], false⟩ 0 0 (Nat.le_refl _)
      (by rw [hret]; simp)⟩
  | [a] =>
    rw [hret, processLines_header1] at hv
    simp only [Except.ok.injEq] at hv
    subst hv
    exact ⟨[], short_loaded rdF lines ⟨[], false⟩ ⟨[], false⟩ 0 0 (Nat.le_refl _)
      (by rw [hret]; simp)⟩
  | [a, b] =>
    rw [hret, processLines_header2] at hv
    simp only [Except.ok.injEq] at hv
    subst hv
    exact ⟨[], short_loaded rdF lines ⟨b, false⟩ ⟨[], false⟩ _ 0 (Nat.zero_le _)
      (by rw [hret]; simp)⟩
  | [a, b, c] =>
    rw [hret, processLines_header3] at hv
    simp only [Except.ok.injEq] at hv
    subst hv
    exact ⟨[], short_loaded rdF lines ⟨b, false⟩ ⟨c, false⟩ _ _ (Nat.le_refl _)
      (by rw [hret]; simp)⟩
  | a :: b :: c :: d :: ds =>
    rw [hret, processLines_header4] at hv
    obtain ⟨s3, hs3, hv⟩ := (bind_eq_ok _ _ _).mp hv
    exact full_loaded rdF lines a b c d ds hret _ s3 v hs3 hv hk

/-! ## Materialisation of a row -/

theorem lastIdx_cons {α : Type} (p : α → Bool) (x : α) (xs : List α) :
    lastIdx p (x :: xs) =
      match lastIdx p xs with
      | some j => some (j + 1)
      | none => if p x then some 0 else none := rfl

theorem lastIdx_congr {α : Type} (p q : α → Bool) (l : List α)
    (h : ∀ x ∈ l, p x = q x) : lastIdx p l = lastIdx q l := by
  induction l with
  | nil => rfl
  | cons x xs ih =>
    rw [lastIdx_cons, lastIdx_cons, ih (fun y hy => h y (List.mem_cons_of_mem _ hy)),
      h x (List.mem_cons_self _ _)]

theorem lastIdx_map {α β : Type} (f : α → β) (p : β → Bool) (l : List α) :
    lastIdx p (l.map f) = lastIdx (fun a => p (f a)) l := by
  induction l with
  | nil => rfl
  | cons x xs ih => rw [List.map_cons, lastIdx_cons, lastIdx_cons, ih]

/-- What the materialisation loop of the key-set path leaves, in terms of the
last column bearing each name. -/
theorem fillInfoDet_spec (self : DUNEGenChannelMapSP) (idx : Nat) (row : List AnyVal)
    (hrow : self.m_MapInfo[idx]? = some row)
    (ns : List String) (i : Nat) (info info' : ChanInfo_t)
    (h : fillInfoDet self idx ns i info = .ok info') :
    (∀ nm : String, nm ≠ "offlchan" →
      (∀ k, lastIdx (fun x => decide (x = nm)) ns = some k →
        AMap.find nm info'.fields = row[i + k]? ∧ (row[i + k]?).isSome) ∧
      (lastIdx (fun x => decide (x = nm)) ns = none →
        AMap.find nm info'.fields = AMap.find nm info.fields)) ∧
    (∀ k, lastIdx (fun x => decide (x = "offlchan")) ns = some k →
        row[i + k]? = some (AnyVal.int info'.offlchan)) ∧
    (lastIdx (fun x => decide (x = "offlchan")) ns = none →
        info'.offlchan = info.offlchan) := by
  induction ns generalizing i info with
  | nil =>
    simp only [fillInfoDet, Except.ok.injEq] at h
    subst h
    simp [lastIdx]
  | cons name rest ih =>
    rw [fillInfoDet] at h
    obtain ⟨row', hrow', h⟩ := (bind_eq_ok _ _ _).mp h
    have hr := (vecAt_eq_ok _ _ _).mp hrow'
    rw [hrow] at hr
    simp only [Option.some.injEq] at hr
    subst hr
    obtain ⟨x, hx, h⟩ := (bind_eq_ok _ _ _).mp h
    have hx' := (vecAt_eq_ok _ _ _).mp hx
    by_cases hn : name = "offlchan"
    · simp only [hn, if_true] at h
      obtain ⟨oc, hoc, h⟩ := (bind_eq_ok _ _ _).mp h
      have hxint : x = AnyVal.int oc := by
        cases x <;> simp [any_cast_int] at hoc
        exact congrArg _ hoc
      obtain ⟨ih1, ih2, ih3⟩ := ih (i + 1) _ h
      subst hn
      refine ⟨?_, ?_, ?_⟩
      · intro nm hnm
        obtain ⟨a, b⟩ := ih1 nm hnm
        have hne : ¬ ("offlchan" = nm) := fun e => hnm e.symm
        constructor
        · intro k hk
          rw [lastIdx_cons] at hk
          cases hl : lastIdx (fun x => decide (x = nm)) rest with
          | some j =>
            rw [hl] at hk
            simp only [Option.some.injEq] at hk
            subst hk
            have := a j hl
            rw [show i + (j + 1) = i + 1 + j by omega]
            exact this
          | none =>
            rw [hl] at hk
            simp [hne] at hk
        · intro hk
          rw [lastIdx_cons] at hk
          cases hl : lastIdx (fun x => decide (x = nm)) rest with
          | some j => rw [hl] at hk; simp at hk
          | none => exact b hl
      · intro k hk
        rw [lastIdx_cons] at hk
        cases hl : lastIdx (fun x => decide (x = "offlchan")) rest with
        | some j =>
          rw [hl] at hk
          simp only [Option.some.injEq] at hk
          subst hk
          rw [show i + (j + 1) = i + 1 + j by omega]
          exact ih2 j hl
        | none =>
          rw [hl] at hk
          simp only [decide_True, if_true, Option.some.injEq] at hk
          subst hk
          rw [Nat.add_zero, hx', hxint, ih3 hl]
      · intro hk
        rw [lastIdx_cons] at hk
        cases hl : lastIdx (fun x => decide (x = "offlchan")) rest with
        | some j => rw [hl] at hk; simp at hk
        | none => rw [hl] at hk; simp at hk
    · simp only [hn, if_false] at h
      obtain ⟨ih1, ih2, ih3⟩ := ih (i + 1) _ h
      refine ⟨?_, ?_, ?_⟩
      · intro nm hnm
        obtain ⟨a, b⟩ := ih1 nm hnm
        constructor
        · intro k hk
          rw [lastIdx_cons] at hk
          cases hl : lastIdx (fun x => decide (x = nm)) rest with
          | some j =>
            rw [hl] at hk
            simp only [Option.some.injEq] at hk
            subst hk
            rw [show i + (j + 1) = i + 1 + j by omega]
            exact a j hl
          | none =>
            rw [hl] at hk
            by_cases he : name = nm
            · simp only [he, decide_True, if_true, Option.some.injEq] at hk
              subst hk
              rw [b hl, Nat.add_zero, hx']
              simp [AMap.find_set, he]
            · simp [he] at hk
        · intro hk
          rw [lastIdx_cons] at hk
          cases hl : lastIdx (fun x => decide (x = nm)) rest with
          | some j => rw [hl] at hk; simp at hk
          | none =>
            rw [hl] at hk
            have he : ¬ (name = nm) := by
              intro he
              simp [he] at hk
            rw [b hl]
            simp [AMap.find_set, he]
      · intro k hk
        rw [lastIdx_cons] at hk
        cases hl : lastIdx (fun x => decide (x = "offlchan")) rest with
        | some j =>
          rw [hl] at hk
          simp only [Option.some.injEq] at hk
          subst hk
          rw [show i + (j + 1) = i + 1 + j by omega]
          exact ih2 j hl
        | none =>
          rw [hl] at hk
          simp [hn] at hk
      · intro hk
        rw [lastIdx_cons] at hk
        cases hl : lastIdx (fun x => decide (x = "offlchan")) rest with
        | some j => rw [hl] at hk; simp at hk
        | none => exact ih3 hl

/-- The materialisation loop of the key-set path raises nothing when the row
is long enough and holds integers under the name `offlchan`. -/
theorem fillInfoDet_ok (self : DUNEGenChannelMapSP) (idx : Nat) (row : List AnyVal)
    (hrow : self.m_MapInfo[idx]? = some row)
    (ns : List String) (i : Nat) (info : ChanInfo_t)
    (hlen : i + ns.length ≤ row.length)
    (hoff : ∀ k, ns[k]? = some "offlchan" → ∃ v, row[i + k]? = some (AnyVal.int v)) :
    ∃ info', fillInfoDet self idx ns i info = .ok info' := by
  induction ns generalizing i info with
  | nil => exact ⟨info, rfl⟩
  | cons name rest ih =>
    rw [fillInfoDet]
    have h1 : vecAt self.m_MapInfo idx = .ok row := (vecAt_eq_ok _ _ _).mpr hrow
    simp only [List.length_cons] at hlen
    have hi : i < row.length := by omega
    have h2 : vecAt row i = .ok row[i] :=
      (vecAt_eq_ok _ _ _).mpr (List.getElem?_eq_getElem hi)
    rw [h1, ok_bind, h2, ok_bind]
    have hoff' : ∀ k, rest[k]? = some "offlchan" →
        ∃ v, row[i + 1 + k]? = some (AnyVal.int v) := by
      intro k hk
      have := hoff (k + 1) (by simpa using hk)
      rw [show i + 1 + k = i + (k + 1) by omega]
      exact this
    by_cases hn : name = "offlchan"
    · simp only [hn, if_true]
      obtain ⟨v, hv⟩ := hoff 0 (by simp [hn])
      rw [Nat.add_zero, List.getElem?_eq_getElem hi] at hv
      simp only [Option.some.injEq] at hv
      rw [hv]
      simp only [any_cast_int, ok_bind]
      exact ih (i + 1) _ (by omega) hoff'
    · simp only [hn, if_false]
      exact ih (i + 1) _ (by omega) hoff'

/-- The loop of the reverse path does what the loop of the key-set path
does, and sets `infovalid` when it meets a column named `offlchan`. -/
theorem fillInfoOffl_eq (self : DUNEGenChannelMapSP) (idx : Nat)
    (ns : List String) (i : Nat) (info : ChanInfo_t) (b : Bool) :
    fillInfoOffl self idx ns i (info, b) =
      fillInfoDet self idx ns i info >>= fun info' =>
        .ok (info', b || decide ("offlchan" ∈ ns)) := by
  induction ns generalizing i info b with
  | nil => simp [fillInfoOffl, fillInfoDet, ok_bind]
  | cons name rest ih =>
    rw [fillInfoOffl, fillInfoDet]
    cases vecAt self.m_MapInfo idx with
    | error e => rfl
    | ok row =>
      simp only [ok_bind]
      cases vecAt row i with
      | error e => rfl
      | ok x =>
        simp only [ok_bind]
        by_cases hn : name = "offlchan"
        · simp only [hn, if_true]
          cases any_cast_int x with
          | error e => rfl
          | ok oc =>
            simp only [ok_bind]
            rw [ih]
            simp
        · simp only [hn, if_false]
          rw [ih]
          have : ¬ ("offlchan" = name) := fun e => hn e.symm
          simp [this]

/-- With a column named `offlchan` among those still to be visited, the
value the member `offlchan` starts from is of no consequence. -/
theorem fillInfoDet_offl_irrel (self : DUNEGenChannelMapSP) (idx : Nat)
    (ns : List String) (i : Nat) (fields : AMap String AnyVal) (a b : Int)
    (hmem : "offlchan" ∈ ns) :
    fillInfoDet self idx ns i { fields := fields, offlchan := a } =
      fillInfoDet self idx ns i { fields := fields, offlchan := b } := by
  induction ns generalizing i fields with
  | nil => simp at hmem
  | cons name rest ih =>
    rw [fillInfoDet, fillInfoDet]
    cases vecAt self.m_MapInfo idx with
    | error e => rfl
    | ok row =>
      simp only [ok_bind]
      cases vecAt row i with
      | error e => rfl
      | ok x =>
        simp only [ok_bind]
        by_cases hn : name = "offlchan"
        · simp only [hn, if_true]
        · simp only [hn, if_false]
          have : "offlchan" ∈ rest := by
            rcases List.mem_cons.mp hmem with h | h
            · exact absurd h.symm hn
            · exact h
          exact ih (i + 1) _ this

/-! ## Assembly of the key tuple of a query -/

theorem assembleKeys_length (self : DUNEGenChannelMapSP) (q : List (String × AnyVal))
    (mk0 mk : List Int) (h : assembleKeys self q mk0 = .ok mk) : mk.length = mk0.length := by
  induction q generalizing mk0 with
  | nil =>
    simp only [assembleKeys, Except.ok.injEq] at h
    rw [h]
  | cons e rest ih =>
    obtain ⟨nm, x⟩ := e
    rw [assembleKeys] at h
    cases hf : AMap.find nm self.m_CIMap with
    | none => rw [hf] at h; cases h
    | some icol =>
      rw [hf] at h
      simp only at h
      obtain ⟨fl, _, h⟩ := (bind_eq_ok _ _ _).mp h
      by_cases hfl : fl ≠ 0
      · simp only [hfl, if_true, ne_eq, not_false_eq_true] at h
        obtain ⟨v, _, h⟩ := (bind_eq_ok _ _ _).mp h
        obtain ⟨wk, _, h⟩ := (bind_eq_ok _ _ _).mp h
        obtain ⟨mk1, hmk1, h⟩ := (bind_eq_ok _ _ _).mp h
        obtain ⟨_, hmk1'⟩ := (vecSetAt_eq_ok _ _ _ _).mp hmk1
        rw [ih mk1 h, hmk1']
        simp
      · simp only [hfl, if_false] at h
        exact ih mk0 h

/-- Assembly of `mapkeys` from a query whose entries all agree with a target
tuple `T`: slots written by some entry end at the value of `T`, the others
stay as they were. -/
theorem assembleKeys_target (self : DUNEGenChannelMapSP) (T : List Int)
    (q : List (String × AnyVal)) (mk0 : List Int)
    (hq : ∀ e ∈ q, ∃ (icol : Nat) (fl : Int), AMap.find e.1 self.m_CIMap = some icol ∧
      self.m_KeyColFlags[icol]? = some fl ∧
      (fl ≠ 0 → ∃ (v : Int) (wk : Nat), e.2 = AnyVal.int v ∧
        self.m_WhichKey[icol]? = some wk ∧ wk < mk0.length ∧ T[wk]? = some v)) :
    ∃ mk, assembleKeys self q mk0 = .ok mk ∧ mk.length = mk0.length ∧
      ∀ s : Nat, ((∃ e ∈ q, writesSlot self s e) → mk[s]? = T[s]?) ∧
                 ((¬ ∃ e ∈ q, writesSlot self s e) → mk[s]? = mk0[s]?) := by
  induction q generalizing mk0 with
  | nil => exact ⟨mk0, rfl, rfl, fun s => ⟨by simp, fun _ => rfl⟩⟩
  | cons e rest ih =>
    obtain ⟨nm, x⟩ := e
    obtain ⟨icol, fl, hfind, hflag, hkey⟩ := hq (nm, x) (List.mem_cons_self _ _)
    have hrest : ∀ mk1 : List Int, mk1.length = mk0.length →
        ∀ e ∈ rest, ∃ (icol : Nat) (fl : Int), AMap.find e.1 self.m_CIMap = some icol ∧
        self.m_KeyColFlags[icol]? = some fl ∧
        (fl ≠ 0 → ∃ (v : Int) (wk : Nat), e.2 = AnyVal.int v ∧
          self.m_WhichKey[icol]? = some wk ∧ wk < mk1.length ∧ T[wk]? = some v) := by
      intro mk1 hl e he
      rw [hl]
      exact hq e (List.mem_cons_of_mem _ he)
    rw [assembleKeys]
    simp only at hfind
    rw [hfind]
    simp only
    rw [(vecAt_eq_ok _ _ _).mpr hflag, ok_bind]
    by_cases hfl : fl ≠ 0
    · obtain ⟨v, wk, hx, hwk, hlt, hT⟩ := hkey hfl
      simp only at hx
      subst hx
      simp only [hfl, if_true, ne_eq, not_false_eq_true, any_cast_int, ok_bind]
      rw [(vecAt_eq_ok _ _ _).mpr hwk, ok_bind,
        (vecSetAt_eq_ok _ _ _ _).mpr ⟨hlt, rfl⟩, ok_bind]
      obtain ⟨mk, hmk, hlen, hslots⟩ :=
        ih (mk0.set wk v) (hrest _ (by simp))
      refine ⟨mk, hmk, by rw [hlen]; simp, ?_⟩
      intro s
      obtain ⟨hs1, hs2⟩ := hslots s
      by_cases hw : ∃ e ∈ rest, writesSlot self s e
      · refine ⟨fun _ => hs1 hw, ?_⟩
        intro hnot
        exact absurd (by
          obtain ⟨e, he, hwe⟩ := hw
          exact ⟨e, List.mem_cons_of_mem _ he, hwe⟩) hnot
      · have hmk1 := hs2 hw
        constructor
        · rintro ⟨e, he, hwe⟩
          rcases List.mem_cons.mp he with h | h
          · subst h
            obtain ⟨icol', fl', hf', _, _, hwk'⟩ := hwe
            simp only at hf'
            rw [hfind] at hf'
            simp only [Option.some.injEq] at hf'
            subst hf'
            rw [hwk] at hwk'
            simp only [Option.some.injEq] at hwk'
            subst hwk'
            rw [hmk1, hT]
            simp [hlt]
          · exact absurd ⟨e, h, hwe⟩ hw
        · intro hnot
          have hne : wk ≠ s := by
            intro he
            subst he
            exact hnot ⟨(nm, AnyVal.int v), List.mem_cons_self _ _,
              ⟨icol, fl, hfind, hflag, hfl, hwk⟩⟩
          rw [hmk1]
          simp [List.getElem?_set, hne]
    · simp only [hfl, if_false]
      obtain ⟨mk, hmk, hlen, hslots⟩ := ih mk0 (hrest _ rfl)
      refine ⟨mk, hmk, hlen, ?_⟩
      intro s
      obtain ⟨hs1, hs2⟩ := hslots s
      have hiff : (∃ e ∈ (nm, x) :: rest, writesSlot self s e) ↔
          ∃ e ∈ rest, writesSlot self s e := by
        constructor
        · rintro ⟨e, he, hwe⟩
          rcases List.mem_cons.mp he with h | h
          · subst h
            obtain ⟨icol', fl', hf', hfl', hne', _⟩ := hwe
            simp only at hf'
            rw [hfind] at hf'
            simp only [Option.some.injEq] at hf'
            subst hf'
            rw [hflag] at hfl'
            simp only [Option.some.injEq] at hfl'
            subst hfl'
            exact absurd hne' hfl
          · exact ⟨e, h, hwe⟩
        · rintro ⟨e, he, hwe⟩
          exact ⟨e, List.mem_cons_of_mem _ he, hwe⟩
      exact ⟨fun h => hs1 (hiff.mp h), fun h => hs2 (fun h' => h (hiff.mpr h'))⟩

/-- Assembly raises nothing when every name is recognised and every entry
for a key column holds an integer bound for a slot of `mapkeys`. -/
theorem assembleKeys_ok (self : DUNEGenChannelMapSP)
    (q : List (String × AnyVal)) (mk0 : List Int)
    (hq : ∀ e ∈ q, ∃ (icol : Nat) (fl : Int), AMap.find e.1 self.m_CIMap = some icol ∧
      self.m_KeyColFlags[icol]? = some fl ∧
      (fl ≠ 0 → ∃ (v : Int) (wk : Nat), e.2 = AnyVal.int v ∧
        self.m_WhichKey[icol]? = some wk ∧ wk < mk0.length)) :
    ∃ mk, assembleKeys self q mk0 = .ok mk := by
  induction q generalizing mk0 with
  | nil => exact ⟨mk0, rfl⟩
  | cons e rest ih =>
    obtain ⟨nm, x⟩ := e
    obtain ⟨icol, fl, hfind, hflag, hkey⟩ := hq (nm, x) (List.mem_cons_self _ _)
    rw [assembleKeys]
    simp only at hfind
    rw [hfind]
    simp only
    rw [(vecAt_eq_ok _ _ _).mpr hflag, ok_bind]
    by_cases hfl : fl ≠ 0
    · obtain ⟨v, wk, hx, hwk, hlt⟩ := hkey hfl
      simp only at hx
      subst hx
      simp only [hfl, if_true, ne_eq, not_false_eq_true, any_cast_int, ok_bind]
      rw [(vecAt_eq_ok _ _ _).mpr hwk, ok_bind,
        (vecSetAt_eq_ok _ _ _ _).mpr ⟨hlt, rfl⟩, ok_bind]
      apply ih
      intro e he
      simp only [List.length_set]
      exact hq e (List.mem_cons_of_mem _ he)
    · simp only [hfl, if_false]
      exact ih mk0 (fun e he => hq e (List.mem_cons_of_mem _ he))

/-- Assembly raises as soon as some name of the query is not recognised. -/
theorem assembleKeys_unknown (self : DUNEGenChannelMapSP)
    (q : List (String × AnyVal)) (mk0 : List Int)
    (hq : ∃ e ∈ q, AMap.find e.1 self.m_CIMap = none) :
    ∃ err, assembleKeys self q mk0 = .error err := by
  induction q generalizing mk0 with
  | nil => simp at hq
  | cons e rest ih =>
    obtain ⟨nm, x⟩ := e
    rw [assembleKeys]
    cases hf : AMap.find nm self.m_CIMap with
    | none => exact ⟨_, rfl⟩
    | some icol =>
      simp only
      have hrest : ∃ e ∈ rest, AMap.find e.1 self.m_CIMap = none := by
        obtain ⟨e, he, hne⟩ := hq
        rcases List.mem_cons.mp he with h | h
        · subst h
          simp only at hne
          rw [hf] at hne
          cases hne
        · exact ⟨e, h, hne⟩
      cases vecAt self.m_KeyColFlags icol with
      | error e => exact ⟨_, rfl⟩
      | ok fl =>
        simp only [ok_bind]
        by_cases hfl : fl ≠ 0
        · simp only [hfl, if_true, ne_eq, not_false_eq_true]
          cases any_cast_int x with
          | error e => exact ⟨_, rfl⟩
          | ok v =>
            simp only [ok_bind]
            cases vecAt self.m_WhichKey icol with
            | error e => exact ⟨_, rfl⟩
            | ok wk =>
              simp only [ok_bind]
              cases vecSetAt mk0 wk v with
              | error e => exact ⟨_, rfl⟩
              | ok mk1 =>
                simp only [ok_bind]
                exact ih mk1 hrest
        · simp only [hfl, if_false]
          exact ih mk0 hrest

/-! ## Key tuples of rows -/

theorem pad4_get_lt (l : List Int) (s : Nat) (hs : s < l.length) (hl : l.length ≤ 4) :
    (pad4 l)[s]? = l[s]? := by
  unfold pad4
  rw [List.getElem?_take_of_lt (by omega), List.getElem?_append_left hs]

theorem pad4_get_ge (l : List Int) (s : Nat) (hs : l.length ≤ s) (h4 : s < 4) :
    (pad4 l)[s]? = some 0 := by
  unfold pad4
  rw [List.getElem?_take_of_lt h4, List.getElem?_append_right hs]
  have : s - l.length < 4 := by omega
  generalize s - l.length = k at this
  match k, this with
  | 0, _ => rfl
  | 1, _ => rfl
  | 2, _ => rfl
  | 3, _ => rfl

theorem keyVals_length (flags : List Int) (row : List AnyVal)
    (hlen : flags.length ≤ row.length)
    (hall : ∀ (j : Nat) (fl : Int), flags[j]? = some fl → fl ≠ 0 →
      ∃ v, row[j]? = some (AnyVal.int v)) :
    (keyVals flags row).length = flags.countP (fun fl => decide (fl ≠ 0)) := by
  induction flags generalizing row with
  | nil => simp [keyVals]
  | cons f fs ih =>
    cases row with
    | nil => simp at hlen
    | cons x xs =>
      have hrec := ih xs (by simpa using hlen)
        (fun j fl hj hfl => by simpa using hall (j + 1) fl (by simpa using hj) hfl)
      simp only [keyVals, List.length_append, hrec, List.countP_cons]
      by_cases hf : f ≠ 0
      · obtain ⟨v, hv⟩ := hall 0 f (by simp) hf
        simp only [List.getElem?_cons_zero, Option.some.injEq] at hv
        subst hv
        simp [hf]
        omega
      · simp [hf]

theorem keyVals_get (flags : List Int) (row : List AnyVal)
    (hall : ∀ (j : Nat) (fl : Int), flags[j]? = some fl → fl ≠ 0 →
      ∃ v, row[j]? = some (AnyVal.int v))
    (i : Nat) (fl : Int) (v : Int) (hi : flags[i]? = some fl) (hfl : fl ≠ 0)
    (hv : row[i]? = some (AnyVal.int v)) :
    (keyVals flags row)[(flags.take i).countP (fun fl => decide (fl ≠ 0))]? = some v := by
  induction flags generalizing row i with
  | nil => simp at hi
  | cons f fs ih =>
    cases row with
    | nil => simp at hv
    | cons x xs =>
      cases i with
      | zero =>
        simp only [List.getElem?_cons_zero, Option.some.injEq] at hi hv
        subst hi hv
        simp [keyVals, hfl]
      | succ i' =>
        have hrec := ih xs
          (fun j fl hj hfl => by simpa using hall (j + 1) fl (by simpa using hj) hfl)
          i' (by simpa using hi) (by simpa using hv)
        simp only [List.take_succ_cons, List.countP_cons, keyVals]
        by_cases hf : f ≠ 0
        · obtain ⟨w, hw⟩ := hall 0 f (by simp) hf
          simp only [List.getElem?_cons_zero, Option.some.injEq] at hw
          subst hw
          simp only [hf, if_true, ne_eq, not_false_eq_true, decide_True, List.singleton_append,
            List.getElem?_cons_succ]
          exact hrec
        · simp only [hf, if_false, List.nil_append, decide_False, Bool.false_eq_true,
            Nat.add_zero]
          exact hrec

theorem ordinal_surj (flags : List Int) (s : Nat)
    (hs : s < flags.countP (fun fl => decide (fl ≠ 0))) :
    ∃ (i : Nat) (fl : Int), flags[i]? = some fl ∧ fl ≠ 0 ∧
      (flags.take i).countP (fun fl => decide (fl ≠ 0)) = s := by
  induction flags generalizing s with
  | nil => simp at hs
  | cons f fs ih =>
    by_cases hf : f ≠ 0
    · have hp : (fun fl : Int => decide (fl ≠ 0)) f = true := by simpa using hf
      cases s with
      | zero => exact ⟨0, f, by simp, hf, by simp⟩
      | succ s' =>
        rw [List.countP_cons_of_pos (fun fl : Int => decide (fl ≠ 0)) _ hp] at hs
        obtain ⟨i, fl, h1, h2, h3⟩ := ih s' (by omega)
        refine ⟨i + 1, fl, by simpa using h1, h2, ?_⟩
        rw [List.take_succ_cons, List.countP_cons_of_pos (fun fl : Int => decide (fl ≠ 0)) _ hp, h3]
    · have hp : ¬ ((fun fl : Int => decide (fl ≠ 0)) f = true) := by simpa using hf
      rw [List.countP_cons_of_neg (fun fl : Int => decide (fl ≠ 0)) _ hp] at hs
      obtain ⟨i, fl, h1, h2, h3⟩ := ih s hs
      refine ⟨i + 1, fl, by simpa using h1, h2, ?_⟩
      rw [List.take_succ_cons, List.countP_cons_of_neg (fun fl : Int => decide (fl ≠ 0)) _ hp, h3]

theorem countP_take_lt (flags : List Int) (i : Nat) (fl : Int)
    (hi : flags[i]? = some fl) (hfl : fl ≠ 0) :
    (flags.take i).countP (fun fl => decide (fl ≠ 0)) <
      flags.countP (fun fl => decide (fl ≠ 0)) := by
  induction flags generalizing i with
  | nil => simp at hi
  | cons f fs ih =>
    cases i with
    | zero =>
      simp only [List.getElem?_cons_zero, Option.some.injEq] at hi
      subst hi
      simp [List.countP_cons, hfl]
    | succ i' =>
      have := ih i' (by simpa using hi)
      simp only [List.take_succ_cons, List.countP_cons]
      omega

theorem mem_rowQuery (ns : List String) (fs : List Int) (xs : List AnyVal)
    (e : String × AnyVal) :
    e ∈ rowQuery ns fs xs ↔
      ∃ (i : Nat) (fl : Int), ns[i]? = some e.1 ∧ fs[i]? = some fl ∧ fl ≠ 0 ∧
        xs[i]? = some e.2 := by
  induction ns generalizing fs xs with
  | nil => simp [rowQuery]
  | cons n ns ih =>
    cases fs with
    | nil => simp [rowQuery]
    | cons f fs =>
      cases xs with
      | nil => simp [rowQuery]
      | cons x xs =>
        have hrec := ih fs xs
        constructor
        · intro h
          unfold rowQuery at h
          by_cases hf : f ≠ 0
          · simp only [hf, if_true, ne_eq, not_false_eq_true, List.mem_cons] at h
            rcases h with h | h
            · subst h
              exact ⟨0, f, by simp, by simp, hf, by simp⟩
            · obtain ⟨i, fl, h1, h2, h3, h4⟩ := hrec.mp h
              exact ⟨i + 1, fl, by simpa using h1, by simpa using h2, h3, by simpa using h4⟩
          · simp only [hf, if_false] at h
            obtain ⟨i, fl, h1, h2, h3, h4⟩ := hrec.mp h
            exact ⟨i + 1, fl, by simpa using h1, by simpa using h2, h3, by simpa using h4⟩
        · rintro ⟨i, fl, h1, h2, h3, h4⟩
          unfold rowQuery
          cases i with
          | zero =>
            simp only [List.getElem?_cons_zero, Option.some.injEq] at h1 h2 h4
            subst h2
            simp only [h3, if_true, ne_eq, not_false_eq_true, List.mem_cons]
            left
            exact Prod.ext h1.symm h4.symm
          | succ i' =>
            have : e ∈ rowQuery ns fs xs :=
              hrec.mpr ⟨i', fl, by simpa using h1, by simpa using h2, h3, by simpa using h4⟩
            by_cases hf : f ≠ 0
            · simp only [hf, if_true, ne_eq, not_false_eq_true, List.mem_cons]
              exact Or.inr this
            · simp only [hf, if_false]
              exact this

theorem find_of_nodup (self : DUNEGenChannelMapSP) (hinv : NamesInv self)
    (hnd : self.m_ColumnNames.Nodup) (i : Nat) (nm : String)
    (hi : self.m_ColumnNames[i]? = some nm) : AMap.find nm self.m_CIMap = some i := by
  rw [hinv nm, lastIdx_eq_some_iff]
  refine ⟨⟨nm, hi, by simp⟩, ?_⟩
  intro j' x' hlt hj'
  by_contra hc
  simp only [decide_eq_false_iff_not, not_not] at hc
  subst hc
  have hilt : i < self.m_ColumnNames.length := (List.getElem?_eq_some_iff.mp hi).1
  have := List.getElem?_inj hilt hnd (hi.trans hj'.symm)
  omega

theorem find_some_names (self : DUNEGenChannelMapSP) (hinv : NamesInv self)
    (nm : String) (icol : Nat) (h : AMap.find nm self.m_CIMap = some icol) :
    self.m_ColumnNames[icol]? = some nm := by
  rw [hinv nm, lastIdx_eq_some_iff] at h
  obtain ⟨⟨x, hx, hp⟩, _⟩ := h
  simp only [decide_eq_true_eq] at hp
  rw [hx, hp]

theorem find_none_names (self : DUNEGenChannelMapSP) (hinv : NamesInv self)
    (nm : String) : AMap.find nm self.m_CIMap = none ↔ nm ∉ self.m_ColumnNames := by
  rw [hinv nm, lastIdx_eq_none_iff]
  constructor
  · intro h hmem
    have := h nm hmem
    simp at this
  · intro h x hx
    simp only [decide_eq_false_iff_not]
    intro he
    exact h (he ▸ hx)

/-! ## Rows and indexes of a loaded file -/

theorem forall₂_get_left {α β : Type} (R : α → β → Prop) (l1 : List α) (l2 : List β)
    (h : List.Forall₂ R l1 l2) (j : Nat) (a : α) (ha : l1[j]? = some a) :
    ∃ b, l2[j]? = some b ∧ R a b := by
  induction h generalizing j with
  | nil => simp at ha
  | cons hab _ ih =>
    cases j with
    | zero =>
      simp only [List.getElem?_cons_zero, Option.some.injEq] at ha
      subst ha
      exact ⟨_, by simp, hab⟩
    | succ j' =>
      obtain ⟨b, hb, hr⟩ := ih j' (by simpa using ha)
      exact ⟨b, by simpa using hb, hr⟩

theorem forall₂_get_right {α β : Type} (R : α → β → Prop) (l1 : List α) (l2 : List β)
    (h : List.Forall₂ R l1 l2) (j : Nat) (b : β) (hb : l2[j]? = some b) :
    ∃ a, l1[j]? = some a ∧ R a b := by
  induction h generalizing j with
  | nil => simp at hb
  | cons hab _ ih =>
    cases j with
    | zero =>
      simp only [List.getElem?_cons_zero, Option.some.injEq] at hb
      subst hb
      exact ⟨_, by simp, hab⟩
    | succ j' =>
      obtain ⟨a, ha, hr⟩ := ih j' (by simpa using hb)
      exact ⟨a, by simpa using ha, hr⟩

/-- Each data line of a loaded file decodes without error and its decoded
values are the row stored at the position of the line. -/
theorem loaded_row_of_line (rdF : FloatReader) (lines : List String)
    (self : DUNEGenChannelMapSP) (rs : List RowVars) (hL : LoadedFrom rdF lines self rs)
    (j : Nat) (line : List Char) (hline : (dataLines lines)[j]? = some line) :
    ∃ r, decodeRow rdF self line = .ok r ∧ rs[j]? = some r ∧
      self.m_MapInfo[j]? = some r.dataline := by
  obtain ⟨r, hr, hdec⟩ := forall₂_get_left _ _ _ hL.rows j line hline
  refine ⟨r, hdec, hr, ?_⟩
  rw [hL.mapInfo, List.getElem?_map, hr]
  rfl

/-- Each stored row of a loaded file is the decoding of the data line at its
position. -/
theorem loaded_line_of_row (rdF : FloatReader) (lines : List String)
    (self : DUNEGenChannelMapSP) (rs : List RowVars) (hL : LoadedFrom rdF lines self rs)
    (j : Nat) (row : List AnyVal) (hrow : self.m_MapInfo[j]? = some row) :
    ∃ r line, (dataLines lines)[j]? = some line ∧ decodeRow rdF self line = .ok r ∧
      rs[j]? = some r ∧ r.dataline = row := by
  rw [hL.mapInfo, List.getElem?_map] at hrow
  cases hr : rs[j]? with
  | none => rw [hr] at hrow; simp at hrow
  | some r =>
    rw [hr] at hrow
    simp only [Option.map_some', Option.some.injEq] at hrow
    obtain ⟨line, hline, hdec⟩ := forall₂_get_right _ _ _ hL.rows j r hr
    exact ⟨r, line, hline, hdec, rfl, hrow⟩

/-- Shape of the rows of a loaded file. -/
theorem loaded_row_shape (rdF : FloatReader) (lines : List String)
    (self : DUNEGenChannelMapSP) (rs : List RowVars) (hL : LoadedFrom rdF lines self rs)
    (j : Nat) (r : RowVars) (hr : rs[j]? = some r) :
    r.dataline.length = self.m_ColumnNames.length ∧
    self.m_KeyColFlags.length = self.m_ColumnNames.length ∧
    self.m_ColumnTypes.length = self.m_ColumnNames.length ∧
    r.mapkeys = rowKeys self.m_KeyColFlags r.dataline ∧
    r.offlchan = rowOffl self.m_ColumnNames r.dataline ∧
    inIntRange r.offlchan ∧
    (∀ (i : Nat) (x : AnyVal), r.dataline[i]? = some x →
      self.m_ColumnTypes[i]? = some (tagOf x)) := by
  have hmem : r ∈ rs := List.getElem?_mem hr
  have hinv := hL.row_inv r hmem
  have hne : rs ≠ [] := List.ne_nil_of_mem hmem
  have hlen := List.Forall₂.length_eq hL.rows
  have h4 : 4 ≤ (retained lines).length := by
    by_contra hc
    have : dataLines lines = [] := by
      unfold dataLines
      exact List.drop_eq_nil_of_le (by omega)
    rw [this] at hlen
    exact hne (List.length_eq_zero.mp hlen.symm)
  exact ⟨hinv.len, hL.flags_len h4, hL.full_types hne, hinv.keys, hinv.offl, hinv.offl_rng,
    hinv.tags⟩

theorem tagOf_eq_zero (x : AnyVal) (h : tagOf x = 0) : ∃ v, x = AnyVal.int v := by
  cases x with
  | int v => exact ⟨v, rfl⟩
  | str s => simp [tagOf] at h
  | flt b => simp [tagOf] at h
  | bool b => simp [tagOf] at h

/-- In a row of a loaded file every column declared `I` holds an `int`. -/
theorem loaded_int_column (rdF : FloatReader) (lines : List String)
    (self : DUNEGenChannelMapSP) (rs : List RowVars) (hL : LoadedFrom rdF lines self rs)
    (j : Nat) (r : RowVars) (hr : rs[j]? = some r) (i : Nat)
    (hty : self.m_ColumnTypes[i]? = some 0) :
    ∃ v, r.dataline[i]? = some (AnyVal.int v) := by
  obtain ⟨h1, _, h3, _, _, _, h7⟩ := loaded_row_shape rdF lines self rs hL j r hr
  have hi : i < r.dataline.length := by
    rw [h1, ← h3]
    exact (List.getElem?_eq_some_iff.mp hty).1
  have hx := h7 i r.dataline[i] (List.getElem?_eq_getElem hi)
  rw [hty] at hx
  simp only [Option.some.injEq] at hx
  obtain ⟨v, hv⟩ := tagOf_eq_zero _ hx.symm
  exact ⟨v, by rw [List.getElem?_eq_getElem hi, hv]⟩

/-- The primary index of a loaded file, read on the stored rows: a key
tuple leads to the last row bearing it. -/
theorem loaded_detFind (rdF : FloatReader) (lines : List String)
    (self : DUNEGenChannelMapSP) (rs : List RowVars) (hL : LoadedFrom rdF lines self rs)
    (t : List Int) (ht : t.length = 4) :
    detFind self.m_DetToChanInfo t =
      lastIdx (fun row => decide (rowKeys self.m_KeyColFlags row = t)) self.m_MapInfo := by
  rw [hL.det t ht, hL.mapInfo, lastIdx_map]
  apply lastIdx_congr
  intro r hr
  rw [(hL.row_inv r hr).keys]

/-- The reverse index of a loaded file, read on the stored rows. -/
theorem loaded_offlFind (rdF : FloatReader) (lines : List String)
    (self : DUNEGenChannelMapSP) (rs : List RowVars) (hL : LoadedFrom rdF lines self rs)
    (u : Nat) :
    AMap.find u self.m_OfflToChanInfo =
      lastIdx (fun row => decide (toUnsigned (rowOffl self.m_ColumnNames row) = u))
        self.m_MapInfo := by
  rw [hL.offl u, hL.mapInfo, lastIdx_map]
  apply lastIdx_congr
  intro r hr
  rw [(hL.row_inv r hr).offl]

/-- The key ordinal of a flagged column is a slot of the key tuple. -/
theorem loaded_ordinal_lt (rdF : FloatReader) (lines : List String)
    (self : DUNEGenChannelMapSP) (rs : List RowVars) (hL : LoadedFrom rdF lines self rs)
    (i : Nat) (fl : Int) (hi : self.m_KeyColFlags[i]? = some fl) (hfl : fl ≠ 0) :
    ∃ wk, self.m_WhichKey[i]? = some wk ∧ wk < 4 ∧
      wk = (self.m_KeyColFlags.take i).countP (fun fl => decide (fl ≠ 0)) := by
  obtain ⟨_, hwk⟩ := hL.flags_inv.flagged i fl hi hfl
  refine ⟨_, hwk, ?_, rfl⟩
  have := countP_take_lt self.m_KeyColFlags i fl hi hfl
  have h2 := hL.flags_inv.ks_len
  have h3 := hL.nkeys
  omega

/-- A query made of a row's own key-column values assembles the key tuple
of that row, whatever the order of its entries. -/
theorem loaded_assemble_row (rdF : FloatReader) (lines : List String)
    (self : DUNEGenChannelMapSP) (rs : List RowVars) (hL : LoadedFrom rdF lines self rs)
    (hnd : self.m_ColumnNames.Nodup)
    (j : Nat) (r : RowVars) (hr : rs[j]? = some r)
    (q : List (String × AnyVal))
    (hq : ∀ e, e ∈ q ↔ e ∈ rowQuery self.m_ColumnNames self.m_KeyColFlags r.dataline) :
    assembleKeys self q [0, 0, 0, 0] = .ok (rowKeys self.m_KeyColFlags r.dataline) := by
  obtain ⟨h1, h2, h3, _, _, _, _⟩ := loaded_row_shape rdF lines self rs hL j r hr
  have hall : ∀ (i : Nat) (fl : Int), self.m_KeyColFlags[i]? = some fl → fl ≠ 0 →
      ∃ v, r.dataline[i]? = some (AnyVal.int v) := fun i fl hi hfl =>
    loaded_int_column rdF lines self rs hL j r hr i (hL.flags_inv.flagged i fl hi hfl).1
  have hkl : (keyVals self.m_KeyColFlags r.dataline).length =
      self.m_KeyColFlags.countP (fun fl => decide (fl ≠ 0)) :=
    keyVals_length _ _ (by rw [h1, h2]) hall
  have hk4 : (keyVals self.m_KeyColFlags r.dataline).length ≤ 4 := by
    rw [hkl, ← hL.flags_inv.ks_len]
    exact hL.nkeys
  obtain ⟨mk, hmk, hlen, hslots⟩ :=
    assembleKeys_target self (rowKeys self.m_KeyColFlags r.dataline) q [0, 0, 0, 0] (by
      intro e he
      obtain ⟨i, fl, hn, hf, hfl, hx⟩ := (mem_rowQuery _ _ _ e).mp ((hq e).mp he)
      refine ⟨i, fl, find_of_nodup self hL.names_inv hnd i e.1 hn, hf, ?_⟩
      intro _
      obtain ⟨v, hv⟩ := hall i fl hf hfl
      obtain ⟨wk, hwk, hwk4, hwkeq⟩ := loaded_ordinal_lt rdF lines self rs hL i fl hf hfl
      have hxv : e.2 = AnyVal.int v := by
        rw [hx] at hv
        exact Option.some.inj hv
      refine ⟨v, wk, hxv, hwk, by simpa using hwk4, ?_⟩
      have hkv := keyVals_get _ _ hall i fl v hf hfl hv
      rw [← hwkeq] at hkv
      have hlt : wk < (keyVals self.m_KeyColFlags r.dataline).length :=
        (List.getElem?_eq_some_iff.mp hkv).1
      rw [rowKeys, pad4_get_lt _ _ hlt hk4]
      exact hkv)
  rw [hmk]
  congr 1
  apply List.ext_getElem?
  intro s
  by_cases hs4 : s < 4
  · by_cases hw : ∃ e ∈ q, writesSlot self s e
    · exact (hslots s).1 hw
    · rw [(hslots s).2 hw]
      have hge : (keyVals self.m_KeyColFlags r.dataline).length ≤ s := by
        by_contra hc
        rw [hkl] at hc
        obtain ⟨i, fl, hf, hfl, hord⟩ := ordinal_surj self.m_KeyColFlags s (by omega)
        have hi : i < self.m_ColumnNames.length := by
          rw [← h2]
          exact (List.getElem?_eq_some_iff.mp hf).1
        obtain ⟨v, hv⟩ := hall i fl hf hfl
        have hmem : (self.m_ColumnNames[i], AnyVal.int v) ∈ q :=
          (hq _).mpr ((mem_rowQuery _ _ _ _).mpr
            ⟨i, fl, List.getElem?_eq_getElem hi, hf, hfl, hv⟩)
        apply hw
        refine ⟨_, hmem, i, fl, find_of_nodup self hL.names_inv hnd i _
          (List.getElem?_eq_getElem hi), hf, hfl, ?_⟩
        rw [(hL.flags_inv.flagged i fl hf hfl).2, hord]
      rw [rowKeys, pad4_get_ge _ _ hge hs4]
      match s, hs4 with
      | 0, _ => rfl
      | 1, _ => rfl
      | 2, _ => rfl
      | 3, _ => rfl
  · rw [List.getElem?_eq_none (by rw [hlen]; simp; omega),
      List.getElem?_eq_none (by rw [rowKeys, pad4_length]; omega)]

/-! ## Hits of the key-set path -/

theorem exampleFile_loads :
    ReadMapFromFile noFloat DUNEGenChannelMapSP.new (some exampleFile) = .ok exampleMap := rfl

theorem dupKeyFile_loads :
    ReadMapFromFile noFloat DUNEGenChannelMapSP.new (some dupKeyFile) = .ok dupKeyMap := rfl

theorem offlFile_loads :
    ReadMapFromFile noFloat DUNEGenChannelMapSP.new (some offlFile) = .ok offlMap := rfl

theorem dupKeyOfflFile_loads :
    ReadMapFromFile noFloat DUNEGenChannelMapSP.new (some dupKeyOfflFile) = .ok dupKeyOfflMap :=
  rfl

theorem strOfflFile_loads :
    ReadMapFromFile noFloat DUNEGenChannelMapSP.new (some strOfflFile) = .ok strOfflMap := rfl

theorem badTypeFile_loads :
    ReadMapFromFile noFloat DUNEGenChannelMapSP.new (some badTypeFile) = .ok badTypeMap := rfl

/-- A hit of the key-set path on a loaded file: the record returned. -/
theorem det_hit (rdF : FloatReader) (lines : List String)
    (self : DUNEGenChannelMapSP) (rs : List RowVars) (hL : LoadedFrom rdF lines self rs)
    (hoff : ∀ i : Nat, self.m_ColumnNames[i]? = some "offlchan" →
      self.m_ColumnTypes[i]? = some 0)
    (detinfo : ChanInfo_t) (t : List Int)
    (hasm : assembleKeys self detinfo.fields [0, 0, 0, 0] = .ok t)
    (j : Nat) (hfind : detFind self.m_DetToChanInfo t = some j) :
    ∃ row info, self.m_MapInfo[j]? = some row ∧
      GetChanInfoFromDetectorElements self detinfo = .ok info ∧
      AMap.find "valid" info.fields = some (AnyVal.bool true) ∧
      (∀ (nm : String) (icol : Nat), nm ≠ "offlchan" → nm ≠ "valid" →
        AMap.find nm self.m_CIMap = some icol →
        AMap.find nm info.fields = row[icol]? ∧ (row[icol]?).isSome) ∧
      (∀ icol : Nat, AMap.find "offlchan" self.m_CIMap = some icol →
        row[icol]? = some (AnyVal.int info.offlchan)) ∧
      (AMap.find "offlchan" self.m_CIMap = none → info.offlchan = 0) := by
  have ht : t.length = 4 := by
    rw [assembleKeys_length self _ _ _ hasm]; rfl
  rw [loaded_detFind rdF lines self rs hL t ht] at hfind
  have hjlt := lastIdx_lt _ _ _ hfind
  have hrow : self.m_MapInfo[j]? = some self.m_MapInfo[j] := List.getElem?_eq_getElem hjlt
  obtain ⟨r, line, _, _, hr, hrd⟩ :=
    loaded_line_of_row rdF lines self rs hL j _ hrow
  obtain ⟨h1, _, _, _, _, _, _⟩ := loaded_row_shape rdF lines self rs hL j r hr
  rw [hrd] at h1
  obtain ⟨info', hinfo'⟩ := fillInfoDet_ok self j _ hrow self.m_ColumnNames 0
    { fields := [], offlchan := 0 } (by rw [h1]; omega) (by
      intro k hk
      obtain ⟨v, hv⟩ := loaded_int_column rdF lines self rs hL j r hr k (hoff k hk)
      rw [Nat.zero_add, ← hrd]
      exact ⟨v, hv⟩)
  obtain ⟨s1, s2, s3⟩ := fillInfoDet_spec self j _ hrow self.m_ColumnNames 0 _ info' hinfo'
  refine ⟨self.m_MapInfo[j], { info' with fields := AMap.set "valid" (AnyVal.bool true) info'.fields },
    hrow, ?_, ?_, ?_, ?_, ?_⟩
  · unfold GetChanInfoFromDetectorElements
    rw [hasm, ok_bind, loaded_detFind rdF lines self rs hL t ht, hfind]
    simp only
    rw [hinfo', ok_bind]
  · simp [AMap.find_set]
  · intro nm icol hn1 hn2 hf
    rw [hL.names_inv nm] at hf
    have := (s1 nm hn1).1 icol hf
    rw [Nat.zero_add] at this
    refine ⟨?_, this.2⟩
    simp only [AMap.find_set]
    rw [if_neg (fun e => hn2 e.symm)]
    exact this.1
  · intro icol hf
    rw [hL.names_inv "offlchan"] at hf
    have := s2 icol hf
    rw [Nat.zero_add] at this
    exact this
  · intro hf
    rw [hL.names_inv "offlchan"] at hf
    exact s3 hf

/-! ## The reverse path -/

theorem toUnsigned_inj (a b : Int) (ha : inIntRange a) (hb : inIntRange b)
    (h : toUnsigned a = toUnsigned b) : a = b := by
  unfold toUnsigned at h
  unfold inIntRange INT_MIN INT_MAX at ha hb
  have h1 : (0 : Int) ≤ a % 4294967296 := Int.emod_nonneg _ (by decide)
  have h2 : (0 : Int) ≤ b % 4294967296 := Int.emod_nonneg _ (by decide)
  have h3 : a % 4294967296 = b % 4294967296 := by
    have := congrArg (fun n : Nat => (n : Int)) h
    simp only [Int.toNat_of_nonneg h1, Int.toNat_of_nonneg h2] at this
    exact this
  omega

theorem rowOfflFrom_absent (acc : Int) (ns : List String) (xs : List AnyVal)
    (h : "offlchan" ∉ ns) : rowOfflFrom acc ns xs = acc := by
  induction ns generalizing xs acc with
  | nil => cases xs <;> rfl
  | cons n ns ih =>
    cases xs with
    | nil => rfl
    | cons x xs =>
      have hn : n ≠ "offlchan" := fun e => h (by simp [e])
      have hns : "offlchan" ∉ ns := fun e => h (List.mem_cons_of_mem _ e)
      simp only [rowOfflFrom, hn, if_false]
      exact ih _ xs hns

theorem rowOfflFrom_last (acc : Int) (ns : List String) (xs : List AnyVal) (k : Nat) (v : Int)
    (hk : lastIdx (fun x => decide (x = "offlchan")) ns = some k)
    (hv : xs[k]? = some (AnyVal.int v)) : rowOfflFrom acc ns xs = v := by
  induction ns generalizing xs acc k with
  | nil => simp [lastIdx] at hk
  | cons n ns ih =>
    cases xs with
    | nil => simp at hv
    | cons x xs =>
      rw [lastIdx_cons] at hk
      simp only [rowOfflFrom]
      cases hl : lastIdx (fun x => decide (x = "offlchan")) ns with
      | some j =>
        rw [hl] at hk
        simp only [Option.some.injEq] at hk
        subst hk
        exact ih _ xs j hl (by simpa using hv)
      | none =>
        rw [hl] at hk
        by_cases hn : n = "offlchan"
        · simp only [hn, decide_True, if_true, Option.some.injEq] at hk
          subst hk
          simp only [List.getElem?_cons_zero, Option.some.injEq] at hv
          subst hv
          have habs : "offlchan" ∉ ns := by
            intro hmem
            have := (lastIdx_eq_none_iff _ _).mp hl "offlchan" hmem
            simp at this
          simp only [hn, if_true]
          exact rowOfflFrom_absent _ ns xs habs
        · simp [hn] at hk

theorem lastIdx_isSome_of_mem {α : Type} (p : α → Bool) (l : List α) (x : α)
    (hx : x ∈ l) (hp : p x = true) : ∃ k, lastIdx p l = some k := by
  cases h : lastIdx p l with
  | some k => exact ⟨k, rfl⟩
  | none =>
    have := (lastIdx_eq_none_iff p l).mp h x hx
    rw [hp] at this
    cases this

/-- The reverse path, once the reverse index has answered: the loop of the
key-set path from the same start, with `infovalid` as the flag. -/
theorem offl_unfold (self : DUNEGenChannelMapSP) (ch : Int) (idx : Nat)
    (hrev : AMap.find (toUnsigned ch) self.m_OfflToChanInfo = some idx) :
    GetChanInfoFromOfflChan self ch =
      fillInfoDet self idx self.m_ColumnNames 0 { fields := [], offlchan := -1 } >>=
        fun info' => .ok { fields := AMap.set "valid"
                             (AnyVal.bool (decide ("offlchan" ∈ self.m_ColumnNames))) info'.fields,
                           offlchan := info'.offlchan } := by
  unfold GetChanInfoFromOfflChan
  rw [hrev]
  simp only
  rw [fillInfoOffl_eq]
  cases fillInfoDet self idx self.m_ColumnNames 0 { fields := [], offlchan := -1 } with
  | error e => rfl
  | ok info' => simp [ok_bind]

/-- With a column named `offlchan`, a hit of the reverse path on the row
that a key-set query resolves to returns what the key-set path returns. -/
theorem paths_agree (self : DUNEGenChannelMapSP) (hcol : "offlchan" ∈ self.m_ColumnNames)
    (ch : Int) (detinfo : ChanInfo_t) (t : List Int) (idx : Nat)
    (hrev : AMap.find (toUnsigned ch) self.m_OfflToChanInfo = some idx)
    (hasm : assembleKeys self detinfo.fields [0, 0, 0, 0] = .ok t)
    (hdet : detFind self.m_DetToChanInfo t = some idx) :
    GetChanInfoFromOfflChan self ch = GetChanInfoFromDetectorElements self detinfo := by
  rw [offl_unfold self ch idx hrev]
  unfold GetChanInfoFromDetectorElements
  rw [hasm, ok_bind, hdet]
  simp only
  rw [fillInfoDet_offl_irrel self idx self.m_ColumnNames 0 [] (-1) 0 hcol]
  simp [hcol]

theorem fillInfoDet_row (self : DUNEGenChannelMapSP) (idx : Nat) (n : String)
    (ns : List String) (i : Nat) (info info' : ChanInfo_t)
    (h : fillInfoDet self idx (n :: ns) i info = .ok info') :
    ∃ row, self.m_MapInfo[idx]? = some row := by
  rw [fillInfoDet] at h
  obtain ⟨row, hrow, _⟩ := (bind_eq_ok _ _ _).mp h
  exact ⟨row, (vecAt_eq_ok _ _ _).mp hrow⟩

/-! ## Exceptions raised by a load -/

theorem vecAt_error {α : Type} (v : List α) (i : Nat) (e : Exn)
    (h : vecAt v i = .error e) : e = .out_of_range := by
  unfold vecAt at h
  cases hv : v[i]? with
  | some x => rw [hv] at h; cases h
  | none => rw [hv] at h; simp only [Except.error.injEq] at h; exact h.symm

theorem vecSetAt_error {α : Type} (v : List α) (i : Nat) (x : α) (e : Exn)
    (h : vecSetAt v i x = .error e) : e = .out_of_range := by
  unfold vecSetAt at h
  by_cases hi : i < v.length
  · simp [hi] at h
  · simp only [hi, if_false, Except.error.injEq] at h
    exact h.symm

theorem bind_eq_error {α β : Type} (x : Except Exn α) (f : α → Except Exn β) (e : Exn)
    (h : (x >>= f) = .error e) : x = .error e ∨ ∃ a, x = .ok a ∧ f a = .error e := by
  cases x with
  | error e' =>
    left
    have : e' = e := by simpa [bind, Except.bind] using h
    rw [this]
  | ok a => right; exact ⟨a, rfl, h⟩

theorem readFlags_error (ls : IStream) (i k : Nat) (self : DUNEGenChannelMapSP) (e : Exn)
    (h : readFlags ls i k self = .error e) : e = .bad_typeid ∨ e = .out_of_range := by
  induction k generalizing ls i self with
  | zero => simp [readFlags] at h
  | succ k ih =>
    rw [readFlags] at h
    rcases hx : extractInt ls 0 with ⟨ls1, cf⟩
    rw [hx] at h
    simp only at h
    rcases bind_eq_error _ _ _ h with h1 | ⟨ty, _, h1⟩
    · right
      by_cases hcf : cf ≠ 0
      · simp only [hcf, if_true, ne_eq, not_false_eq_true] at h1
        exact vecAt_error _ _ _ h1
      · rw [if_neg hcf] at h1
        cases h1
    · by_cases hc : cf ≠ 0 ∧ ty ≠ 0
      · rw [if_pos hc] at h1
        simp only [Except.error.injEq] at h1
        left; exact h1.symm
      · rw [if_neg hc] at h1
        by_cases hcf : cf ≠ 0
        · simp only [hcf, if_true, ne_eq, not_false_eq_true] at h1
          rcases bind_eq_error _ _ _ h1 with h2 | ⟨nm, _, h2⟩
          · right; exact vecAt_error _ _ _ h2
          · exact ih _ _ _ h2
        · simp only [hcf, if_false] at h1
          exact ih _ _ _ h1

theorem readColumn_error (rdF : FloatReader) (types flags : List Int) (names : List String)
    (i : Nat) (r : RowVars) (e : Exn)
    (h : readColumn rdF types flags names i r = .error e) : e = .out_of_range := by
  unfold readColumn at h
  rcases bind_eq_error _ _ _ h with h1 | ⟨ty, _, h1⟩
  · exact vecAt_error _ _ _ h1
  · by_cases h0 : ty = 0
    · simp only [h0, if_true] at h1
      rcases hx : extractInt r.linestream r.ci with ⟨ls1, ci⟩
      rw [hx] at h1
      simp only at h1
      rcases bind_eq_error _ _ _ h1 with h2 | ⟨fl, _, h2⟩
      · exact vecAt_error _ _ _ h2
      · rcases bind_eq_error _ _ _ h2 with h3 | ⟨r2, _, h3⟩
        · by_cases hf : fl ≠ 0
          · simp only [hf, if_true, ne_eq, not_false_eq_true] at h3
            rcases bind_eq_error _ _ _ h3 with h4 | ⟨mk, _, h4⟩
            · exact vecSetAt_error _ _ _ _ h4
            · cases h4
          · simp [hf] at h3
        · rcases bind_eq_error _ _ _ h3 with h4 | ⟨nm, _, h4⟩
          · exact vecAt_error _ _ _ h4
          · by_cases hn : nm = "offlchan"
            · simp [hn] at h4
            · simp [hn] at h4
    · simp only [h0, if_false] at h1
      by_cases h1' : ty = 1
      · simp only [h1', if_true] at h1
        rcases hx : extractString r.linestream r.cs with ⟨ls1, cs⟩
        rw [hx] at h1
        cases h1
      · simp only [h1', if_false] at h1
        by_cases h2' : ty = 2
        · simp only [h2', if_true] at h1
          rcases hx : extractFloat rdF r.linestream r.cf with ⟨ls1, cf⟩
          rw [hx] at h1
          cases h1
        · simp [h2'] at h1

theorem readColumns_error (rdF : FloatReader) (types flags : List Int) (names : List String)
    (i n : Nat) (r : RowVars) (e : Exn)
    (h : readColumns rdF types flags names i n r = .error e) : e = .out_of_range := by
  induction n generalizing i r with
  | zero => simp [readColumns] at h
  | succ n ih =>
    rw [readColumns] at h
    rcases bind_eq_error _ _ _ h with h1 | ⟨r1, _, h1⟩
    · exact readColumn_error _ _ _ _ _ _ _ h1
    · exact ih _ _ h1

theorem processLine_error (rdF : FloatReader) (v : LoadVars) (line : List Char) (e : Exn)
    (h : processLine rdF v line = .error e) : e = .bad_typeid ∨ e = .out_of_range := by
  unfold processLine at h
  simp only at h
  split_ifs at h
  · rcases bind_eq_error _ _ _ h with h1 | ⟨s, _, h1⟩
    · exact readFlags_error _ _ _ _ _ h1
    · cases h1
  · rcases bind_eq_error _ _ _ h with h1 | ⟨s, _, h1⟩
    · right; exact readColumns_error _ _ _ _ _ _ _ _ h1
    · cases h1

theorem processLines_error (rdF : FloatReader) (v : LoadVars) (ls : List (List Char))
    (e : Exn) (h : processLines rdF v ls = .error e) :
    e = .bad_typeid ∨ e = .out_of_range := by
  induction ls generalizing v with
  | nil => simp [processLines] at h
  | cons l rest ih =>
    rw [processLines] at h
    rcases bind_eq_error _ _ _ h with h1 | ⟨v1, _, h1⟩
    · exact processLine_error _ _ _ _ h1
    · exact ih _ h1

/-- The exceptions a load can raise. -/
theorem load_error_kinds (rdF : FloatReader) (self : DUNEGenChannelMapSP)
    (inFile : Option (List String)) (e : Exn)
    (h : ReadMapFromFile rdF self inFile = .error e) :
    e = .bad_typeid ∨ e = .out_of_range ∨
      e = .domain_error "DUNEGenChannelMapSP: Too Many Map Keys" := by
  unfold ReadMapFromFile at h
  rcases bind_eq_error _ _ _ h with h1 | ⟨v, _, h1⟩
  · rw [readLoop_eq_processLines] at h1
    rcases processLines_error _ _ _ _ h1 with h2 | h2
    · exact Or.inl h2
    · exact Or.inr (Or.inl h2)
  · by_cases hk : v.self.m_KeyStrings.length > 4
    · simp only [hk, if_true, Except.error.injEq] at h1
      exact Or.inr (Or.inr h1.symm)
    · simp [hk] at h1

/-- A hit of the reverse path on a loaded file whose columns named
`offlchan` are declared `I` raises nothing, and `valid` tells whether such a
column exists. -/
theorem offl_hit (rdF : FloatReader) (lines : List String)
    (self : DUNEGenChannelMapSP) (rs : List RowVars) (hL : LoadedFrom rdF lines self rs)
    (hoff : ∀ i : Nat, self.m_ColumnNames[i]? = some "offlchan" →
      self.m_ColumnTypes[i]? = some 0)
    (ch : Int) (j : Nat)
    (hrev : AMap.find (toUnsigned ch) self.m_OfflToChanInfo = some j) :
    ∃ info, GetChanInfoFromOfflChan self ch = .ok info ∧
      AMap.find "valid" info.fields =
        some (AnyVal.bool (decide ("offlchan" ∈ self.m_ColumnNames))) := by
  have hrev' := hrev
  rw [loaded_offlFind rdF lines self rs hL] at hrev'
  have hjlt := lastIdx_lt _ _ _ hrev'
  have hrow : self.m_MapInfo[j]? = some self.m_MapInfo[j] := List.getElem?_eq_getElem hjlt
  obtain ⟨r, line, _, _, hr, hrd⟩ :=
    loaded_line_of_row rdF lines self rs hL j _ hrow
  obtain ⟨h1, _, _, _, _, _, _⟩ := loaded_row_shape rdF lines self rs hL j r hr
  rw [hrd] at h1
  obtain ⟨info', hinfo'⟩ := fillInfoDet_ok self j _ hrow self.m_ColumnNames 0
    { fields := [], offlchan := -1 } (by rw [h1]; omega) (by
      intro k hk
      obtain ⟨v, hv⟩ := loaded_int_column rdF lines self rs hL j r hr k (hoff k hk)
      rw [Nat.zero_add, ← hrd]
      exact ⟨v, hv⟩)
  rw [offl_unfold self ch j hrev, hinfo', ok_bind]
  exact ⟨_, rfl, by simp [AMap.find_set]⟩

theorem readTokens_length (ls : IStream) (k : Nat) : (readTokens ls k).length = k := by
  induction k generalizing ls with
  | zero => rfl
  | succ k ih => simp [readTokens, ih]

/-- With recognised type tokens only, the type loop pushes one code per
token. -/
theorem readTypes_recognised (ls : IStream) (k : Nat) (self : DUNEGenChannelMapSP)
    (hrec : ∀ tok ∈ readTokens ls k, tok = "I" ∨ tok = "C" ∨ tok = "S" ∨ tok = "F") :
    (readTypes ls k self).m_ColumnTypes =
      self.m_ColumnTypes ++ (readTokens ls k).map typeCode := by
  induction k generalizing ls self with
  | zero => simp [readTypes, readTokens]
  | succ k ih =>
    rw [readTypes, readTokens]
    rcases hx : extractString ls "" with ⟨ls1, ct⟩
    simp only
    have hct : ct = "I" ∨ ct = "C" ∨ ct = "S" ∨ ct = "F" := by
      apply hrec
      rw [readTokens, hx]
      exact List.mem_cons_self _ _
    have hrest : ∀ tok ∈ readTokens ls1 k, tok = "I" ∨ tok = "C" ∨ tok = "S" ∨ tok = "F" := by
      intro tok htok
      apply hrec
      rw [readTokens, hx]
      exact List.mem_cons_of_mem _ htok
    rcases hct with h | h | h | h
    · subst h
      simp only [if_true]
      rw [ih ls1 _ hrest]
      simp [typeCode]
    · subst h
      rw [if_neg (by decide), if_pos (by decide), ih ls1 _ hrest]
      simp [typeCode]
    · subst h
      rw [if_neg (by decide), if_pos (by decide), ih ls1 _ hrest]
      simp [typeCode]
    · subst h
      rw [if_neg (by decide), if_neg (by decide), if_pos (by decide), ih ls1 _ hrest]
      simp [typeCode]

/-- The flag loop raises `std::bad_typeid` when one of the flags it reads is
nonzero on a column whose recorded type is not 0. -/
theorem readFlags_bad_typeid (ls : IStream) (i k : Nat) (self : DUNEGenChannelMapSP)
    (hnames : i + k ≤ self.m_ColumnNames.length)
    (htypes : i + k ≤ self.m_ColumnTypes.length)
    (m : Nat) (fl : Int) (hm : (readInts ls k)[m]? = some fl) (hfl : fl ≠ 0)
    (hty : self.m_ColumnTypes[i + m]? ≠ some 0) :
    readFlags ls i k self = .error .bad_typeid := by
  induction k generalizing ls i self m with
  | zero => simp [readInts] at hm
  | succ k ih =>
    rw [readFlags]
    rw [readInts] at hm
    rcases hx : extractInt ls 0 with ⟨ls1, cf⟩
    rw [hx] at hm
    simp only at hm ⊢
    have hi : i < self.m_ColumnTypes.length := by omega
    have hin : i < self.m_ColumnNames.length := by omega
    by_cases hcf : cf ≠ 0
    · rw [if_pos hcf, (vecAt_eq_ok _ _ _).mpr (List.getElem?_eq_getElem hi), ok_bind]
      by_cases ht : self.m_ColumnTypes[i] ≠ 0
      · rw [if_pos ⟨hcf, ht⟩]
      · rw [if_neg (fun h => ht h.2), if_pos hcf,
          (vecAt_eq_ok _ _ _).mpr (List.getElem?_eq_getElem hin), ok_bind]
        cases m with
        | zero =>
          exfalso
          apply hty
          rw [Nat.add_zero, List.getElem?_eq_getElem hi]
          simpa using ht
        | succ m' =>
          apply ih ls1 (i + 1) _ (by simpa using (by omega : i + 1 + k ≤ self.m_ColumnNames.length))
            (by simpa using (by omega : i + 1 + k ≤ self.m_ColumnTypes.length)) m'
            (by simpa using hm)
          rw [show i + 1 + m' = i + (m' + 1) by omega]
          exact hty
    · rw [if_neg hcf, ok_bind, if_neg (fun h => hcf h.1), if_neg hcf]
      cases m with
      | zero =>
        exfalso
        simp only [List.getElem?_cons_zero, Option.some.injEq] at hm
        exact hcf (hm ▸ hfl)
      | succ m' =>
        apply ih ls1 (i + 1) _ (by simpa using (by omega : i + 1 + k ≤ self.m_ColumnNames.length))
          (by simpa using (by omega : i + 1 + k ≤ self.m_ColumnTypes.length)) m'
          (by simpa using hm)
        rw [show i + 1 + m' = i + (m' + 1) by omega]
        exact hty

theorem mem_keyNames (ns : List String) (fs : List Int) (i : Nat) (nm : String) (fl : Int)
    (hn : ns[i]? = some nm) (hf : fs[i]? = some fl) (hfl : fl ≠ 0) :
    nm ∈ keyNames ns fs := by
  induction ns generalizing fs i with
  | nil => simp at hn
  | cons n ns ih =>
    cases fs with
    | nil => simp at hf
    | cons f fs =>
      unfold keyNames
      cases i with
      | zero =>
        simp only [List.getElem?_cons_zero, Option.some.injEq] at hn hf
        subst hn hf
        simp [hfl]
      | succ i' =>
        have := ih fs i' (by simpa using hn) (by simpa using hf)
        by_cases h : f ≠ 0
        · rw [if_pos h]
          exact List.mem_cons_of_mem _ this
        · rw [if_neg h]
          exact this

/-- Assembly either runs through, every name being recognised, or raises
the unknown-key-name error for an unrecognised name: provided the entries
with a recognised name meet no bound or cast failure. -/
theorem assembleKeys_cases (self : DUNEGenChannelMapSP)
    (q : List (String × AnyVal)) (mk0 : List Int)
    (hq : ∀ e ∈ q, AMap.find e.1 self.m_CIMap = none ∨
      ∃ (icol : Nat) (fl : Int), AMap.find e.1 self.m_CIMap = some icol ∧
        self.m_KeyColFlags[icol]? = some fl ∧
        (fl ≠ 0 → ∃ (v : Int) (wk : Nat), e.2 = AnyVal.int v ∧
          self.m_WhichKey[icol]? = some wk ∧ wk < mk0.length)) :
    (∃ mk, assembleKeys self q mk0 = .ok mk ∧ ∀ e ∈ q, AMap.find e.1 self.m_CIMap ≠ none) ∨
    (∃ e ∈ q, AMap.find e.1 self.m_CIMap = none ∧
      assembleKeys self q mk0 =
        .error (.logic_error ("DUNEGenChannelMapSP ununderstood map key name " ++ e.1))) := by
  induction q generalizing mk0 with
  | nil => exact Or.inl ⟨mk0, rfl, by simp⟩
  | cons e rest ih =>
    obtain ⟨nm, x⟩ := e
    have hrest : ∀ mk1 : List Int, mk1.length = mk0.length →
        ∀ e ∈ rest, AMap.find e.1 self.m_CIMap = none ∨
        ∃ (icol : Nat) (fl : Int), AMap.find e.1 self.m_CIMap = some icol ∧
          self.m_KeyColFlags[icol]? = some fl ∧
          (fl ≠ 0 → ∃ (v : Int) (wk : Nat), e.2 = AnyVal.int v ∧
            self.m_WhichKey[icol]? = some wk ∧ wk < mk1.length) := by
      intro mk1 hl e he
      rw [hl]
      exact hq e (List.mem_cons_of_mem _ he)
    have lift : ∀ mk1 : List Int, mk1.length = mk0.length →
        AMap.find nm self.m_CIMap ≠ none →
        ((∃ mk, assembleKeys self rest mk1 = .ok mk ∧
            ∀ e ∈ (nm, x) :: rest, AMap.find e.1 self.m_CIMap ≠ none) ∨
          (∃ e ∈ (nm, x) :: rest, AMap.find e.1 self.m_CIMap = none ∧
            assembleKeys self rest mk1 =
              .error (.logic_error ("DUNEGenChannelMapSP ununderstood map key name " ++ e.1)))) := by
      intro mk1 hl hnm
      rcases ih mk1 (hrest mk1 hl) with ⟨mk, hmk, hall⟩ | ⟨e, he, hnone, herr⟩
      · left
        refine ⟨mk, hmk, ?_⟩
        intro e he
        rcases List.mem_cons.mp he with h | h
        · subst h; exact hnm
        · exact hall e h
      · right
        exact ⟨e, List.mem_cons_of_mem _ he, hnone, herr⟩
    rcases hq (nm, x) (List.mem_cons_self _ _) with hnone | ⟨icol, fl, hfind, hflag, hkey⟩
    · right
      refine ⟨(nm, x), List.mem_cons_self _ _, hnone, ?_⟩
      rw [assembleKeys]
      simp only at hnone
      rw [hnone]
    · simp only at hfind
      have hne : AMap.find nm self.m_CIMap ≠ none := by rw [hfind]; simp
      rw [assembleKeys, hfind]
      simp only
      rw [(vecAt_eq_ok _ _ _).mpr hflag, ok_bind]
      by_cases hfl : fl ≠ 0
      · obtain ⟨v, wk, hx, hwk, hlt⟩ := hkey hfl
        simp only at hx
        subst hx
        simp only [hfl, if_true, ne_eq, not_false_eq_true, any_cast_int, ok_bind]
        rw [(vecAt_eq_ok _ _ _).mpr hwk, ok_bind,
          (vecSetAt_eq_ok _ _ _ _).mpr ⟨hlt, rfl⟩, ok_bind]
        exact lift _ (by simp) hne
      · simp only [hfl, if_false]
        exact lift mk0 rfl hne

theorem lastIdx_true {α : Type} (l : List α) :
    lastIdx (fun _ => true) l = if l.length = 0 then none else some (l.length - 1) := by
  induction l using List.reverseRecOn with
  | nil => rfl
  | append_singleton l x _ =>
    rw [lastIdx_append_singleton]
    simp

/-! ## Boundary cases on concrete files -/

/-- Why the round trip needs an integer `offlchan` column: on `strOfflFile`
the key-set query of the only row (no key column, hence no entry) hits that
row and raises `std::bad_any_cast`. -/
theorem roundTrip_string_offlchan_raises :
    rowQuery strOfflMap.m_ColumnNames strOfflMap.m_KeyColFlags [AnyVal.str "x"] = [] ∧
    GetChanInfoFromDetectorElements strOfflMap { fields := [], offlchan := 0 } =
      .error .bad_any_cast :=
  ⟨rfl, rfl⟩

/-- Why the round trip needs that no column is named `valid`: the value the
row holds under that name is overwritten by the validity flag. -/
theorem roundTrip_valid_column_overwritten :
    (ReadMapFromFile noFloat DUNEGenChannelMapSP.new
        (some ["2", "crate valid", "I I", "1 0", "1 7"]) >>= fun self =>
      GetChanInfoFromDetectorElements self { fields := [("crate", AnyVal.int 1)], offlchan := 0 }) =
    .ok { fields := [("crate", AnyVal.int 1), ("valid", AnyVal.bool true)], offlchan := 0 } :=
  rfl

/-- Why the round trip needs distinct column names: with two key columns
named `a`, a mapping has one entry for `a`, which fills the slot of the
second column only, and the row `5 6` is found under neither of its values. -/
theorem roundTrip_repeated_name_misses :
    (ReadMapFromFile noFloat DUNEGenChannelMapSP.new
        (some ["2", "a a", "I I", "1 1", "5 6"]) >>= fun self =>
      GetChanInfoFromDetectorElements self { fields := [("a", AnyVal.int 5)], offlchan := 0 }) =
      .ok badInfo ∧
    (ReadMapFromFile noFloat DUNEGenChannelMapSP.new
        (some ["2", "a a", "I I", "1 1", "5 6"]) >>= fun self =>
      GetChanInfoFromDetectorElements self { fields := [("a", AnyVal.int 6)], offlchan := 0 }) =
      .ok badInfo :=
  ⟨rfl, rfl⟩

/-- Why the key-set path needs the four header lines: a file that ends
after the column names loads without error, and a query naming one of its
columns raises `std::out_of_range` at `m_KeyColFlags.at`. -/
theorem keyset_truncated_header_raises :
    (ReadMapFromFile noFloat DUNEGenChannelMapSP.new (some ["2", "a b"]) >>= fun self =>
      GetChanInfoFromDetectorElements self { fields := [("a", AnyVal.int 1)], offlchan := 0 }) =
    .error .out_of_range :=
  rfl

theorem stripComment_skippable (l : String) (h : isSkippable l = true) :
    (stripComment l).length = 0 := by
  unfold isSkippable at h
  unfold stripComment
  cases hd : l.data with
  | nil => rfl
  | cons c cs =>
    rw [hd] at h
    have hc : c = '#' := by simpa using h
    subst hc
    simp

theorem retained_inserted (F F' : List String) (h : InsertedSkippable F F') :
    retained F' = retained F := by
  induction h with
  | done => rfl
  | keep l _ ih =>
    unfold retained at ih ⊢
    simp only [List.map_cons, List.filter_cons]
    rw [ih]
  | ins l hl _ ih =>
    have h0 := stripComment_skippable l hl
    unfold retained at ih ⊢
    simp only [List.map_cons]
    rw [List.filter_cons_of_neg (by simp [h0])]
    exact ih

theorem countP_take_strict (flags : List Int) (i j : Nat) (fl : Int) (hij : i < j)
    (hi : flags[i]? = some fl) (hfl : fl ≠ 0) :
    (flags.take i).countP (fun fl => decide (fl ≠ 0)) <
      (flags.take j).countP (fun fl => decide (fl ≠ 0)) := by
  induction flags generalizing i j with
  | nil => simp at hi
  | cons f fs ih =>
    obtain ⟨j', rfl⟩ : ∃ j', j = j' + 1 := ⟨j - 1, by omega⟩
    cases i with
    | zero =>
      simp only [List.getElem?_cons_zero, Option.some.injEq] at hi
      subst hi
      have hp : (fun fl : Int => decide (fl ≠ 0)) f = true := by simpa using hfl
      rw [List.take_succ_cons, List.countP_cons_of_pos (fun fl : Int => decide (fl ≠ 0)) _ hp]
      simp
    | succ i' =>
      have := ih i' j' (by omega) (by simpa using hi)
      simp only [List.take_succ_cons, List.countP_cons]
      omega

/-- Distinct flagged columns have distinct key ordinals. -/
theorem ordinal_inj (flags : List Int) (i j : Nat) (fi fj : Int)
    (hi : flags[i]? = some fi) (hfi : fi ≠ 0) (hj : flags[j]? = some fj) (hfj : fj ≠ 0)
    (h : (flags.take i).countP (fun fl => decide (fl ≠ 0)) =
      (flags.take j).countP (fun fl => decide (fl ≠ 0))) : i = j := by
  by_contra hne
  rcases Nat.lt_or_gt_of_ne hne with hlt | hgt
  · have := countP_take_strict flags i j fi hlt hi hfi
    omega
  · have := countP_take_strict flags j i fj hgt hj hfj
    omega

/-- The object once the four header lines have been read without error. -/
theorem header_four (rdF : FloatReader) (a b c d : List Char) (v : LoadVars)
    (h : processLines rdF { self := DUNEGenChannelMapSP.new, state := 0, ncolumns := 0 }
      [a, b, c, d] = .ok v) :
    NamesInv v.self ∧ FlagsInv v.self ∧
    v.self.m_ColumnNames.length = (extractInt { buf := a, fail := false } 0).2.toNat ∧
    v.self.m_KeyColFlags.length = v.self.m_ColumnNames.length ∧
    v.state = 4 ∧ v.ncolumns = (extractInt { buf := a, fail := false } 0).2 := by
  rw [processLines_header4] at h
  obtain ⟨s3, hs3, hv⟩ := (bind_eq_ok _ _ _).mp h
  simp only [processLines, Except.ok.injEq] at hv
  subst hv
  obtain ⟨h1, h2, h3, h4, h5, h6, h7, h8, h9, h10⟩ :=
    header_pre { buf := b, fail := false } { buf := c, fail := false }
      (extractInt { buf := a, fail := false } 0).2.toNat
      (extractInt { buf := a, fail := false } 0).2.toNat (Nat.le_refl _)
  have hF0 : FlagsInv (readTypes { buf := c, fail := false }
      (extractInt { buf := a, fail := false } 0).2.toNat
      (readNames { buf := b, fail := false } 0
        (extractInt { buf := a, fail := false } 0).2.toNat DUNEGenChannelMapSP.new)) :=
    ⟨by rw [h5, h6]; rfl, by rw [h5, h7]; rfl, by rw [h5, h7, keyNames_nil_right],
      by intro i fl hget; rw [h5] at hget; simp at hget⟩
  obtain ⟨f1, f2, f3, f4, f5, f6, f7, f8⟩ :=
    readFlags_spec _ 0 _ _ s3 (by rw [h5]; rfl) hF0 hs3
  refine ⟨?_, f1, ?_, ?_, rfl, rfl⟩
  · intro name
    show AMap.find name s3.m_CIMap = lastIdx _ s3.m_ColumnNames
    rw [f4, f3]
    exact h1 name
  · show s3.m_ColumnNames.length = _
    rw [f3, h2]
  · show s3.m_KeyColFlags.length = s3.m_ColumnNames.length
    rw [f2, f3, h2]
    omega

/-- The name loop appends the strings it extracts. -/
theorem readNames_names (ls : IStream) (i k : Nat) (self : DUNEGenChannelMapSP) :
    (readNames ls i k self).m_ColumnNames = self.m_ColumnNames ++ readTokens ls k := by
  induction k generalizing ls i self with
  | zero => simp [readNames, readTokens]
  | succ k ih =>
    rw [readNames, readTokens]
    rcases hx : extractString ls "" with ⟨ls1, cn⟩
    simp only
    rw [ih]
    simp

/-- The type loop pushes one code per column only when every token is
recognised. -/
theorem readTypes_full (ls : IStream) (k : Nat) (self : DUNEGenChannelMapSP)
    (hty : ∀ ty ∈ self.m_ColumnTypes, ty = 0 ∨ ty = 1 ∨ ty = 2)
    (h : (readTypes ls k self).m_ColumnTypes.length = self.m_ColumnTypes.length + k) :
    ∀ tok ∈ readTokens ls k, tok = "I" ∨ tok = "C" ∨ tok = "S" ∨ tok = "F" := by
  induction k generalizing ls self with
  | zero => simp [readTokens]
  | succ k ih =>
    rw [readTypes] at h
    rw [readTokens]
    rcases hx : extractString ls "" with ⟨ls1, ct⟩
    rw [hx] at h
    simp only at h ⊢
    have push : ∀ c : Int, (c = 0 ∨ c = 1 ∨ c = 2) →
        ∀ ty ∈ self.m_ColumnTypes ++ [c], ty = 0 ∨ ty = 1 ∨ ty = 2 := by
      intro c hc ty hmem
      rcases List.mem_append.mp hmem with h | h
      · exact hty ty h
      · simp at h
        subst h
        exact hc
    intro tok htok
    by_cases h1 : ct = "I"
    · rw [if_pos h1] at h
      rcases List.mem_cons.mp htok with he | he
      · exact Or.inl (he.trans h1)
      · exact ih ls1 { self with m_ColumnTypes := self.m_ColumnTypes ++ [0] } (push 0 (Or.inl rfl))
                (by rw [h]; simp only [List.length_append, List.length_singleton]; omega) tok he
    · rw [if_neg h1] at h
      by_cases h2 : ct = "C" ∨ ct = "S"
      · rw [if_pos h2] at h
        rcases List.mem_cons.mp htok with he | he
        · rcases h2 with h2 | h2
          · exact Or.inr (Or.inl (he.trans h2))
          · exact Or.inr (Or.inr (Or.inl (he.trans h2)))
        · exact ih ls1 { self with m_ColumnTypes := self.m_ColumnTypes ++ [1] } (push 1 (Or.inr (Or.inl rfl)))
                (by rw [h]; simp only [List.length_append, List.length_singleton]; omega) tok he
      · rw [if_neg h2] at h
        by_cases h3 : ct = "F"
        · rw [if_pos h3] at h
          rcases List.mem_cons.mp htok with he | he
          · exact Or.inr (Or.inr (Or.inr (he.trans h3)))
          · exact ih ls1 { self with m_ColumnTypes := self.m_ColumnTypes ++ [2] } (push 2 (Or.inr (Or.inr rfl)))
                (by rw [h]; simp only [List.length_append, List.length_singleton]; omega) tok he
        · rw [if_neg h3] at h
          exfalso
          have := (readTypes_spec ls1 k self hty).2.1
          omega

/-- The flag loop raises nothing when every nonzero flag it reads sits on a
column with recorded type 0 and a name; it appends the flags it extracts. -/
theorem readFlags_ok (ls : IStream) (i k : Nat) (self : DUNEGenChannelMapSP)
    (hnames : i + k ≤ self.m_ColumnNames.length)
    (hfl : ∀ (m : Nat) (fl : Int), (readInts ls k)[m]? = some fl → fl ≠ 0 →
      self.m_ColumnTypes[i + m]? = some 0) :
    ∃ s', readFlags ls i k self = .ok s' ∧
      s'.m_KeyColFlags = self.m_KeyColFlags ++ readInts ls k ∧
      s'.m_ColumnNames = self.m_ColumnNames ∧ s'.m_ColumnTypes = self.m_ColumnTypes := by
  induction k generalizing ls i self with
  | zero => exact ⟨self, rfl, by simp [readInts], rfl, rfl⟩
  | succ k ih =>
    rw [readFlags]
    have hints : readInts ls (k + 1) =
        (extractInt ls 0).2 :: readInts (extractInt ls 0).1 k := rfl
    rcases hx : extractInt ls 0 with ⟨ls1, cf⟩
    rw [hx] at hints
    simp only at hints ⊢
    have hin : i < self.m_ColumnNames.length := by omega
    have hrest : ∀ (m : Nat) (fl : Int), (readInts ls1 k)[m]? = some fl → fl ≠ 0 →
        self.m_ColumnTypes[i + 1 + m]? = some 0 := by
      intro m fl hm hne
      have := hfl (m + 1) fl (by rw [hints]; simpa using hm) hne
      rw [show i + 1 + m = i + (m + 1) by omega]
      exact this
    by_cases hcf : cf ≠ 0
    · have hty := hfl 0 cf (by rw [hints]; simp) hcf
      rw [Nat.add_zero] at hty
      rw [if_pos hcf, (vecAt_eq_ok _ _ _).mpr hty, ok_bind, if_neg (fun h => h.2 rfl),
        if_pos hcf, (vecAt_eq_ok _ _ _).mpr (List.getElem?_eq_getElem hin), ok_bind]
      obtain ⟨s', h1, h2, h3, h4⟩ := ih ls1 (i + 1)
        { self with m_KeyColFlags := self.m_KeyColFlags ++ [cf],
                    m_WhichKey := self.m_WhichKey ++ [self.m_KeyStrings.length],
                    m_KeyStrings := self.m_KeyStrings ++ [self.m_ColumnNames[i]] }
        (by simpa using (by omega : i + 1 + k ≤ self.m_ColumnNames.length)) hrest
      exact ⟨s', h1, by rw [h2, hints]; simp, h3, h4⟩
    · rw [if_neg hcf, ok_bind, if_neg (fun h => hcf h.1), if_neg hcf]
      obtain ⟨s', h1, h2, h3, h4⟩ := ih ls1 (i + 1)
        { self with m_KeyColFlags := self.m_KeyColFlags ++ [cf],
                    m_WhichKey := self.m_WhichKey ++ [0] }
        (by simpa using (by omega : i + 1 + k ≤ self.m_ColumnNames.length)) hrest
      exact ⟨s', h1, by rw [h2, hints]; simp, h3, h4⟩

/-- The schema after a load without error is the one the header loops left. -/
theorem loaded_schema_of_header (rdF : FloatReader) (lines : List String)
    (self : DUNEGenChannelMapSP) (a b c d : List Char) (ds : List (List Char))
    (hret : retained lines = a :: b :: c :: d :: ds)
    (hload : ReadMapFromFile rdF DUNEGenChannelMapSP.new (some lines) = .ok self) :
    self.m_ColumnNames = (readTypes { buf := c, fail := false }
      (extractInt { buf := a, fail := false } 0).2.toNat
      (readNames { buf := b, fail := false } 0
        (extractInt { buf := a, fail := false } 0).2.toNat
        DUNEGenChannelMapSP.new)).m_ColumnNames ∧
    self.m_ColumnTypes = (readTypes { buf := c, fail := false }
      (extractInt { buf := a, fail := false } 0).2.toNat
      (readNames { buf := b, fail := false } 0
        (extractInt { buf := a, fail := false } 0).2.toNat
        DUNEGenChannelMapSP.new)).m_ColumnTypes := by
  unfold ReadMapFromFile at hload
  obtain ⟨v, hv, h⟩ := (bind_eq_ok _ _ _).mp hload
  have hself : self = v.self := by
    by_cases hk : v.self.m_KeyStrings.length > 4
    · rw [if_pos hk] at h; cases h
    · rw [if_neg hk] at h
      simp only [Except.ok.injEq] at h
      exact h.symm
  subst hself
  simp only [Option.getD_some] at hv
  rw [readLoop_eq_processLines, hret, processLines_header4] at hv
  obtain ⟨s3, hs3, hv⟩ := (bind_eq_ok _ _ _).mp hv
  obtain ⟨h1, h2, h3, h4, h5, h6, h7, h8, h9, h10⟩ :=
    header_pre { buf := b, fail := false } { buf := c, fail := false }
      (extractInt { buf := a, fail := false } 0).2.toNat
      (extractInt { buf := a, fail := false } 0).2.toNat (Nat.le_refl _)
  have hF0 : FlagsInv (readTypes { buf := c, fail := false }
      (extractInt { buf := a, fail := false } 0).2.toNat
      (readNames { buf := b, fail := false } 0
        (extractInt { buf := a, fail := false } 0).2.toNat DUNEGenChannelMapSP.new)) :=
    ⟨by rw [h5, h6]; rfl, by rw [h5, h7]; rfl, by rw [h5, h7, keyNames_nil_right],
      by intro i fl hget; rw [h5] at hget; simp at hget⟩
  obtain ⟨_, _, f3, _, f5, _, _, _⟩ :=
    readFlags_spec _ 0 _ _ s3 (by rw [h5]; rfl) hF0 hs3
  obtain ⟨_, _, rs, _, hself⟩ := processLines_data rdF ds _ v rfl hv
  obtain ⟨g1, _, g3, _, _, _⟩ := foldl_addRow_schema s3 rs
  simp only at hself
  exact ⟨by rw [hself, g1, f3], by rw [hself, g3, f5]⟩

/-- Effect of one entry with a recognised name and an integer value on the
key-assembly loop: skipped, a write into one slot, or out of range. -/
theorem assembleKeys_entry (self : DUNEGenChannelMapSP) (nm : String) (v : Int) (icol : Nat)
    (hf : AMap.find nm self.m_CIMap = some icol) :
    (self.m_KeyColFlags[icol]? = some 0 ∧
      ∀ rest mk, assembleKeys self ((nm, AnyVal.int v) :: rest) mk =
        assembleKeys self rest mk) ∨
    (∃ (w : Nat) (fl : Int), self.m_KeyColFlags[icol]? = some fl ∧ fl ≠ 0 ∧
      self.m_WhichKey[icol]? = some w ∧
      ∀ rest mk, assembleKeys self ((nm, AnyVal.int v) :: rest) mk =
        if w < mk.length then assembleKeys self rest (mk.set w v)
        else .error .out_of_range) ∨
    ((self.m_KeyColFlags[icol]? = none ∨ self.m_WhichKey[icol]? = none) ∧
      ∀ rest mk, assembleKeys self ((nm, AnyVal.int v) :: rest) mk =
        .error .out_of_range) := by
  cases hfl : self.m_KeyColFlags[icol]? with
  | none =>
    refine Or.inr (Or.inr ⟨Or.inl rfl, ?_⟩)
    intro rest mk
    rw [assembleKeys, hf]
    simp only [vecAt, hfl]
    rfl
  | some fl =>
    by_cases h0 : fl = 0
    · subst h0
      refine Or.inl ⟨rfl, ?_⟩
      intro rest mk
      rw [assembleKeys, hf]
      simp only [vecAt, hfl, ok_bind]
      simp
    · cases hw : self.m_WhichKey[icol]? with
      | none =>
        refine Or.inr (Or.inr ⟨Or.inr rfl, ?_⟩)
        intro rest mk
        rw [assembleKeys, hf]
        simp only [vecAt, hfl, ok_bind, hw, any_cast_int]
        rw [if_pos h0]
        rfl
      | some w =>
        refine Or.inr (Or.inl ⟨w, fl, rfl, h0, rfl, ?_⟩)
        intro rest mk
        rw [assembleKeys, hf]
        simp only [vecAt, hfl, ok_bind, hw, any_cast_int]
        rw [if_pos h0]
        simp only [ok_bind, vecSetAt]
        by_cases hlt : w < mk.length
        · rw [if_pos hlt, if_pos hlt]
          rfl
        · rw [if_neg hlt, if_neg hlt]
          rfl

/-- Two adjacent entries of a key-set query with distinct recognised names
and integer values can be exchanged. -/
theorem assembleKeys_swap (self : DUNEGenChannelMapSP) (hN : NamesInv self)
    (hF : FlagsInv self) (n1 n2 : String) (v1 v2 : Int) (hne : n1 ≠ n2)
    (h1 : AMap.find n1 self.m_CIMap ≠ none) (h2 : AMap.find n2 self.m_CIMap ≠ none)
    (rest : List (String × AnyVal)) (mk : List Int) :
    assembleKeys self ((n1, AnyVal.int v1) :: (n2, AnyVal.int v2) :: rest) mk =
      assembleKeys self ((n2, AnyVal.int v2) :: (n1, AnyVal.int v1) :: rest) mk := by
  obtain ⟨i1, hi1⟩ := Option.ne_none_iff_exists'.mp h1
  obtain ⟨i2, hi2⟩ := Option.ne_none_iff_exists'.mp h2
  have hcol : i1 ≠ i2 := by
    intro h
    have a := find_some_names self hN n1 i1 hi1
    have b := find_some_names self hN n2 i2 hi2
    rw [h, b] at a
    exact hne (Option.some.inj a).symm
  rcases assembleKeys_entry self n1 v1 i1 hi1 with
    ⟨_, e1⟩ | ⟨w1, f1, hf1, hz1, hw1, e1⟩ | ⟨_, e1⟩ <;>
  rcases assembleKeys_entry self n2 v2 i2 hi2 with
    ⟨_, e2⟩ | ⟨w2, f2, hf2, hz2, hw2, e2⟩ | ⟨_, e2⟩
  · simp only [e1, e2]
  · simp only [e1, e2]
  · simp only [e1, e2]
  · simp only [e1, e2]
  · have hw : w1 ≠ w2 := by
      intro h
      have a := (hF.flagged i1 f1 hf1 hz1).2
      have b := (hF.flagged i2 f2 hf2 hz2).2
      rw [hw1] at a
      rw [hw2] at b
      have a' := Option.some.inj a
      have b' := Option.some.inj b
      exact hcol (ordinal_inj self.m_KeyColFlags i1 i2 f1 f2 hf1 hz1 hf2 hz2
        (by rw [← a', ← b', h]))
    simp only [e1, e2, List.length_set]
    by_cases l1 : w1 < mk.length <;> by_cases l2 : w2 < mk.length
    · rw [if_pos l1, if_pos l2, if_pos l2, if_pos l1, List.set_comm v1 v2 mk hw]
    · rw [if_pos l1, if_neg l2, if_neg l2]
    · rw [if_neg l1, if_pos l2, if_neg l1]
    · rw [if_neg l1, if_neg l2]
  · simp only [e1, e2]
    by_cases l1 : w1 < mk.length
    · rw [if_pos l1]
    · rw [if_neg l1]
  · simp only [e1, e2]
  · simp only [e1, e2]
    by_cases l2 : w2 < mk.length
    · rw [if_pos l2]
    · rw [if_neg l2]
  · simp only [e1, e2]

/-- The key tuple assembled from a key-set query with distinct recognised
names and integer values does not depend on the iteration order. -/
theorem assembleKeys_perm (self : DUNEGenChannelMapSP) (hN : NamesInv self)
    (hF : FlagsInv self) (q q' : List (String × AnyVal)) (hp : q.Perm q')
    (hnd : (q.map Prod.fst).Nodup)
    (hrec : ∀ e ∈ q, AMap.find e.1 self.m_CIMap ≠ none)
    (hint : ∀ e ∈ q, ∃ v : Int, e.2 = AnyVal.int v) (mk : List Int) :
    assembleKeys self q mk = assembleKeys self q' mk := by
  induction hp generalizing mk with
  | nil => rfl
  | cons x _ ih =>
    obtain ⟨nm, val⟩ := x
    obtain ⟨v, hv⟩ := hint (nm, val) (List.mem_cons_self _ _)
    simp only at hv
    subst hv
    obtain ⟨ic, hic⟩ := Option.ne_none_iff_exists'.mp (hrec (nm, AnyVal.int v) (List.mem_cons_self _ _))
    simp only at hic
    have ih' := fun mk => ih (List.nodup_cons.mp (by simpa using hnd)).2
      (fun e he => hrec e (List.mem_cons_of_mem _ he))
      (fun e he => hint e (List.mem_cons_of_mem _ he)) mk
    rcases assembleKeys_entry self nm v ic hic with ⟨_, e1⟩ | ⟨w1, f1, hf1, hz1, hw1, e1⟩ | ⟨_, e1⟩
    · rw [e1, e1, ih']
    · rw [e1, e1, ih']
    · rw [e1, e1]
  | swap x y l =>
    obtain ⟨n1, val1⟩ := x
    obtain ⟨n2, val2⟩ := y
    obtain ⟨v2, hv2⟩ := hint (n2, val2) (List.mem_cons_self _ _)
    obtain ⟨v1, hv1⟩ := hint (n1, val1) (List.mem_cons_of_mem _ (List.mem_cons_self _ _))
    simp only at hv1 hv2
    subst hv1 hv2
    have hne : n2 ≠ n1 := by
      intro h
      simp [h] at hnd
    exact assembleKeys_swap self hN hF n2 n1 v2 v1 hne
      (hrec _ (List.mem_cons_self _ _))
      (hrec _ (List.mem_cons_of_mem _ (List.mem_cons_self _ _))) l mk
  | trans p1 _ ih1 ih2 =>
    rw [ih1 hnd hrec hint mk]
    exact ih2 ((List.Perm.nodup_iff (p1.map Prod.fst)).mp hnd)
      (fun e he => hrec e (p1.mem_iff.mpr he))
      (fun e he => hint e (p1.mem_iff.mpr he)) mk

/-- A key-set query whose key tuple is assembled names recognised columns
only. -/
theorem assembleKeys_ok_recognised (self : DUNEGenChannelMapSP)
    (q : List (String × AnyVal)) (mk0 mk : List Int)
    (h : assembleKeys self q mk0 = .ok mk) :
    ∀ e ∈ q, AMap.find e.1 self.m_CIMap ≠ none := by
  intro e he hnone
  obtain ⟨err, herr⟩ := assembleKeys_unknown self q mk0 ⟨e, he, hnone⟩
  rw [h] at herr
  cases herr

/-- The key-set lookup depends on the query through the assembled key tuple
only. -/
theorem get_congr (self : DUNEGenChannelMapSP) (q q' : ChanInfo_t)
    (h : assembleKeys self q.fields [0, 0, 0, 0] = assembleKeys self q'.fields [0, 0, 0, 0]) :
    GetChanInfoFromDetectorElements self q = GetChanInfoFromDetectorElements self q' := by
  unfold GetChanInfoFromDetectorElements
  rw [h]

/-- A record returned for a key-set query with distinct names and integer
values is returned for every reordering of its entries. -/
theorem get_perm_ok (self : DUNEGenChannelMapSP) (hN : NamesInv self)
    (hF : FlagsInv self) (q q' : ChanInfo_t) (hp : q.fields.Perm q'.fields)
    (hnd : (q.fields.map Prod.fst).Nodup)
    (hint : ∀ e ∈ q.fields, ∃ v : Int, e.2 = AnyVal.int v) (info : ChanInfo_t)
    (h : GetChanInfoFromDetectorElements self q = .ok info) :
    GetChanInfoFromDetectorElements self q' = .ok info := by
  rw [← h]
  apply get_congr
  have h' := h
  unfold GetChanInfoFromDetectorElements at h'
  obtain ⟨mk, hmk, _⟩ := (bind_eq_ok _ _ _).mp h'
  exact (assembleKeys_perm self hN hF q.fields q'.fields hp hnd
    (assembleKeys_ok_recognised self q.fields _ mk hmk) hint _).symm

/-- With two unrecognised names in a query, the name reported by the
`std::logic_error` is that of the entry iterated first. -/
theorem unknown_name_message_order :
    GetChanInfoFromDetectorElements exampleMap
        { fields := [("u", AnyVal.int 0), ("v", AnyVal.int 0)], offlchan := 0 } =
      .error (.logic_error "DUNEGenChannelMapSP ununderstood map key name u") ∧
    GetChanInfoFromDetectorElements exampleMap
        { fields := [("v", AnyVal.int 0), ("u", AnyVal.int 0)], offlchan := 0 } =
      .error (.logic_error "DUNEGenChannelMapSP ununderstood map key name v") :=
  ⟨rfl, rfl⟩

theorem zeroKeyFile_loads :
    ReadMapFromFile noFloat DUNEGenChannelMapSP.new (some zeroKeyFile) = .ok zeroKeyMap := rfl

theorem noKeyFile_loads :
    ReadMapFromFile noFloat DUNEGenChannelMapSP.new (some noKeyFile) = .ok noKeyMap := rfl

/-- Without a nonzero flag no key value is collected from a row. -/
theorem keyVals_no_flag (flags : List Int) (row : List AnyVal)
    (h : ∀ fl ∈ flags, fl = 0) : keyVals flags row = [] := by
  induction flags generalizing row with
  | nil => cases row <;> rfl
  | cons f fs ih =>
    cases row with
    | nil => rfl
    | cons x xs =>
      have hf : f = 0 := h f (List.mem_cons_self _ _)
      subst hf
      show (if (0 : Int) ≠ 0 then _ else []) ++ keyVals fs xs = []
      rw [ih xs (fun fl hfl => h fl (List.mem_cons_of_mem _ hfl)), if_neg (by decide)]
      rfl

/-- Writing 0 into a slot of the initial key tuple leaves it unchanged. -/
theorem set_zero_tuple (w : Nat) : ([0, 0, 0, 0] : List Int).set w 0 = [0, 0, 0, 0] := by
  match w with
  | 0 => rfl
  | 1 => rfl
  | 2 => rfl
  | 3 => rfl
  | _ + 4 => rfl

theorem dupKeyStrOfflFile_loads :
    ReadMapFromFile noFloat DUNEGenChannelMapSP.new (some dupKeyStrOfflFile) =
      .ok dupKeyStrOfflMap := rfl

/-- The type loop pushes one code per recognised token among those it
extracts, and nothing for the others. -/
theorem readTypes_types (ls : IStream) (k : Nat) (self : DUNEGenChannelMapSP) :
    (readTypes ls k self).m_ColumnTypes =
      self.m_ColumnTypes ++
        ((readTokens ls k).filter
          (fun tok => decide (tok = "I" ∨ tok = "C" ∨ tok = "S" ∨ tok = "F"))).map typeCode := by
  induction k generalizing ls self with
  | zero => simp [readTypes, readTokens]
  | succ k ih =>
    rw [readTypes, readTokens]
    rcases hx : extractString ls "" with ⟨ls1, ct⟩
    simp only
    by_cases h1 : ct = "I"
    · rw [if_pos h1, ih, List.filter_cons_of_pos (by simp [h1])]
      simp [typeCode, h1]
    · rw [if_neg h1]
      by_cases h2 : ct = "C" ∨ ct = "S"
      · rw [if_pos h2, ih, List.filter_cons_of_pos (by
          simp only [decide_eq_true_eq]
          rcases h2 with h | h
          · exact Or.inr (Or.inl h)
          · exact Or.inr (Or.inr (Or.inl h)))]
        simp [typeCode, h1, h2]
      · rw [if_neg h2]
        by_cases h3 : ct = "F"
        · rw [if_pos h3, ih, List.filter_cons_of_pos (by simp [h3])]
          have e1 : ¬ ("F" = "I") := by decide
          have e2 : ¬ ("F" = "C" ∨ "F" = "S") := by decide
          simp [typeCode, h3, e1, e2]
        · rw [if_neg h3, ih, List.filter_cons_of_neg (by
            simp only [decide_eq_true_eq]
            rintro (h | h | h | h)
            · exact h1 h
            · exact h2 (Or.inl h)
            · exact h2 (Or.inr h)
            · exact h3 h)]

theorem readInts_length (ls : IStream) (k : Nat) : (readInts ls k).length = k := by
  induction k generalizing ls with
  | zero => rfl
  | succ k ih => simp [readInts, ih]

/-- Once a line has no token left, every further string extracted into an
empty string is empty. -/
theorem readTokens_exhausted (ls : IStream) (k : Nat) (h : sentry ls = none) :
    readTokens ls k = List.replicate k "" := by
  induction k generalizing ls with
  | zero => rfl
  | succ k ih =>
    have hx : extractString ls "" = ({ ls with fail := true }, "") := by
      unfold extractString
      rw [h]
    rw [readTokens, hx, List.replicate_succ]
    simp only
    rw [ih _ (by simp [sentry])]

/-- Once a line has no token left, every further flag extracted is 0. -/
theorem readInts_exhausted (ls : IStream) (k : Nat) (h : sentry ls = none) :
    readInts ls k = List.replicate k 0 := by
  induction k generalizing ls with
  | zero => rfl
  | succ k ih =>
    have hx : extractInt ls 0 = ({ ls with fail := true }, 0) := by
      unfold extractInt
      rw [h]
    rw [readInts, hx, List.replicate_succ]
    simp only
    rw [ih _ (by simp [sentry])]

/-- The flag loop stops at the first nonzero flag that does not sit on a
column with recorded type 0: with `std::out_of_range` when no type is
recorded at its index, with `std::bad_typeid` otherwise. -/
theorem readFlags_first_bad (ls : IStream) (i k : Nat) (self : DUNEGenChannelMapSP)
    (hnames : i + k ≤ self.m_ColumnNames.length)
    (m : Nat) (fl : Int) (hm : (readInts ls k)[m]? = some fl) (hfl : fl ≠ 0)
    (hbad : self.m_ColumnTypes[i + m]? ≠ some 0)
    (hfirst : ∀ (m' : Nat) (fl' : Int), m' < m → (readInts ls k)[m']? = some fl' → fl' ≠ 0 →
      self.m_ColumnTypes[i + m']? = some 0) :
    readFlags ls i k self = .error (match self.m_ColumnTypes[i + m]? with
      | none => .out_of_range
      | some _ => .bad_typeid) := by
  induction k generalizing ls i self m with
  | zero => simp [readInts] at hm
  | succ k ih =>
    rw [readFlags]
    have hints : readInts ls (k + 1) =
        (extractInt ls 0).2 :: readInts (extractInt ls 0).1 k := rfl
    rcases hx : extractInt ls 0 with ⟨ls1, cf⟩
    rw [hx] at hints
    simp only at hints ⊢
    have hin : i < self.m_ColumnNames.length := by omega
    cases m with
    | zero =>
      rw [hints] at hm
      simp only [List.getElem?_cons_zero, Option.some.injEq] at hm
      subst hm
      have hz : self.m_ColumnTypes[i + 0]? = self.m_ColumnTypes[i]? := rfl
      rw [hz] at hbad ⊢
      rw [if_pos hfl]
      cases hty : self.m_ColumnTypes[i]? with
      | none =>
        simp only [vecAt, hty]
        rfl
      | some ty =>
        rw [(vecAt_eq_ok _ _ _).mpr hty, ok_bind]
        have hne : ty ≠ 0 := by
          intro h
          rw [hty, h] at hbad
          exact hbad rfl
        rw [if_pos ⟨hfl, hne⟩]
    | succ m' =>
      have hm' : (readInts ls1 k)[m']? = some fl := by
        rw [hints] at hm
        simpa using hm
      have hbad' : self.m_ColumnTypes[i + 1 + m']? ≠ some 0 := by
        rw [show i + 1 + m' = i + (m' + 1) by omega]
        exact hbad
      have hfirst' : ∀ (n : Nat) (fl' : Int), n < m' → (readInts ls1 k)[n]? = some fl' →
          fl' ≠ 0 → self.m_ColumnTypes[i + 1 + n]? = some 0 := by
        intro n fl' hn hget hne
        have := hfirst (n + 1) fl' (by omega) (by rw [hints]; simpa using hget) hne
        rw [show i + 1 + n = i + (n + 1) by omega]
        exact this
      rw [show i + (m' + 1) = i + 1 + m' by omega]
      by_cases hcf : cf ≠ 0
      · have hty := hfirst 0 cf (by omega) (by rw [hints]; simp) hcf
        rw [Nat.add_zero] at hty
        rw [if_pos hcf, (vecAt_eq_ok _ _ _).mpr hty, ok_bind, if_neg (fun h => h.2 rfl),
          if_pos hcf, (vecAt_eq_ok _ _ _).mpr (List.getElem?_eq_getElem hin), ok_bind]
        exact ih ls1 (i + 1)
          { self with m_KeyColFlags := self.m_KeyColFlags ++ [cf],
                      m_WhichKey := self.m_WhichKey ++ [self.m_KeyStrings.length],
                      m_KeyStrings := self.m_KeyStrings ++ [self.m_ColumnNames[i]] }
          (by simpa using (by omega : i + 1 + k ≤ self.m_ColumnNames.length))
          m' hm' hbad' hfirst'
      · rw [if_neg hcf, ok_bind, if_neg (fun h => hcf h.1), if_neg hcf]
        exact ih ls1 (i + 1)
          { self with m_KeyColFlags := self.m_KeyColFlags ++ [cf],
                      m_WhichKey := self.m_WhichKey ++ [0] }
          (by simpa using (by omega : i + 1 + k ≤ self.m_ColumnNames.length))
          m' hm' hbad' hfirst'

/-- The column loop of a data line raises `std::out_of_range` when fewer
types are recorded than columns are declared. -/
theorem readColumns_short (rdF : FloatReader) (types flags : List Int) (names : List String)
    (htypes : ∀ ty ∈ types, ty = 0 ∨ ty = 1 ∨ ty = 2)
    (n : Nat) (line : List Char) (hshort : types.length < n) :
    readColumns rdF types flags names 0 n (RowVars.init line) = .error .out_of_range := by
  cases h : readColumns rdF types flags names 0 n (RowVars.init line) with
  | error e => rw [readColumns_error rdF types flags names 0 n _ e h]
  | ok r =>
    exfalso
    have := (readColumns_inv rdF types flags names htypes n 0 _ r
      (RowInv_init types flags names line) h).2
    have hn : n ≠ 0 := by omega
    rw [if_neg hn] at this
    omega

/-! ## Claims -/

/-- C1 (amended). Round trip through the key-set path. For a file loaded
without error into a fresh object whose column names are pairwise distinct,
none being `valid`, and whose columns named `offlchan` are declared `I`:
every data line decodes to a row `r`, and when no later data line has the
key tuple of `r`, `GetChanInfoFromDetectorElements` called with the key-column
values of `r` (in any iteration order) returns a record with `valid = true`
whose named fields hold the values of `r` and whose member `offlchan` is the
`offlchan` value of `r` when such a column exists. -/
theorem roundTrip_keyset (rdF : FloatReader) (lines : List String)
    (self : DUNEGenChannelMapSP)
    (hload : ReadMapFromFile rdF DUNEGenChannelMapSP.new (some lines) = .ok self)
    (hnd : self.m_ColumnNames.Nodup)
    (hvalid : "valid" ∉ self.m_ColumnNames)
    (hoff : ∀ i : Nat, self.m_ColumnNames[i]? = some "offlchan" →
      self.m_ColumnTypes[i]? = some 0)
    (j : Nat) (line : List Char) (hline : (dataLines lines)[j]? = some line)
    (hlast : ∀ (j' : Nat) (line' : List Char) (r r' : RowVars), j < j' →
      (dataLines lines)[j']? = some line' → decodeRow rdF self line = .ok r →
      decodeRow rdF self line' = .ok r' →
      rowKeys self.m_KeyColFlags r'.dataline ≠ rowKeys self.m_KeyColFlags r.dataline) :
    ∃ r, decodeRow rdF self line = .ok r ∧
      r.dataline.length = self.m_ColumnNames.length ∧
      ∀ detinfo : ChanInfo_t,
        detinfo.fields.Perm (rowQuery self.m_ColumnNames self.m_KeyColFlags r.dataline) →
        ∃ info, GetChanInfoFromDetectorElements self detinfo = .ok info ∧
          AMap.find "valid" info.fields = some (AnyVal.bool true) ∧
          (∀ (i : Nat) (nm : String) (x : AnyVal), self.m_ColumnNames[i]? = some nm →
            nm ≠ "offlchan" → r.dataline[i]? = some x →
            AMap.find nm info.fields = some x) ∧
          (∀ i : Nat, self.m_ColumnNames[i]? = some "offlchan" →
            r.dataline[i]? = some (AnyVal.int info.offlchan)) := by
  obtain ⟨rs, hL⟩ := load_ok rdF lines self hload
  obtain ⟨r, hdec, hr, hrow⟩ := loaded_row_of_line rdF lines self rs hL j line hline
  obtain ⟨hlen, _, _, _, _, _, _⟩ := loaded_row_shape rdF lines self rs hL j r hr
  refine ⟨r, hdec, hlen, ?_⟩
  intro detinfo hperm
  have hasm := loaded_assemble_row rdF lines self rs hL hnd j r hr detinfo.fields
    (fun e => hperm.mem_iff)
  have hfind : detFind self.m_DetToChanInfo (rowKeys self.m_KeyColFlags r.dataline) =
      some j := by
    rw [loaded_detFind rdF lines self rs hL (rowKeys self.m_KeyColFlags r.dataline)
      (pad4_length _), lastIdx_eq_some_iff]
    refine ⟨⟨r.dataline, hrow, by simp⟩, ?_⟩
    intro j' row' hlt hrow'
    obtain ⟨r', line', hline', hdec', _, hrd'⟩ :=
      loaded_line_of_row rdF lines self rs hL j' row' hrow'
    have := hlast j' line' r r' hlt hline' hdec hdec'
    rw [hrd'] at this
    simpa using this
  obtain ⟨row, info, hrow2, hget, hv, hfields, hoffl, _⟩ :=
    det_hit rdF lines self rs hL hoff detinfo _ hasm j hfind
  rw [hrow] at hrow2
  simp only [Option.some.injEq] at hrow2
  subst hrow2
  refine ⟨info, hget, hv, ?_, ?_⟩
  · intro i nm x hnm hne hx
    have hnv : nm ≠ "valid" := by
      intro e
      subst e
      exact hvalid (List.getElem?_mem hnm)
    have := (hfields nm i hne hnv (find_of_nodup self hL.names_inv hnd i nm hnm)).1
    rw [this, hx]
  · intro i hnm
    exact hoffl i (find_of_nodup self hL.names_inv hnd i "offlchan" hnm)

/-- C1 at the example file of the specification: the key-set query
`{crate:1, slot:2, stream:3, chan:4}` returns the row `1 2 3 4`. -/
theorem roundTrip_keyset_witness :
    ∃ r, decodeRow noFloat exampleMap "1 2 3 4".data = .ok r ∧
      r.dataline.length = exampleMap.m_ColumnNames.length ∧
      ∀ detinfo : ChanInfo_t,
        detinfo.fields.Perm
          (rowQuery exampleMap.m_ColumnNames exampleMap.m_KeyColFlags r.dataline) →
        ∃ info, GetChanInfoFromDetectorElements exampleMap detinfo = .ok info ∧
          AMap.find "valid" info.fields = some (AnyVal.bool true) ∧
          (∀ (i : Nat) (nm : String) (x : AnyVal), exampleMap.m_ColumnNames[i]? = some nm →
            nm ≠ "offlchan" → r.dataline[i]? = some x →
            AMap.find nm info.fields = some x) ∧
          (∀ i : Nat, exampleMap.m_ColumnNames[i]? = some "offlchan" →
            r.dataline[i]? = some (AnyVal.int info.offlchan)) :=
  roundTrip_keyset noFloat exampleFile exampleMap rfl (by decide) (by decide)
    (by
      intro i hi
      have : "offlchan" ∈ exampleMap.m_ColumnNames := List.getElem?_mem hi
      exact absurd this (by decide))
    0 "1 2 3 4".data rfl
    (by
      intro j' line' r r' hlt hline'
      have hd : dataLines exampleFile = ["1 2 3 4".data] := rfl
      rw [hd, List.getElem?_eq_none (by simpa using hlt)] at hline'
      cases hline')

/-- C1 as stated fails on `dupKeyFile`, a well-formed file: its first data
row holds `a` in the column `name`, and the key-set query made of the key
value of that row (`crate = 1`) returns the record of the second row, whose
field `name` is `b`. -/
theorem roundTrip_counterexample :
    ReadMapFromFile noFloat DUNEGenChannelMapSP.new (some dupKeyFile) = .ok dupKeyMap ∧
    (dataLines dupKeyFile)[0]? = some "1 a".data ∧
    (decodeRow noFloat dupKeyMap "1 a".data).map (fun r => r.dataline) =
      .ok [AnyVal.int 1, AnyVal.str "a"] ∧
    rowQuery dupKeyMap.m_ColumnNames dupKeyMap.m_KeyColFlags [AnyVal.int 1, AnyVal.str "a"] =
      [("crate", AnyVal.int 1)] ∧
    GetChanInfoFromDetectorElements dupKeyMap { fields := [("crate", AnyVal.int 1)], offlchan := 0 } =
      .ok { fields := [("crate", AnyVal.int 1), ("name", AnyVal.str "b"),
                       ("valid", AnyVal.bool true)], offlchan := 0 } ∧
    AMap.find "name" [("crate", AnyVal.int 1), ("name", AnyVal.str "b"),
      ("valid", AnyVal.bool true)] ≠ some (AnyVal.str "a") :=
  ⟨rfl, rfl, rfl, rfl, rfl, by decide⟩

/-- C2 (amended). Reverse consistency. For a file loaded without error into
a fresh object whose column names are pairwise distinct and include
`offlchan`, and for a data row `r` whose `offlchan` value is shared by no
other row and whose key tuple is the key tuple of no later row:
`GetChanInfoFromOfflChan` at the `offlchan` value of `r` returns what
`GetChanInfoFromDetectorElements` returns for the key-column values of `r`;
when the column `offlchan` is declared `I` this is a record with
`valid = true`. -/
theorem reverse_consistency (rdF : FloatReader) (lines : List String)
    (self : DUNEGenChannelMapSP)
    (hload : ReadMapFromFile rdF DUNEGenChannelMapSP.new (some lines) = .ok self)
    (hnd : self.m_ColumnNames.Nodup)
    (hcol : "offlchan" ∈ self.m_ColumnNames)
    (j : Nat) (line : List Char) (hline : (dataLines lines)[j]? = some line)
    (hlast : ∀ (j' : Nat) (line' : List Char) (r r' : RowVars), j < j' →
      (dataLines lines)[j']? = some line' → decodeRow rdF self line = .ok r →
      decodeRow rdF self line' = .ok r' →
      rowKeys self.m_KeyColFlags r'.dataline ≠ rowKeys self.m_KeyColFlags r.dataline)
    (huniq : ∀ (j' : Nat) (line' : List Char) (r r' : RowVars), j' ≠ j →
      (dataLines lines)[j']? = some line' → decodeRow rdF self line = .ok r →
      decodeRow rdF self line' = .ok r' →
      rowOffl self.m_ColumnNames r'.dataline ≠ rowOffl self.m_ColumnNames r.dataline) :
    ∃ r, decodeRow rdF self line = .ok r ∧
      ∀ detinfo : ChanInfo_t,
        detinfo.fields.Perm (rowQuery self.m_ColumnNames self.m_KeyColFlags r.dataline) →
        GetChanInfoFromOfflChan self (rowOffl self.m_ColumnNames r.dataline) =
          GetChanInfoFromDetectorElements self detinfo ∧
        ((∀ i : Nat, self.m_ColumnNames[i]? = some "offlchan" →
            self.m_ColumnTypes[i]? = some 0) →
          ∃ info, GetChanInfoFromDetectorElements self detinfo = .ok info ∧
            AMap.find "valid" info.fields = some (AnyVal.bool true)) := by
  obtain ⟨rs, hL⟩ := load_ok rdF lines self hload
  obtain ⟨r, hdec, hr, hrow⟩ := loaded_row_of_line rdF lines self rs hL j line hline
  obtain ⟨_, _, _, _, hoffl, hrng, _⟩ := loaded_row_shape rdF lines self rs hL j r hr
  refine ⟨r, hdec, ?_⟩
  intro detinfo hperm
  have hasm := loaded_assemble_row rdF lines self rs hL hnd j r hr detinfo.fields
    (fun e => hperm.mem_iff)
  have hfind : detFind self.m_DetToChanInfo (rowKeys self.m_KeyColFlags r.dataline) =
      some j := by
    rw [loaded_detFind rdF lines self rs hL (rowKeys self.m_KeyColFlags r.dataline)
      (pad4_length _), lastIdx_eq_some_iff]
    refine ⟨⟨r.dataline, hrow, by simp⟩, ?_⟩
    intro j' row' hlt hrow'
    obtain ⟨r', line', hline', hdec', _, hrd'⟩ :=
      loaded_line_of_row rdF lines self rs hL j' row' hrow'
    have := hlast j' line' r r' hlt hline' hdec hdec'
    rw [hrd'] at this
    simpa using this
  have hrev : AMap.find (toUnsigned (rowOffl self.m_ColumnNames r.dataline))
      self.m_OfflToChanInfo = some j := by
    rw [loaded_offlFind rdF lines self rs hL, lastIdx_eq_some_iff]
    refine ⟨⟨r.dataline, hrow, by simp⟩, ?_⟩
    intro j' row' hlt hrow'
    obtain ⟨r', line', hline', hdec', hr', hrd'⟩ :=
      loaded_line_of_row rdF lines self rs hL j' row' hrow'
    obtain ⟨_, _, _, _, hoffl', hrng', _⟩ := loaded_row_shape rdF lines self rs hL j' r' hr'
    have hne := huniq j' line' r r' (by omega) hline' hdec hdec'
    rw [hrd'] at hne
    simp only [decide_eq_false_iff_not]
    intro he
    apply hne
    apply toUnsigned_inj _ _ _ _ he
    · rw [← hrd', ← hoffl']; exact hrng'
    · rw [← hoffl]; exact hrng
  refine ⟨paths_agree self hcol _ detinfo _ j hrev hasm hfind, ?_⟩
  intro hoff
  obtain ⟨_, info, _, hget, hv, _⟩ := det_hit rdF lines self rs hL hoff detinfo _ hasm j hfind
  exact ⟨info, hget, hv⟩

/-- C2 at `offlFile`: channel 10 and the key-set query `{crate:1}` return the
same record. -/
theorem reverse_consistency_witness :
    ∃ r, decodeRow noFloat offlMap "1 10 a".data = .ok r ∧
      ∀ detinfo : ChanInfo_t,
        detinfo.fields.Perm (rowQuery offlMap.m_ColumnNames offlMap.m_KeyColFlags r.dataline) →
        GetChanInfoFromOfflChan offlMap (rowOffl offlMap.m_ColumnNames r.dataline) =
          GetChanInfoFromDetectorElements offlMap detinfo ∧
        ((∀ i : Nat, offlMap.m_ColumnNames[i]? = some "offlchan" →
            offlMap.m_ColumnTypes[i]? = some 0) →
          ∃ info, GetChanInfoFromDetectorElements offlMap detinfo = .ok info ∧
            AMap.find "valid" info.fields = some (AnyVal.bool true)) :=
  reverse_consistency noFloat offlFile offlMap rfl (by decide) (by decide)
    0 "1 10 a".data rfl
    (by
      intro j' line' r r' hlt hline'
      have hd : dataLines offlFile = ["1 10 a".data] := rfl
      rw [hd, List.getElem?_eq_none (by simpa using hlt)] at hline'
      cases hline')
    (by
      intro j' line' r r' hne hline'
      have hd : dataLines offlFile = ["1 10 a".data] := rfl
      rw [hd, List.getElem?_eq_none (by simp; omega)] at hline'
      cases hline')

/-- C2 as stated fails on `dupKeyOfflFile`: the `offlchan` value 10 of its
first data row is shared by no other row, yet `GetChanInfoFromOfflChan 10`
returns the first row (`name = a`) while the key-set query made of the key
value of that row (`crate = 1`) returns the second (`name = b`). -/
theorem reverse_consistency_counterexample :
    ReadMapFromFile noFloat DUNEGenChannelMapSP.new (some dupKeyOfflFile) = .ok dupKeyOfflMap ∧
    dupKeyOfflMap.m_MapInfo.map (rowOffl dupKeyOfflMap.m_ColumnNames) = [10, 20] ∧
    rowQuery dupKeyOfflMap.m_ColumnNames dupKeyOfflMap.m_KeyColFlags
      [AnyVal.int 1, AnyVal.int 10, AnyVal.str "a"] = [("crate", AnyVal.int 1)] ∧
    GetChanInfoFromOfflChan dupKeyOfflMap 10 =
      .ok { fields := [("crate", AnyVal.int 1), ("name", AnyVal.str "a"),
                       ("valid", AnyVal.bool true)], offlchan := 10 } ∧
    GetChanInfoFromDetectorElements dupKeyOfflMap
        { fields := [("crate", AnyVal.int 1)], offlchan := 0 } =
      .ok { fields := [("crate", AnyVal.int 1), ("name", AnyVal.str "b"),
                       ("valid", AnyVal.bool true)], offlchan := 20 } ∧
    GetChanInfoFromOfflChan dupKeyOfflMap 10 ≠
      GetChanInfoFromDetectorElements dupKeyOfflMap
        { fields := [("crate", AnyVal.int 1)], offlchan := 0 } :=
  ⟨rfl, rfl, rfl, rfl, rfl, by
    intro h
    have h2 : (Except.ok { fields := [("crate", AnyVal.int 1), ("name", AnyVal.str "a"),
                       ("valid", AnyVal.bool true)], offlchan := 10 } : Except Exn ChanInfo_t) =
      .ok { fields := [("crate", AnyVal.int 1), ("name", AnyVal.str "b"),
                       ("valid", AnyVal.bool true)], offlchan := 20 } := h
    have h3 := congrArg ChanInfo_t.offlchan (Except.ok.inj h2)
    simp at h3⟩

/-- C3 (amended). Overwrite policy. Loading raises nothing but the three
exceptions of the header and row checks, none of them about a key tuple met
twice. After a load without error the row store holds one row per data
line, in file order, and a key-set query whose assembled tuple is `t`
resolves to the last row of the file whose key tuple is `t`: its outcome is
`badInfo` when there is none and the materialisation of that row otherwise.
When the columns named `offlchan` are declared `I`, that materialisation is
a record with `valid = true` in which every name but `offlchan` and `valid`
holds the value of that row in the last column bearing the name, and the
member `offlchan` holds its value in the last column named `offlchan`. -/
theorem last_write_wins (rdF : FloatReader) (lines : List String) :
    (∀ e : Exn, ReadMapFromFile rdF DUNEGenChannelMapSP.new (some lines) = .error e →
      e = .bad_typeid ∨ e = .out_of_range ∨
        e = .domain_error "DUNEGenChannelMapSP: Too Many Map Keys") ∧
    (∀ self : DUNEGenChannelMapSP,
      ReadMapFromFile rdF DUNEGenChannelMapSP.new (some lines) = .ok self →
      self.m_MapInfo.length = (dataLines lines).length ∧
      (∀ (j : Nat) (line : List Char), (dataLines lines)[j]? = some line →
        ∃ r, decodeRow rdF self line = .ok r ∧ self.m_MapInfo[j]? = some r.dataline) ∧
      (∀ (detinfo : ChanInfo_t) (t : List Int),
        assembleKeys self detinfo.fields [0, 0, 0, 0] = .ok t →
        detFind self.m_DetToChanInfo t =
          lastIdx (fun row => decide (rowKeys self.m_KeyColFlags row = t)) self.m_MapInfo ∧
        GetChanInfoFromDetectorElements self detinfo =
          match lastIdx (fun row => decide (rowKeys self.m_KeyColFlags row = t))
              self.m_MapInfo with
          | none => .ok badInfo
          | some j =>
            fillInfoDet self j self.m_ColumnNames 0 { fields := [], offlchan := 0 } >>=
              fun info => .ok { fields := AMap.set "valid" (AnyVal.bool true) info.fields,
                                offlchan := info.offlchan }) ∧
      ((∀ i : Nat, self.m_ColumnNames[i]? = some "offlchan" →
          self.m_ColumnTypes[i]? = some 0) →
        ∀ (detinfo : ChanInfo_t) (t : List Int) (j : Nat),
          assembleKeys self detinfo.fields [0, 0, 0, 0] = .ok t →
          lastIdx (fun row => decide (rowKeys self.m_KeyColFlags row = t)) self.m_MapInfo =
            some j →
          ∃ row info, self.m_MapInfo[j]? = some row ∧
            GetChanInfoFromDetectorElements self detinfo = .ok info ∧
            AMap.find "valid" info.fields = some (AnyVal.bool true) ∧
            (∀ (nm : String) (k : Nat), nm ≠ "offlchan" → nm ≠ "valid" →
              lastIdx (fun x => decide (x = nm)) self.m_ColumnNames = some k →
              AMap.find nm info.fields = row[k]? ∧ (row[k]?).isSome) ∧
            (∀ k : Nat,
              lastIdx (fun x => decide (x = "offlchan")) self.m_ColumnNames = some k →
              row[k]? = some (AnyVal.int info.offlchan)))) := by
  refine ⟨fun e h => load_error_kinds rdF _ _ e h, ?_⟩
  intro self hload
  obtain ⟨rs, hL⟩ := load_ok rdF lines self hload
  refine ⟨?_, ?_, ?_, ?_⟩
  · rw [hL.mapInfo, List.length_map, List.Forall₂.length_eq hL.rows]
  · intro j line hline
    obtain ⟨r, hdec, _, hrow⟩ := loaded_row_of_line rdF lines self rs hL j line hline
    exact ⟨r, hdec, hrow⟩
  · intro detinfo t hasm
    have ht : t.length = 4 := by
      rw [assembleKeys_length self _ _ _ hasm]; rfl
    have hf := loaded_detFind rdF lines self rs hL t ht
    refine ⟨hf, ?_⟩
    unfold GetChanInfoFromDetectorElements
    rw [hasm, ok_bind, hf]
    try rfl
  · intro hoff detinfo t j hasm hlast
    have ht : t.length = 4 := by
      rw [assembleKeys_length self _ _ _ hasm]; rfl
    have hf : detFind self.m_DetToChanInfo t = some j := by
      rw [loaded_detFind rdF lines self rs hL t ht, hlast]
    obtain ⟨row, info, hrow, hget, hv, hfields, hoc, _⟩ :=
      det_hit rdF lines self rs hL hoff detinfo t hasm j hf
    exact ⟨row, info, hrow, hget, hv,
      fun nm k hn1 hn2 hk => hfields nm k hn1 hn2 (by rw [hL.names_inv nm]; exact hk),
      fun k hk => hoc k (by rw [hL.names_inv "offlchan"]; exact hk)⟩

/-- C3 at `dupKeyFile`, whose two data rows share the key tuple (1,0,0,0):
the load raises nothing, both rows are stored, and the query `{crate:1}`
returns the second row. -/
theorem last_write_wins_witness :
    dupKeyMap.m_MapInfo.length = (dataLines dupKeyFile).length ∧
    (dataLines dupKeyFile).length = 2 ∧
    dupKeyMap.m_MapInfo.map (rowKeys dupKeyMap.m_KeyColFlags) = [[1, 0, 0, 0], [1, 0, 0, 0]] ∧
    detFind dupKeyMap.m_DetToChanInfo [1, 0, 0, 0] = some 1 ∧
    GetChanInfoFromDetectorElements dupKeyMap { fields := [("crate", AnyVal.int 1)], offlchan := 0 } =
      .ok { fields := [("crate", AnyVal.int 1), ("name", AnyVal.str "b"),
                       ("valid", AnyVal.bool true)], offlchan := 0 } ∧
    (∃ row info, dupKeyMap.m_MapInfo[1]? = some row ∧
      GetChanInfoFromDetectorElements dupKeyMap
        { fields := [("crate", AnyVal.int 1)], offlchan := 0 } = .ok info ∧
      AMap.find "valid" info.fields = some (AnyVal.bool true) ∧
      (∀ (nm : String) (k : Nat), nm ≠ "offlchan" → nm ≠ "valid" →
        lastIdx (fun x => decide (x = nm)) dupKeyMap.m_ColumnNames = some k →
        AMap.find nm info.fields = row[k]? ∧ (row[k]?).isSome) ∧
      (∀ k : Nat,
        lastIdx (fun x => decide (x = "offlchan")) dupKeyMap.m_ColumnNames = some k →
        row[k]? = some (AnyVal.int info.offlchan))) :=
  ⟨((last_write_wins noFloat dupKeyFile).2 dupKeyMap rfl).1, rfl, rfl,
   (((last_write_wins noFloat dupKeyFile).2 dupKeyMap rfl).2.2.1
      { fields := [("crate", AnyVal.int 1)], offlchan := 0 } [1, 0, 0, 0] rfl).1,
   (((last_write_wins noFloat dupKeyFile).2 dupKeyMap rfl).2.2.1
      { fields := [("crate", AnyVal.int 1)], offlchan := 0 } [1, 0, 0, 0] rfl).2,
   ((last_write_wins noFloat dupKeyFile).2 dupKeyMap rfl).2.2.2
      (by
        intro i hi
        match i, hi with
        | 0, hi => simp [dupKeyMap] at hi
        | 1, hi => simp [dupKeyMap] at hi
        | k + 2, hi => simp [dupKeyMap] at hi)
      { fields := [("crate", AnyVal.int 1)], offlchan := 0 } [1, 0, 0, 0] 1 rfl rfl⟩

/-- C3 as stated fails on `dupKeyStrOfflFile`, whose two data rows share the
key tuple (1,0,0,0) and whose column `offlchan` is declared `C`: the load
raises nothing and stores both rows, and the query `{crate:1}` resolves to
the later row, but materialising it raises `std::bad_any_cast` instead of
returning its data. -/
theorem last_write_wins_counterexample :
    ReadMapFromFile noFloat DUNEGenChannelMapSP.new (some dupKeyStrOfflFile) =
      .ok dupKeyStrOfflMap ∧
    dupKeyStrOfflMap.m_MapInfo.map (rowKeys dupKeyStrOfflMap.m_KeyColFlags) =
      [[1, 0, 0, 0], [1, 0, 0, 0]] ∧
    detFind dupKeyStrOfflMap.m_DetToChanInfo [1, 0, 0, 0] = some 1 ∧
    GetChanInfoFromDetectorElements dupKeyStrOfflMap
        { fields := [("crate", AnyVal.int 1)], offlchan := 0 } = .error .bad_any_cast :=
  ⟨rfl, rfl, rfl, rfl⟩

/-- C4 (amended). Miss behaviour. After a load without error into a fresh
object: a key-set query whose assembled key tuple is the key tuple of no
stored row returns, without raising, the record holding `valid = false` and
nothing else; and, when every column named `offlchan` is declared `I`, a
channel that no row holds in a column named `offlchan` makes
`GetChanInfoFromOfflChan` return, without raising, a record with
`valid = false`. -/
theorem miss_behaviour (rdF : FloatReader) (lines : List String)
    (self : DUNEGenChannelMapSP)
    (hload : ReadMapFromFile rdF DUNEGenChannelMapSP.new (some lines) = .ok self) :
    (∀ (detinfo : ChanInfo_t) (t : List Int),
      assembleKeys self detinfo.fields [0, 0, 0, 0] = .ok t →
      (∀ row ∈ self.m_MapInfo, rowKeys self.m_KeyColFlags row ≠ t) →
      GetChanInfoFromDetectorElements self detinfo =
        .ok { fields := [("valid", AnyVal.bool false)], offlchan := 0 }) ∧
    ((∀ i : Nat, self.m_ColumnNames[i]? = some "offlchan" →
        self.m_ColumnTypes[i]? = some 0) →
      ∀ ch : Int, inIntRange ch →
      (∀ row ∈ self.m_MapInfo, ∀ i : Nat, self.m_ColumnNames[i]? = some "offlchan" →
        row[i]? ≠ some (AnyVal.int ch)) →
      ∃ info, GetChanInfoFromOfflChan self ch = .ok info ∧
        AMap.find "valid" info.fields = some (AnyVal.bool false)) := by
  obtain ⟨rs, hL⟩ := load_ok rdF lines self hload
  constructor
  · intro detinfo t hasm hno
    have ht : t.length = 4 := by
      rw [assembleKeys_length self _ _ _ hasm]; rfl
    have hf : detFind self.m_DetToChanInfo t = none := by
      rw [loaded_detFind rdF lines self rs hL t ht, lastIdx_eq_none_iff]
      intro row hrow
      simpa using hno row hrow
    unfold GetChanInfoFromDetectorElements
    rw [hasm, ok_bind, hf]
    rfl
  · intro hoff ch hch hno
    cases hrev : AMap.find (toUnsigned ch) self.m_OfflToChanInfo with
    | none =>
      refine ⟨badInfo, ?_, rfl⟩
      unfold GetChanInfoFromOfflChan
      rw [hrev]
    | some j =>
      obtain ⟨info, hget, hv⟩ := offl_hit rdF lines self rs hL hoff ch j hrev
      refine ⟨info, hget, ?_⟩
      rw [hv]
      by_cases hcol : "offlchan" ∈ self.m_ColumnNames
      · -- the row found holds `ch` in its last column named `offlchan`
        exfalso
        rw [loaded_offlFind rdF lines self rs hL, lastIdx_eq_some_iff] at hrev
        obtain ⟨⟨row, hrow, hp⟩, _⟩ := hrev
        simp only [decide_eq_true_eq] at hp
        obtain ⟨r, line, _, _, hr, hrd⟩ :=
          loaded_line_of_row rdF lines self rs hL j row hrow
        obtain ⟨_, _, _, _, hoffl, hrng, _⟩ := loaded_row_shape rdF lines self rs hL j r hr
        obtain ⟨k, hk⟩ := lastIdx_isSome_of_mem (fun x => decide (x = "offlchan"))
          self.m_ColumnNames "offlchan" hcol (by simp)
        have hkname : self.m_ColumnNames[k]? = some "offlchan" := by
          obtain ⟨⟨x, hx, hpx⟩, _⟩ := (lastIdx_eq_some_iff _ _ _).mp hk
          simp only [decide_eq_true_eq] at hpx
          rw [hx, hpx]
        obtain ⟨v, hv⟩ := loaded_int_column rdF lines self rs hL j r hr k (hoff k hkname)
        have hval : rowOffl self.m_ColumnNames r.dataline = v :=
          rowOfflFrom_last 0 _ _ k v hk hv
        have hvch : v = ch := by
          apply toUnsigned_inj _ _ _ hch
          · rw [← hval, hrd]
            exact hp
          · rw [← hval, ← hoffl]; exact hrng
        subst hvch
        rw [hrd] at hv
        exact hno row (List.getElem?_mem hrow) k hkname hv
      · simp [hcol]

/-- C4 at the example file: the query `{crate:9, slot:2, stream:3, chan:4}`
and the channel 7 both miss. -/
theorem miss_behaviour_witness :
    GetChanInfoFromDetectorElements exampleMap
      { fields := [("crate", AnyVal.int 9), ("slot", AnyVal.int 2), ("stream", AnyVal.int 3),
                   ("chan", AnyVal.int 4)], offlchan := 0 } =
      .ok { fields := [("valid", AnyVal.bool false)], offlchan := 0 } ∧
    ∃ info, GetChanInfoFromOfflChan exampleMap 7 = .ok info ∧
      AMap.find "valid" info.fields = some (AnyVal.bool false) :=
  ⟨(miss_behaviour noFloat exampleFile exampleMap rfl).1
      { fields := [("crate", AnyVal.int 9), ("slot", AnyVal.int 2), ("stream", AnyVal.int 3),
                   ("chan", AnyVal.int 4)], offlchan := 0 } [9, 2, 3, 4] rfl (by decide),
   (miss_behaviour noFloat exampleFile exampleMap rfl).2
      (by
        intro i hi
        have : "offlchan" ∈ exampleMap.m_ColumnNames := List.getElem?_mem hi
        exact absurd this (by decide))
      7 (by unfold inIntRange INT_MIN INT_MAX; decide)
      (by
        intro row _ i hi
        have : "offlchan" ∈ exampleMap.m_ColumnNames := List.getElem?_mem hi
        exact absurd this (by decide))⟩

/-- C4 as stated fails on `strOfflFile`, which loads without error: its only
row holds the string `x` in the column `offlchan`, so channel 0 is the
`offlchan` value of no row, and `GetChanInfoFromOfflChan 0` raises
`std::bad_any_cast`. -/
theorem miss_behaviour_counterexample :
    ReadMapFromFile noFloat DUNEGenChannelMapSP.new (some strOfflFile) = .ok strOfflMap ∧
    strOfflMap.m_MapInfo = [[AnyVal.str "x"]] ∧
    GetChanInfoFromOfflChan strOfflMap 0 = .error .bad_any_cast :=
  ⟨rfl, rfl, rfl⟩

/-- C5 at `fiveKeyFile`, five integer columns flagged as keys and one data
row: the header is read without error and the load ends with
`std::out_of_range`, raised by `mapkeys.at(4)` while the first data row is
decoded; the `Too Many Map Keys` error is what the header alone gets. -/
theorem tooManyKeys_dataRow :
    ReadMapFromFile noFloat DUNEGenChannelMapSP.new (some fiveKeyFile) = .error .out_of_range ∧
    (processLines noFloat { self := DUNEGenChannelMapSP.new, state := 0, ncolumns := 0 }
      (headerLines fiveKeyFile)).toBool = true ∧
    (processLines noFloat { self := DUNEGenChannelMapSP.new, state := 0, ncolumns := 0 }
      (headerLines fiveKeyFile) >>= fun v => processLine noFloat v "1 2 3 4 5".data) =
      .error .out_of_range ∧
    ReadMapFromFile noFloat DUNEGenChannelMapSP.new (some fiveKeyHeader) =
      .error (.domain_error "DUNEGenChannelMapSP: Too Many Map Keys") :=
  ⟨rfl, rfl, rfl, rfl⟩

/-- C6 (amended). Integer-only keys. For a file with four header lines whose
type line holds recognised tokens only (`I`, `C`, `S`, `F`) for the declared
columns: when the key-flag line sets a nonzero flag on a column whose type
token is not `I`, reading the key-flag line raises `std::bad_typeid`, and so
does `ReadMapFromFile`, whatever the data lines. -/
theorem key_must_be_int (rdF : FloatReader) (lines : List String) (a b c d : List Char)
    (ds : List (List Char)) (hret : retained lines = a :: b :: c :: d :: ds)
    (hrec : ∀ tok ∈ readTokens { buf := c, fail := false }
        (extractInt { buf := a, fail := false } 0).2.toNat,
      tok = "I" ∨ tok = "C" ∨ tok = "S" ∨ tok = "F")
    (i : Nat) (fl : Int) (tok : String)
    (hfl : (readInts { buf := d, fail := false }
      (extractInt { buf := a, fail := false } 0).2.toNat)[i]? = some fl)
    (hne : fl ≠ 0)
    (htok : (readTokens { buf := c, fail := false }
      (extractInt { buf := a, fail := false } 0).2.toNat)[i]? = some tok)
    (hI : tok ≠ "I") :
    processLines rdF { self := DUNEGenChannelMapSP.new, state := 0, ncolumns := 0 }
      [a, b, c, d] = .error .bad_typeid ∧
    ReadMapFromFile rdF DUNEGenChannelMapSP.new (some lines) = .error .bad_typeid := by
  obtain ⟨h1, h2, h3, h4, h5, h6, h7, h8, h9, h10⟩ :=
    header_pre { buf := b, fail := false } { buf := c, fail := false }
      (extractInt { buf := a, fail := false } 0).2.toNat
      (extractInt { buf := a, fail := false } 0).2.toNat (Nat.le_refl _)
  obtain ⟨a1, a2, a3, a4, a5, a6, a7, a8, a9⟩ :=
    readNames_spec { buf := b, fail := false } 0
      (extractInt { buf := a, fail := false } 0).2.toNat DUNEGenChannelMapSP.new rfl (by
        intro name
        simp [DUNEGenChannelMapSP.new, AMap.find, lastIdx])
  have htypes := readTypes_recognised { buf := c, fail := false }
    (extractInt { buf := a, fail := false } 0).2.toNat
    (readNames { buf := b, fail := false } 0
      (extractInt { buf := a, fail := false } 0).2.toNat DUNEGenChannelMapSP.new) hrec
  rw [a3] at htypes
  have htypes' : (readTypes { buf := c, fail := false }
      (extractInt { buf := a, fail := false } 0).2.toNat
      (readNames { buf := b, fail := false } 0
        (extractInt { buf := a, fail := false } 0).2.toNat
        DUNEGenChannelMapSP.new)).m_ColumnTypes =
      (readTokens { buf := c, fail := false }
        (extractInt { buf := a, fail := false } 0).2.toNat).map typeCode := by
    rw [htypes]; rfl
  have hflags := readFlags_bad_typeid { buf := d, fail := false } 0
    (extractInt { buf := a, fail := false } 0).2.toNat _
    (by rw [h2]; omega)
    (by rw [htypes', List.length_map, readTokens_length]; omega)
    i fl hfl hne (by
      rw [htypes', Nat.zero_add, List.getElem?_map, htok]
      simp only [Option.map_some', ne_eq, Option.some.injEq]
      unfold typeCode
      rw [if_neg hI]
      split_ifs <;> decide)
  have hall : ∀ ds' : List (List Char),
      processLines rdF { self := DUNEGenChannelMapSP.new, state := 0, ncolumns := 0 }
        (a :: b :: c :: d :: ds') = .error .bad_typeid := by
    intro ds'
    rw [processLines_header4, hflags]
    rfl
  refine ⟨hall [], ?_⟩
  unfold ReadMapFromFile
  simp only [Option.getD_some]
  rw [readLoop_eq_processLines, hret, hall ds]
  rfl

/-- C6 at `strKeyFile`, which flags the `C` column `name` as a key. -/
theorem key_must_be_int_witness :
    processLines noFloat { self := DUNEGenChannelMapSP.new, state := 0, ncolumns := 0 }
      ["2".data, "crate name".data, "I C".data, "1 1".data] = .error .bad_typeid ∧
    ReadMapFromFile noFloat DUNEGenChannelMapSP.new (some strKeyFile) = .error .bad_typeid :=
  key_must_be_int noFloat strKeyFile "2".data "crate name".data "I C".data "1 1".data
    ["1 a".data] rfl (by decide) 1 1 "C" rfl (by decide) rfl (by decide)

/-- C6 as stated fails on `badTypeFile`: the type token of its first column
is `X`, not `I`, the key flag of that column is 1, and the load raises
nothing. -/
theorem key_must_be_int_counterexample :
    readTokens { buf := "X I".data, fail := false } 2 = ["X", "I"] ∧
    readInts { buf := "1 0".data, fail := false } 2 = [1, 0] ∧
    retained badTypeFile = ["2".data, "a b".data, "X I".data, "1 0".data] ∧
    ReadMapFromFile noFloat DUNEGenChannelMapSP.new (some badTypeFile) = .ok badTypeMap :=
  ⟨rfl, rfl, rfl, rfl⟩

/-- C7 (amended). For a file with its four header lines loaded without
error into a fresh object, whose columns named `offlchan` are declared `I`,
and an input mapping holding integers under the names of key columns:
`GetChanInfoFromDetectorElements` raises if and only if some name of the
mapping is not a column name, what it raises is then the unknown-key-name
`std::logic_error` for such a name, and otherwise it returns a record, which
is `badInfo` (`valid = false`) on a miss. -/
theorem keyset_raises_iff (rdF : FloatReader) (lines : List String)
    (self : DUNEGenChannelMapSP)
    (hload : ReadMapFromFile rdF DUNEGenChannelMapSP.new (some lines) = .ok self)
    (h4 : 4 ≤ (retained lines).length)
    (hoff : ∀ i : Nat, self.m_ColumnNames[i]? = some "offlchan" →
      self.m_ColumnTypes[i]? = some 0)
    (detinfo : ChanInfo_t)
    (hint : ∀ e ∈ detinfo.fields, e.1 ∈ self.m_KeyStrings → ∃ v : Int, e.2 = AnyVal.int v) :
    ((∃ err, GetChanInfoFromDetectorElements self detinfo = .error err) ↔
      ∃ e ∈ detinfo.fields, e.1 ∉ self.m_ColumnNames) ∧
    (∀ err, GetChanInfoFromDetectorElements self detinfo = .error err →
      ∃ e ∈ detinfo.fields, e.1 ∉ self.m_ColumnNames ∧
        err = .logic_error ("DUNEGenChannelMapSP ununderstood map key name " ++ e.1)) ∧
    ((∀ e ∈ detinfo.fields, e.1 ∈ self.m_ColumnNames) →
      ∃ info, GetChanInfoFromDetectorElements self detinfo = .ok info ∧
        (info = badInfo ∨ AMap.find "valid" info.fields = some (AnyVal.bool true))) := by
  obtain ⟨rs, hL⟩ := load_ok rdF lines self hload
  have hflen := hL.flags_len h4
  have hq : ∀ e ∈ detinfo.fields, AMap.find e.1 self.m_CIMap = none ∨
      ∃ (icol : Nat) (fl : Int), AMap.find e.1 self.m_CIMap = some icol ∧
        self.m_KeyColFlags[icol]? = some fl ∧
        (fl ≠ 0 → ∃ (v : Int) (wk : Nat), e.2 = AnyVal.int v ∧
          self.m_WhichKey[icol]? = some wk ∧ wk < [(0 : Int), 0, 0, 0].length) := by
    intro e he
    cases hf : AMap.find e.1 self.m_CIMap with
    | none => exact Or.inl rfl
    | some icol =>
      right
      have hname := find_some_names self hL.names_inv e.1 icol hf
      have hlt : icol < self.m_KeyColFlags.length := by
        rw [hflen]
        exact (List.getElem?_eq_some_iff.mp hname).1
      refine ⟨icol, self.m_KeyColFlags[icol], rfl, List.getElem?_eq_getElem hlt, ?_⟩
      intro hfl
      obtain ⟨wk, hwk, hwk4, _⟩ := loaded_ordinal_lt rdF lines self rs hL icol _
        (List.getElem?_eq_getElem hlt) hfl
      have hkey : e.1 ∈ self.m_KeyStrings := by
        rw [hL.flags_inv.ks]
        exact mem_keyNames _ _ icol e.1 _ hname (List.getElem?_eq_getElem hlt) hfl
      obtain ⟨v, hv⟩ := hint e he hkey
      exact ⟨v, wk, hv, hwk, by simpa using hwk4⟩
  have hres : (∃ info, GetChanInfoFromDetectorElements self detinfo = .ok info ∧
        (info = badInfo ∨ AMap.find "valid" info.fields = some (AnyVal.bool true)) ∧
        ∀ e ∈ detinfo.fields, e.1 ∈ self.m_ColumnNames) ∨
      (∃ e ∈ detinfo.fields, e.1 ∉ self.m_ColumnNames ∧
        GetChanInfoFromDetectorElements self detinfo =
          .error (.logic_error ("DUNEGenChannelMapSP ununderstood map key name " ++ e.1))) := by
    rcases assembleKeys_cases self detinfo.fields [0, 0, 0, 0] hq with
      ⟨mk, hmk, hall⟩ | ⟨e, he, hnone, herr⟩
    · left
      have hall' : ∀ e ∈ detinfo.fields, e.1 ∈ self.m_ColumnNames := by
        intro e he
        by_contra hc
        exact hall e he ((find_none_names self hL.names_inv e.1).mpr hc)
      cases hd : detFind self.m_DetToChanInfo mk with
      | none =>
        refine ⟨badInfo, ?_, Or.inl rfl, hall'⟩
        unfold GetChanInfoFromDetectorElements
        rw [hmk, ok_bind, hd]
      | some j =>
        obtain ⟨_, info, _, hget, hv, _⟩ :=
          det_hit rdF lines self rs hL hoff detinfo mk hmk j hd
        exact ⟨info, hget, Or.inr hv, hall'⟩
    · right
      refine ⟨e, he, (find_none_names self hL.names_inv e.1).mp hnone, ?_⟩
      unfold GetChanInfoFromDetectorElements
      rw [herr]
      rfl
  refine ⟨?_, ?_, ?_⟩
  · constructor
    · rintro ⟨err, herr⟩
      rcases hres with ⟨info, hget, _, _⟩ | ⟨e, he, hne, _⟩
      · rw [hget] at herr; cases herr
      · exact ⟨e, he, hne⟩
    · rintro ⟨e, he, hne⟩
      rcases hres with ⟨info, _, _, hall⟩ | ⟨e', _, _, herr⟩
      · exact absurd (hall e he) hne
      · exact ⟨_, herr⟩
  · intro err herr
    rcases hres with ⟨info, hget, _, _⟩ | ⟨e, he, hne, herr'⟩
    · rw [hget] at herr; cases herr
    · rw [herr'] at herr
      simp only [Except.error.injEq] at herr
      exact ⟨e, he, hne, herr.symm⟩
  · intro hall
    rcases hres with ⟨info, hget, hv, _⟩ | ⟨e, he, hne, _⟩
    · exact ⟨info, hget, hv⟩
    · exact absurd (hall e he) hne

/-- C7 at the example file and the query of the example scenario. -/
theorem keyset_raises_iff_witness :
    ((∃ err, GetChanInfoFromDetectorElements exampleMap exampleQuery = .error err) ↔
      ∃ e ∈ exampleQuery.fields, e.1 ∉ exampleMap.m_ColumnNames) ∧
    (∀ err, GetChanInfoFromDetectorElements exampleMap exampleQuery = .error err →
      ∃ e ∈ exampleQuery.fields, e.1 ∉ exampleMap.m_ColumnNames ∧
        err = .logic_error ("DUNEGenChannelMapSP ununderstood map key name " ++ e.1)) ∧
    ((∀ e ∈ exampleQuery.fields, e.1 ∈ exampleMap.m_ColumnNames) →
      ∃ info, GetChanInfoFromDetectorElements exampleMap exampleQuery = .ok info ∧
        (info = badInfo ∨ AMap.find "valid" info.fields = some (AnyVal.bool true))) :=
  keyset_raises_iff noFloat exampleFile exampleMap rfl (by decide)
    (by
      intro i hi
      have : "offlchan" ∈ exampleMap.m_ColumnNames := List.getElem?_mem hi
      exact absurd this (by decide))
    exampleQuery
    (by
      intro e he _
      simp only [exampleQuery, List.mem_cons, List.mem_singleton, List.not_mem_nil,
        or_false] at he
      rcases he with h | h | h | h <;> exact ⟨_, by rw [h]⟩)

/-- C7 as stated fails on the loaded example file: the mapping
`{crate: "x"}` names a recognised column only, and
`GetChanInfoFromDetectorElements` raises `std::bad_any_cast`. -/
theorem keyset_raises_counterexample :
    ReadMapFromFile noFloat DUNEGenChannelMapSP.new (some exampleFile) = .ok exampleMap ∧
    AMap.find "crate" exampleMap.m_CIMap = some 0 ∧
    GetChanInfoFromDetectorElements exampleMap
      { fields := [("crate", AnyVal.str "x")], offlchan := 0 } = .error .bad_any_cast :=
  ⟨rfl, rfl, rfl⟩

/-- C8 (amended). After a load without error into a fresh object in which
every column named `offlchan` is declared `I`, `GetChanInfoFromOfflChan`
raises for no channel: it returns a record, which is `badInfo`
(`valid = false`) when the channel is not in the reverse index. -/
theorem offlchan_lookup_total (rdF : FloatReader) (lines : List String)
    (self : DUNEGenChannelMapSP)
    (hload : ReadMapFromFile rdF DUNEGenChannelMapSP.new (some lines) = .ok self)
    (hoff : ∀ i : Nat, self.m_ColumnNames[i]? = some "offlchan" →
      self.m_ColumnTypes[i]? = some 0)
    (ch : Int) :
    ∃ info, GetChanInfoFromOfflChan self ch = .ok info ∧
      (AMap.find (toUnsigned ch) self.m_OfflToChanInfo = none →
        info = badInfo ∧ AMap.find "valid" info.fields = some (AnyVal.bool false)) := by
  obtain ⟨rs, hL⟩ := load_ok rdF lines self hload
  cases hrev : AMap.find (toUnsigned ch) self.m_OfflToChanInfo with
  | none =>
    refine ⟨badInfo, ?_, fun _ => ⟨rfl, rfl⟩⟩
    unfold GetChanInfoFromOfflChan
    rw [hrev]
  | some j =>
    obtain ⟨info, hget, _⟩ := offl_hit rdF lines self rs hL hoff ch j hrev
    exact ⟨info, hget, fun h => by cases h⟩

/-- C8 at `offlFile` and channel 99, which is not in the reverse index. -/
theorem offlchan_lookup_total_witness :
    ∃ info, GetChanInfoFromOfflChan offlMap 99 = .ok info ∧
      (AMap.find (toUnsigned 99) offlMap.m_OfflToChanInfo = none →
        info = badInfo ∧ AMap.find "valid" info.fields = some (AnyVal.bool false)) :=
  offlchan_lookup_total noFloat offlFile offlMap rfl
    (by
      intro i hi
      match i, hi with
      | 0, hi => simp [offlMap] at hi
      | 1, _ => rfl
      | 2, hi => simp [offlMap] at hi
      | k + 3, hi => simp [offlMap] at hi)
    99

/-- C8 as stated fails on `strOfflFile`, whose column `offlchan` is declared
`C`: the load raises nothing, channel 0 is in the reverse index, and
`GetChanInfoFromOfflChan 0` raises `std::bad_any_cast`. -/
theorem offlchan_lookup_counterexample :
    ReadMapFromFile noFloat DUNEGenChannelMapSP.new (some strOfflFile) = .ok strOfflMap ∧
    AMap.find (toUnsigned 0) strOfflMap.m_OfflToChanInfo = some 0 ∧
    GetChanInfoFromOfflChan strOfflMap 0 = .error .bad_any_cast :=
  ⟨rfl, rfl, rfl⟩

/-- C9 (amended). After a load without error into a fresh object whose
schema has a column named `offlchan`, every column of that name being
declared `I`: on every hit of the reverse index `GetChanInfoFromOfflChan`
returns a record; that record is the one the hit branch of
`GetChanInfoFromDetectorElements` builds for the same row, hence the one
that method returns for every query resolving to that row; it has
`valid = true`, every name but `offlchan` and `valid` holds the value of the
row in the last column bearing the name, and the member `offlchan` holds the
value of the row in the last column named `offlchan`. -/
theorem offl_path_as_keyset_path (rdF : FloatReader) (lines : List String)
    (self : DUNEGenChannelMapSP)
    (hload : ReadMapFromFile rdF DUNEGenChannelMapSP.new (some lines) = .ok self)
    (hcol : "offlchan" ∈ self.m_ColumnNames)
    (hoff : ∀ i : Nat, self.m_ColumnNames[i]? = some "offlchan" →
      self.m_ColumnTypes[i]? = some 0)
    (ch : Int) (idx : Nat)
    (hrev : AMap.find (toUnsigned ch) self.m_OfflToChanInfo = some idx) :
    ∃ row info, self.m_MapInfo[idx]? = some row ∧
      GetChanInfoFromOfflChan self ch = .ok info ∧
      (fillInfoDet self idx self.m_ColumnNames 0 { fields := [], offlchan := 0 } >>=
        fun i => .ok { i with fields := AMap.set "valid" (AnyVal.bool true) i.fields }) =
        .ok info ∧
      (∀ (detinfo : ChanInfo_t) (t : List Int),
        assembleKeys self detinfo.fields [0, 0, 0, 0] = .ok t →
        detFind self.m_DetToChanInfo t = some idx →
        GetChanInfoFromDetectorElements self detinfo = .ok info) ∧
      AMap.find "valid" info.fields = some (AnyVal.bool true) ∧
      (∀ (nm : String) (k : Nat), nm ≠ "offlchan" → nm ≠ "valid" →
        lastIdx (fun x => decide (x = nm)) self.m_ColumnNames = some k →
        AMap.find nm info.fields = row[k]? ∧ (row[k]?).isSome) ∧
      (∀ k : Nat, lastIdx (fun x => decide (x = "offlchan")) self.m_ColumnNames = some k →
        row[k]? = some (AnyVal.int info.offlchan)) := by
  obtain ⟨rs, hL⟩ := load_ok rdF lines self hload
  have hrev' := hrev
  rw [loaded_offlFind rdF lines self rs hL] at hrev'
  have hjlt := lastIdx_lt _ _ _ hrev'
  have hrow : self.m_MapInfo[idx]? = some self.m_MapInfo[idx] := List.getElem?_eq_getElem hjlt
  obtain ⟨r, line, _, _, hr, hrd⟩ :=
    loaded_line_of_row rdF lines self rs hL idx _ hrow
  obtain ⟨h1, _, _, _, _, _, _⟩ := loaded_row_shape rdF lines self rs hL idx r hr
  rw [hrd] at h1
  obtain ⟨info', hinfo'⟩ := fillInfoDet_ok self idx _ hrow self.m_ColumnNames 0
    { fields := [], offlchan := 0 } (by rw [h1]; omega) (by
      intro k hk
      obtain ⟨v, hv⟩ := loaded_int_column rdF lines self rs hL idx r hr k (hoff k hk)
      rw [Nat.zero_add, ← hrd]
      exact ⟨v, hv⟩)
  obtain ⟨s1, s2, _⟩ := fillInfoDet_spec self idx _ hrow self.m_ColumnNames 0 _ info' hinfo'
  refine ⟨self.m_MapInfo[idx],
    { info' with fields := AMap.set "valid" (AnyVal.bool true) info'.fields },
    hrow, ?_, ?_, ?_, ?_, ?_, ?_⟩
  · rw [offl_unfold self ch idx hrev,
      fillInfoDet_offl_irrel self idx self.m_ColumnNames 0 [] (-1) 0 hcol, hinfo', ok_bind]
    simp [hcol]
  · rw [hinfo', ok_bind]
  · intro detinfo t hasm hdet
    unfold GetChanInfoFromDetectorElements
    rw [hasm, ok_bind, hdet]
    simp only
    rw [hinfo', ok_bind]
  · simp [AMap.find_set]
  · intro nm k hn1 hn2 hk
    have := (s1 nm hn1).1 k hk
    rw [Nat.zero_add] at this
    refine ⟨?_, this.2⟩
    simp only [AMap.find_set]
    rw [if_neg (fun e => hn2 e.symm)]
    exact this.1
  · intro k hk
    have := s2 k hk
    rw [Nat.zero_add] at this
    exact this

/-- C9 at `dupKeyOfflFile` and channel 10, which the reverse index sends to
row 0, a row that no key-set query resolves to since row 1 has the same key
tuple: the record returned is the materialisation of row 0. -/
theorem offl_path_as_keyset_path_witness :
    GetChanInfoFromOfflChan dupKeyOfflMap 10 =
      .ok { fields := [("crate", AnyVal.int 1), ("name", AnyVal.str "a"),
                       ("valid", AnyVal.bool true)], offlchan := 10 } ∧
    ∃ row info, dupKeyOfflMap.m_MapInfo[0]? = some row ∧
      GetChanInfoFromOfflChan dupKeyOfflMap 10 = .ok info ∧
      (fillInfoDet dupKeyOfflMap 0 dupKeyOfflMap.m_ColumnNames 0
          { fields := [], offlchan := 0 } >>=
        fun i => .ok { i with fields := AMap.set "valid" (AnyVal.bool true) i.fields }) =
        .ok info ∧
      (∀ (detinfo : ChanInfo_t) (t : List Int),
        assembleKeys dupKeyOfflMap detinfo.fields [0, 0, 0, 0] = .ok t →
        detFind dupKeyOfflMap.m_DetToChanInfo t = some 0 →
        GetChanInfoFromDetectorElements dupKeyOfflMap detinfo = .ok info) ∧
      AMap.find "valid" info.fields = some (AnyVal.bool true) ∧
      (∀ (nm : String) (k : Nat), nm ≠ "offlchan" → nm ≠ "valid" →
        lastIdx (fun x => decide (x = nm)) dupKeyOfflMap.m_ColumnNames = some k →
        AMap.find nm info.fields = row[k]? ∧ (row[k]?).isSome) ∧
      (∀ k : Nat,
        lastIdx (fun x => decide (x = "offlchan")) dupKeyOfflMap.m_ColumnNames = some k →
        row[k]? = some (AnyVal.int info.offlchan)) :=
  ⟨rfl,
   offl_path_as_keyset_path noFloat dupKeyOfflFile dupKeyOfflMap rfl (by decide)
     (by
       intro i hi
       match i, hi with
       | 0, hi => simp [dupKeyOfflMap] at hi
       | 1, _ => rfl
       | 2, hi => simp [dupKeyOfflMap] at hi
       | k + 3, hi => simp [dupKeyOfflMap] at hi)
     10 0 rfl⟩

/-- C9 as stated fails on the loaded example file, which has no column named
`offlchan`: channel 0 hits the reverse index at row 0, the row the query of
the example scenario resolves to, and the reverse path returns
`valid = false` with `offlchan = -1` where the key-set path returns
`valid = true` with `offlchan = 0`. It fails too on `strOfflMap`, whose
column `offlchan` is declared `C`: channel 0 hits the reverse index and the
lookup raises `std::bad_any_cast`. -/
theorem offl_path_counterexample :
    AMap.find (toUnsigned 0) exampleMap.m_OfflToChanInfo = some 0 ∧
    (assembleKeys exampleMap exampleQuery.fields [0, 0, 0, 0]).map
      (detFind exampleMap.m_DetToChanInfo) = .ok (some 0) ∧
    GetChanInfoFromOfflChan exampleMap 0 =
      .ok { fields := [("crate", AnyVal.int 1), ("slot", AnyVal.int 2), ("stream", AnyVal.int 3),
                       ("chan", AnyVal.int 4), ("valid", AnyVal.bool false)], offlchan := -1 } ∧
    GetChanInfoFromDetectorElements exampleMap exampleQuery =
      .ok { fields := [("crate", AnyVal.int 1), ("slot", AnyVal.int 2), ("stream", AnyVal.int 3),
                       ("chan", AnyVal.int 4), ("valid", AnyVal.bool true)], offlchan := 0 } ∧
    AMap.find (toUnsigned 0) strOfflMap.m_OfflToChanInfo = some 0 ∧
    GetChanInfoFromOfflChan strOfflMap 0 = .error .bad_any_cast :=
  ⟨rfl, rfl, rfl, rfl, rfl, rfl⟩

/-- C10 (amended). Reverse-index contents after a load without error into a
fresh object. Every data row enters the reverse index, under the reverse key
captured for it: the value it holds in the integer column named `offlchan`,
and 0 when it has no such column. The index sends (the `unsigned`
conversion of) a captured value to the position of the last row with that
captured value and holds nothing else. Without a column named `offlchan` it
is therefore empty only when the file has no data row: it holds the single
key 0, bound to the last row. -/
theorem reverse_index_contents (rdF : FloatReader) (lines : List String)
    (self : DUNEGenChannelMapSP)
    (hload : ReadMapFromFile rdF DUNEGenChannelMapSP.new (some lines) = .ok self) :
    (∀ v : Int, inIntRange v →
      AMap.find (toUnsigned v) self.m_OfflToChanInfo =
        lastIdx (fun row => decide (rowOffl self.m_ColumnNames row = v)) self.m_MapInfo) ∧
    (∀ (u j : Nat), AMap.find u self.m_OfflToChanInfo = some j →
      ∃ row, self.m_MapInfo[j]? = some row ∧
        u = toUnsigned (rowOffl self.m_ColumnNames row)) ∧
    (∀ row ∈ self.m_MapInfo, inIntRange (rowOffl self.m_ColumnNames row) ∧
      ∀ (k : Nat) (v : Int),
        lastIdx (fun x => decide (x = "offlchan")) self.m_ColumnNames = some k →
        row[k]? = some (AnyVal.int v) → rowOffl self.m_ColumnNames row = v) ∧
    ("offlchan" ∉ self.m_ColumnNames →
      (∀ row ∈ self.m_MapInfo, rowOffl self.m_ColumnNames row = 0) ∧
      AMap.find 0 self.m_OfflToChanInfo =
        (if self.m_MapInfo.length = 0 then none else some (self.m_MapInfo.length - 1)) ∧
      ∀ u : Nat, u ≠ 0 → AMap.find u self.m_OfflToChanInfo = none) := by
  obtain ⟨rs, hL⟩ := load_ok rdF lines self hload
  have hrng : ∀ row ∈ self.m_MapInfo, inIntRange (rowOffl self.m_ColumnNames row) := by
    intro row hrow
    obtain ⟨j, hj⟩ := List.mem_iff_getElem?.mp hrow
    obtain ⟨r, line, _, _, hr, hrd⟩ := loaded_line_of_row rdF lines self rs hL j row hj
    obtain ⟨_, _, _, _, hoffl, hr2, _⟩ := loaded_row_shape rdF lines self rs hL j r hr
    rw [← hrd, ← hoffl]
    exact hr2
  refine ⟨?_, ?_, ?_, ?_⟩
  · intro v hv
    rw [loaded_offlFind rdF lines self rs hL]
    apply lastIdx_congr
    intro row hrow
    by_cases he : rowOffl self.m_ColumnNames row = v
    · simp [he]
    · have : toUnsigned (rowOffl self.m_ColumnNames row) ≠ toUnsigned v :=
        fun h => he (toUnsigned_inj _ _ (hrng row hrow) hv h)
      simp [he, this]
  · intro u j hfind
    rw [loaded_offlFind rdF lines self rs hL, lastIdx_eq_some_iff] at hfind
    obtain ⟨⟨row, hrow, hp⟩, _⟩ := hfind
    have hp' : toUnsigned (rowOffl self.m_ColumnNames row) = u := by simpa using hp
    exact ⟨row, hrow, hp'.symm⟩
  · intro row hrow
    exact ⟨hrng row hrow, fun k v hk hv => rowOfflFrom_last 0 _ _ k v hk hv⟩
  · intro hcol
    have hzero : ∀ row ∈ self.m_MapInfo, rowOffl self.m_ColumnNames row = 0 :=
      fun row _ => rowOfflFrom_absent 0 _ row hcol
    refine ⟨hzero, ?_, ?_⟩
    · rw [loaded_offlFind rdF lines self rs hL, ← lastIdx_true]
      apply lastIdx_congr
      intro row hrow
      rw [hzero row hrow]
      rfl
    · intro u hu
      rw [loaded_offlFind rdF lines self rs hL, lastIdx_eq_none_iff]
      intro row hrow
      rw [hzero row hrow]
      simp only [decide_eq_false_iff_not]
      intro h
      exact hu h.symm

/-- C10 at `dupKeyOfflFile`, whose rows hold 10 and 20 in the column
`offlchan`. -/
theorem reverse_index_contents_witness :
    AMap.find (toUnsigned 20) dupKeyOfflMap.m_OfflToChanInfo =
      lastIdx (fun row => decide (rowOffl dupKeyOfflMap.m_ColumnNames row = 20))
        dupKeyOfflMap.m_MapInfo ∧
    AMap.find (toUnsigned 20) dupKeyOfflMap.m_OfflToChanInfo = some 1 :=
  ⟨(reverse_index_contents noFloat dupKeyOfflFile dupKeyOfflMap rfl).1 20
      (by unfold inIntRange INT_MIN INT_MAX; decide), rfl⟩

/-- C10 as stated fails on the loaded example file, which has no column
named `offlchan`: its data row has added the entry 0 ↦ 0, and the reverse
index is not empty. -/
theorem reverse_index_counterexample :
    ReadMapFromFile noFloat DUNEGenChannelMapSP.new (some exampleFile) = .ok exampleMap ∧
    "offlchan" ∉ exampleMap.m_ColumnNames ∧
    exampleMap.m_OfflToChanInfo = [(0, 0)] ∧
    exampleMap.m_OfflToChanInfo ≠ [] :=
  ⟨rfl, by decide, rfl, by decide⟩

/-- C11. Reverse key on a valid hit without a column named `offlchan`. In
any state of the object with no such column, a key-set lookup that returns
`valid = true` leaves the member `offlchan` at 0, the value it is
initialised to, and not at the -1 that `GetChanInfoFromOfflChan` assigns;
`GetChanInfoFromOfflChan` itself never returns `valid = true` there. -/
theorem keyset_hit_reverse_key_zero (self : DUNEGenChannelMapSP)
    (hcol : "offlchan" ∉ self.m_ColumnNames) :
    (∀ (detinfo info : ChanInfo_t), GetChanInfoFromDetectorElements self detinfo = .ok info →
      AMap.find "valid" info.fields = some (AnyVal.bool true) → info.offlchan = 0) ∧
    (∀ (ch : Int) (info : ChanInfo_t), GetChanInfoFromOfflChan self ch = .ok info →
      AMap.find "valid" info.fields ≠ some (AnyVal.bool true)) := by
  have hnone : lastIdx (fun x => decide (x = "offlchan")) self.m_ColumnNames = none := by
    rw [lastIdx_eq_none_iff]
    intro x hx
    simp only [decide_eq_false_iff_not]
    intro he
    exact hcol (he ▸ hx)
  constructor
  · intro detinfo info hget hvalid
    unfold GetChanInfoFromDetectorElements at hget
    obtain ⟨t, _, hget⟩ := (bind_eq_ok _ _ _).mp hget
    cases hd : detFind self.m_DetToChanInfo t with
    | none =>
      rw [hd] at hget
      simp only [Except.ok.injEq] at hget
      subst hget
      simp [badInfo, AMap.set, AMap.find] at hvalid
    | some j =>
      rw [hd] at hget
      simp only at hget
      obtain ⟨info', hinfo', hfin⟩ := (bind_eq_ok _ _ _).mp hget
      simp only [Except.ok.injEq] at hfin
      subst hfin
      cases hn : self.m_ColumnNames with
      | nil =>
        rw [hn] at hinfo'
        simp only [fillInfoDet, Except.ok.injEq] at hinfo'
        subst hinfo'
        rfl
      | cons n ns =>
        have hinfo2 := hinfo'
        rw [hn] at hinfo2
        obtain ⟨row, hrow⟩ := fillInfoDet_row self j n ns 0 _ info' hinfo2
        exact (fillInfoDet_spec self j row hrow self.m_ColumnNames 0 _ info' hinfo').2.2 hnone
  · intro ch info hget hvalid
    cases hrev : AMap.find (toUnsigned ch) self.m_OfflToChanInfo with
    | none =>
      unfold GetChanInfoFromOfflChan at hget
      rw [hrev] at hget
      simp only [Except.ok.injEq] at hget
      subst hget
      simp [badInfo, AMap.set, AMap.find] at hvalid
    | some j =>
      rw [offl_unfold self ch j hrev] at hget
      obtain ⟨info', _, hfin⟩ := (bind_eq_ok _ _ _).mp hget
      simp only [Except.ok.injEq] at hfin
      subst hfin
      simp [AMap.find_set, hcol] at hvalid

/-- C11 at the example scenario: the key-set lookup of
`{crate:1, slot:2, stream:3, chan:4}` returns `valid = true` with the member
`offlchan` at 0, and 0 is not -1. -/
theorem keyset_hit_reverse_key_zero_witness :
    GetChanInfoFromDetectorElements exampleMap exampleQuery =
      .ok { fields := [("crate", AnyVal.int 1), ("slot", AnyVal.int 2), ("stream", AnyVal.int 3),
                       ("chan", AnyVal.int 4), ("valid", AnyVal.bool true)], offlchan := 0 } ∧
    ({ fields := [("crate", AnyVal.int 1), ("slot", AnyVal.int 2), ("stream", AnyVal.int 3),
                  ("chan", AnyVal.int 4), ("valid", AnyVal.bool true)],
       offlchan := 0 } : ChanInfo_t).offlchan = 0 ∧
    (0 : Int) ≠ -1 :=
  ⟨rfl,
   (keyset_hit_reverse_key_zero exampleMap (by decide)).1 exampleQuery
     { fields := [("crate", AnyVal.int 1), ("slot", AnyVal.int 2), ("stream", AnyVal.int 3),
                  ("chan", AnyVal.int 4), ("valid", AnyVal.bool true)], offlchan := 0 }
     rfl rfl,
   by decide⟩

/-- C12 (amended). Empty state. On a freshly constructed object the empty
input mapping makes `GetChanInfoFromDetectorElements` return `badInfo`
(`valid = false`); a mapping with an entry makes it raise the
unknown-key-name error for the first entry iterated, no name being
recognised before a load; and `GetChanInfoFromOfflChan` returns `badInfo`
for every channel. -/
theorem fresh_object_lookups (oc : Int) (nm : String) (x : AnyVal)
    (rest : List (String × AnyVal)) (ch : Int) :
    GetChanInfoFromDetectorElements DUNEGenChannelMapSP.new { fields := [], offlchan := oc } =
      .ok badInfo ∧
    AMap.find "valid" badInfo.fields = some (AnyVal.bool false) ∧
    GetChanInfoFromDetectorElements DUNEGenChannelMapSP.new
        { fields := (nm, x) :: rest, offlchan := oc } =
      .error (.logic_error ("DUNEGenChannelMapSP ununderstood map key name " ++ nm)) ∧
    GetChanInfoFromOfflChan DUNEGenChannelMapSP.new ch = .ok badInfo :=
  ⟨rfl, rfl, rfl, rfl⟩

/-- C12 as stated fails on the fresh object: the mapping `{crate: 1}` makes
`GetChanInfoFromDetectorElements` raise `std::logic_error` instead of
returning a record with `valid = false`. -/
theorem fresh_object_counterexample :
    GetChanInfoFromDetectorElements DUNEGenChannelMapSP.new
        { fields := [("crate", AnyVal.int 1)], offlchan := 0 } =
      .error (.logic_error "DUNEGenChannelMapSP ununderstood map key name crate") :=
  rfl

/-- C13. Comment and blank robustness. When `F'` is `F` with empty lines and
lines starting with `#` inserted at any positions, `ReadMapFromFile` run on
the same object gives the same outcome for `F'` as for `F`: the same final
state or the same exception. -/
theorem comment_blank_robust (rdF : FloatReader) (self : DUNEGenChannelMapSP)
    (F F' : List String) (h : InsertedSkippable F F') :
    ReadMapFromFile rdF self (some F') = ReadMapFromFile rdF self (some F) := by
  unfold ReadMapFromFile
  simp only [Option.getD_some]
  rw [readLoop_eq_processLines, readLoop_eq_processLines, retained_inserted F F' h]

/-- C13 at the example file with a comment or an empty line inserted at
every position: it loads to the same object. -/
theorem comment_blank_robust_witness :
    ReadMapFromFile noFloat DUNEGenChannelMapSP.new (some exampleFileCommented) =
      ReadMapFromFile noFloat DUNEGenChannelMapSP.new (some exampleFile) :=
  comment_blank_robust noFloat DUNEGenChannelMapSP.new exampleFile exampleFileCommented
    (.ins _ rfl (.keep _ (.ins _ rfl (.keep _ (.ins _ rfl (.keep _ (.ins _ rfl
      (.keep _ (.ins _ rfl (.keep _ (.ins _ rfl .done)))))))))))

/-- C16 (amended). Open failure. When the file cannot be opened,
`std::getline` delivers no line and `ReadMapFromFile` on a fresh object
raises nothing: it completes as the load of an empty file does, leaving the
object as constructed. -/
theorem open_failure_is_silent (rdF : FloatReader) :
    ReadMapFromFile rdF DUNEGenChannelMapSP.new none = .ok DUNEGenChannelMapSP.new ∧
    ReadMapFromFile rdF DUNEGenChannelMapSP.new none =
      ReadMapFromFile rdF DUNEGenChannelMapSP.new (some []) :=
  ⟨rfl, rfl⟩

/-- C16 as stated fails: with a file that cannot be opened the load returns
normally, with the empty map, instead of raising. -/
theorem open_failure_counterexample :
    ReadMapFromFile noFloat DUNEGenChannelMapSP.new none = .ok DUNEGenChannelMapSP.new ∧
    (ReadMapFromFile noFloat DUNEGenChannelMapSP.new none).toBool = true :=
  ⟨rfl, rfl⟩

/-- C17. Key ordinals are dense and in file order. Once the key-flag line
has been read without error: a flagged column has for ordinal in
`m_WhichKey` the number of flagged columns before it; `m_KeyStrings` is the
list of the names of the flagged columns in column order; the ordinals of
distinct flagged columns are distinct; and they are exactly the numbers
below the number of key columns. -/
theorem key_ordinals_dense (rdF : FloatReader) (a b c d : List Char) (v : LoadVars)
    (h : processLines rdF { self := DUNEGenChannelMapSP.new, state := 0, ncolumns := 0 }
      [a, b, c, d] = .ok v) :
    (∀ (i : Nat) (fl : Int), v.self.m_KeyColFlags[i]? = some fl → fl ≠ 0 →
      v.self.m_WhichKey[i]? =
        some ((v.self.m_KeyColFlags.take i).countP (fun fl => decide (fl ≠ 0)))) ∧
    v.self.m_KeyStrings = keyNames v.self.m_ColumnNames v.self.m_KeyColFlags ∧
    v.self.m_ColumnNames.length = v.self.m_KeyColFlags.length ∧
    v.self.m_KeyStrings.length = v.self.m_KeyColFlags.countP (fun fl => decide (fl ≠ 0)) ∧
    (∀ (i j : Nat) (fi fj : Int) (wk : Nat), v.self.m_KeyColFlags[i]? = some fi → fi ≠ 0 →
      v.self.m_KeyColFlags[j]? = some fj → fj ≠ 0 →
      v.self.m_WhichKey[i]? = some wk → v.self.m_WhichKey[j]? = some wk → i = j) ∧
    (∀ s : Nat, s < v.self.m_KeyStrings.length ↔
      ∃ (i : Nat) (fl : Int), v.self.m_KeyColFlags[i]? = some fl ∧ fl ≠ 0 ∧
        v.self.m_WhichKey[i]? = some s) := by
  obtain ⟨_, hF, _, hlen, _, _⟩ := header_four rdF a b c d v h
  refine ⟨fun i fl hi hfl => (hF.flagged i fl hi hfl).2, hF.ks, hlen.symm, hF.ks_len, ?_, ?_⟩
  · intro i j fi fj wk hi hfi hj hfj hwi hwj
    rw [(hF.flagged i fi hi hfi).2] at hwi
    rw [(hF.flagged j fj hj hfj).2] at hwj
    simp only [Option.some.injEq] at hwi hwj
    exact ordinal_inj _ i j fi fj hi hfi hj hfj (hwi.trans hwj.symm)
  · intro s
    rw [hF.ks_len]
    constructor
    · intro hs
      obtain ⟨i, fl, hi, hfl, hord⟩ := ordinal_surj _ s hs
      exact ⟨i, fl, hi, hfl, by rw [(hF.flagged i fl hi hfl).2, hord]⟩
    · rintro ⟨i, fl, hi, hfl, hwk⟩
      rw [(hF.flagged i fl hi hfl).2] at hwk
      simp only [Option.some.injEq] at hwk
      rw [← hwk]
      exact countP_take_lt _ i fl hi hfl

/-- C17 at the header of `dupKeyOfflFile` (flags `1 0 0`). -/
theorem key_ordinals_dense_witness :
    (∀ (i : Nat) (fl : Int), dupKeyOfflMap.m_KeyColFlags[i]? = some fl → fl ≠ 0 →
      dupKeyOfflMap.m_WhichKey[i]? =
        some ((dupKeyOfflMap.m_KeyColFlags.take i).countP (fun fl => decide (fl ≠ 0)))) ∧
    dupKeyOfflMap.m_KeyStrings =
      keyNames dupKeyOfflMap.m_ColumnNames dupKeyOfflMap.m_KeyColFlags ∧
    dupKeyOfflMap.m_KeyStrings = ["crate"] :=
  ⟨(key_ordinals_dense noFloat "3".data "crate offlchan name".data "I I C".data "1 0 0".data
      { self := { dupKeyOfflMap with m_DetToChanInfo := [], m_OfflToChanInfo := [],
                                     m_MapInfo := [] },
        state := 4, ncolumns := 3 } rfl).1,
   (key_ordinals_dense noFloat "3".data "crate offlchan name".data "I I C".data "1 0 0".data
      { self := { dupKeyOfflMap with m_DetToChanInfo := [], m_OfflToChanInfo := [],
                                     m_MapInfo := [] },
        state := 4, ncolumns := 3 } rfl).2.1,
   rfl⟩

/-- C19. Index soundness. After a load without error into a fresh object,
every row position held by the primary index and by the reverse index is a
position of the row store, and the row there has one value per column name,
so that no access `m_MapInfo.at(infoindex).at(i)` with `i` below
`m_ColumnNames.size()` is out of range. -/
theorem index_soundness (rdF : FloatReader) (lines : List String)
    (self : DUNEGenChannelMapSP)
    (hload : ReadMapFromFile rdF DUNEGenChannelMapSP.new (some lines) = .ok self) :
    (∀ (k0 k1 k2 k3 : Int) (j : Nat),
      detFind self.m_DetToChanInfo [k0, k1, k2, k3] = some j →
      j < self.m_MapInfo.length ∧
      ∃ row, self.m_MapInfo[j]? = some row ∧ row.length = self.m_ColumnNames.length ∧
        ∀ i : Nat, i < self.m_ColumnNames.length →
          ∃ x, (vecAt self.m_MapInfo j >>= fun r => vecAt r i) = .ok x) ∧
    (∀ (u j : Nat), AMap.find u self.m_OfflToChanInfo = some j →
      j < self.m_MapInfo.length ∧
      ∃ row, self.m_MapInfo[j]? = some row ∧ row.length = self.m_ColumnNames.length ∧
        ∀ i : Nat, i < self.m_ColumnNames.length →
          ∃ x, (vecAt self.m_MapInfo j >>= fun r => vecAt r i) = .ok x) := by
  obtain ⟨rs, hL⟩ := load_ok rdF lines self hload
  have key : ∀ j : Nat, j < self.m_MapInfo.length →
      j < self.m_MapInfo.length ∧
      ∃ row, self.m_MapInfo[j]? = some row ∧ row.length = self.m_ColumnNames.length ∧
        ∀ i : Nat, i < self.m_ColumnNames.length →
          ∃ x, (vecAt self.m_MapInfo j >>= fun r => vecAt r i) = .ok x := by
    intro j hj
    have hrow : self.m_MapInfo[j]? = some self.m_MapInfo[j] := List.getElem?_eq_getElem hj
    obtain ⟨r, line, _, _, hr, hrd⟩ := loaded_line_of_row rdF lines self rs hL j _ hrow
    obtain ⟨h1, _, _, _, _, _, _⟩ := loaded_row_shape rdF lines self rs hL j r hr
    rw [hrd] at h1
    refine ⟨hj, _, hrow, h1, ?_⟩
    intro i hi
    have hi' : i < (self.m_MapInfo[j]).length := by rw [h1]; exact hi
    refine ⟨(self.m_MapInfo[j])[i], ?_⟩
    rw [(vecAt_eq_ok _ _ _).mpr hrow, ok_bind]
    exact (vecAt_eq_ok _ _ _).mpr (List.getElem?_eq_getElem hi')
  constructor
  · intro k0 k1 k2 k3 j hfind
    rw [loaded_detFind rdF lines self rs hL [k0, k1, k2, k3] rfl] at hfind
    exact key j (lastIdx_lt _ _ _ hfind)
  · intro u j hfind
    rw [loaded_offlFind rdF lines self rs hL u] at hfind
    exact key j (lastIdx_lt _ _ _ hfind)

/-- C19 at `dupKeyOfflFile`: the positions 1 (primary index) and 0, 1
(reverse index) are positions of its two-row store. -/
theorem index_soundness_witness :
    detFind dupKeyOfflMap.m_DetToChanInfo [1, 0, 0, 0] = some 1 ∧
    (1 < dupKeyOfflMap.m_MapInfo.length ∧
      ∃ row, dupKeyOfflMap.m_MapInfo[1]? = some row ∧
        row.length = dupKeyOfflMap.m_ColumnNames.length ∧
        ∀ i : Nat, i < dupKeyOfflMap.m_ColumnNames.length →
          ∃ x, (vecAt dupKeyOfflMap.m_MapInfo 1 >>= fun r => vecAt r i) = .ok x) :=
  ⟨rfl, (index_soundness noFloat dupKeyOfflFile dupKeyOfflMap rfl).1 1 0 0 0 1 rfl⟩

/-- C18 (amended). Row store shape. After a load without error into a fresh
object the row store holds one row per retained data line, in file order,
the row of the data line at position `j` being at position `j`; every stored
row has as many values as the declared column count, and none when that
count is negative; and its value at position `i` carries the tag of the type
token declared for column `i`, which is the type recorded for that column. -/
theorem row_store_shape (rdF : FloatReader) (lines : List String)
    (self : DUNEGenChannelMapSP)
    (hload : ReadMapFromFile rdF DUNEGenChannelMapSP.new (some lines) = .ok self) :
    self.m_MapInfo.length = (dataLines lines).length ∧
    (∀ (j : Nat) (line : List Char), (dataLines lines)[j]? = some line →
      ∃ r, decodeRow rdF self line = .ok r ∧ self.m_MapInfo[j]? = some r.dataline) ∧
    (∀ row ∈ self.m_MapInfo,
      (row.length : Int) = max (declaredCount lines) 0 ∧
      ∀ (i : Nat) (x : AnyVal), row[i]? = some x →
        self.m_ColumnTypes[i]? = some (tagOf x) ∧
        ∃ tok, (typeTokens lines)[i]? = some tok ∧
          (tok = "I" ∨ tok = "C" ∨ tok = "S" ∨ tok = "F") ∧ tagOf x = typeCode tok) := by
  obtain ⟨rs, hL⟩ := load_ok rdF lines self hload
  refine ⟨?_, ?_, ?_⟩
  · rw [hL.mapInfo, List.length_map, List.Forall₂.length_eq hL.rows]
  · intro j line hline
    obtain ⟨r, hdec, _, hrow⟩ := loaded_row_of_line rdF lines self rs hL j line hline
    exact ⟨r, hdec, hrow⟩
  · intro row hrow
    obtain ⟨j, hj⟩ := List.mem_iff_getElem?.mp hrow
    obtain ⟨r, line, hline, _, hr, hrd⟩ := loaded_line_of_row rdF lines self rs hL j row hj
    obtain ⟨h1, _, h3, _, _, _, h7⟩ := loaded_row_shape rdF lines self rs hL j r hr
    rw [hrd] at h1 h7
    -- the file has its four header lines
    have hlen : 4 < (retained lines).length := by
      have := (List.getElem?_eq_some_iff.mp hline).1
      unfold dataLines at this
      simp only [List.length_drop] at this
      omega
    obtain ⟨a, b, c, d, ds, hret⟩ : ∃ a b c d ds, retained lines = a :: b :: c :: d :: ds := by
      match hr' : retained lines, hlen with
      | a :: b :: c :: d :: ds, _ => exact ⟨a, b, c, d, ds, rfl⟩
    obtain ⟨hn, ht⟩ := loaded_schema_of_header rdF lines self a b c d ds hret hload
    obtain ⟨p1, p2, p3, p4, p5, p6, p7, p8, p9, p10⟩ :=
      header_pre { buf := b, fail := false } { buf := c, fail := false }
        (extractInt { buf := a, fail := false } 0).2.toNat
        (extractInt { buf := a, fail := false } 0).2.toNat (Nat.le_refl _)
    obtain ⟨a1, a2, a3, a4, a5, a6, a7, a8, a9⟩ :=
      readNames_spec { buf := b, fail := false } 0
        (extractInt { buf := a, fail := false } 0).2.toNat DUNEGenChannelMapSP.new rfl (by
          intro name
          simp [DUNEGenChannelMapSP.new, AMap.find, lastIdx])
    have hnlen : self.m_ColumnNames.length =
        (extractInt { buf := a, fail := false } 0).2.toNat := by rw [hn, p2]
    have hdc : declaredCount lines = (extractInt { buf := a, fail := false } 0).2 := by
      unfold declaredCount
      rw [hret]
    have htt : typeTokens lines = readTokens { buf := c, fail := false }
        (extractInt { buf := a, fail := false } 0).2.toNat := by
      unfold typeTokens
      rw [hret]
    have hfull : (readTypes { buf := c, fail := false }
        (extractInt { buf := a, fail := false } 0).2.toNat
        (readNames { buf := b, fail := false } 0
          (extractInt { buf := a, fail := false } 0).2.toNat
          DUNEGenChannelMapSP.new)).m_ColumnTypes.length =
        (readNames { buf := b, fail := false } 0
          (extractInt { buf := a, fail := false } 0).2.toNat
          DUNEGenChannelMapSP.new).m_ColumnTypes.length +
        (extractInt { buf := a, fail := false } 0).2.toNat := by
      rw [← ht, h3, hnlen, a3]
      simp [DUNEGenChannelMapSP.new]
    have hrec := readTypes_full { buf := c, fail := false }
      (extractInt { buf := a, fail := false } 0).2.toNat
      (readNames { buf := b, fail := false } 0
        (extractInt { buf := a, fail := false } 0).2.toNat DUNEGenChannelMapSP.new)
      (by rw [a3]; simp [DUNEGenChannelMapSP.new]) hfull
    have htypes := readTypes_recognised { buf := c, fail := false }
      (extractInt { buf := a, fail := false } 0).2.toNat
      (readNames { buf := b, fail := false } 0
        (extractInt { buf := a, fail := false } 0).2.toNat DUNEGenChannelMapSP.new) hrec
    rw [← ht, a3] at htypes
    have htypes' : self.m_ColumnTypes = (typeTokens lines).map typeCode := by
      rw [htypes, htt]
      rfl
    refine ⟨?_, ?_⟩
    · rw [h1, hnlen, hdc]
      exact Int.toNat_eq_max _
    · intro i x hx
      have hty := h7 i x hx
      refine ⟨hty, ?_⟩
      rw [htypes', List.getElem?_map] at hty
      cases htok : (typeTokens lines)[i]? with
      | none => rw [htok] at hty; simp at hty
      | some tok =>
        rw [htok] at hty
        simp only [Option.map_some', Option.some.injEq] at hty
        refine ⟨tok, rfl, ?_, hty.symm⟩
        apply hrec
        rw [← htt]
        exact List.getElem?_mem htok

/-- C18 at `dupKeyOfflFile`: two data lines, two rows of three values each,
tagged int, int, string. -/
theorem row_store_shape_witness :
    dupKeyOfflMap.m_MapInfo.length = (dataLines dupKeyOfflFile).length ∧
    declaredCount dupKeyOfflFile = 3 ∧
    typeTokens dupKeyOfflFile = ["I", "I", "C"] ∧
    dupKeyOfflMap.m_MapInfo.map (fun row => row.map tagOf) = [[0, 0, 1], [0, 0, 1]] ∧
    (∀ row ∈ dupKeyOfflMap.m_MapInfo,
      (row.length : Int) = max (declaredCount dupKeyOfflFile) 0 ∧
      ∀ (i : Nat) (x : AnyVal), row[i]? = some x →
        dupKeyOfflMap.m_ColumnTypes[i]? = some (tagOf x) ∧
        ∃ tok, (typeTokens dupKeyOfflFile)[i]? = some tok ∧
          (tok = "I" ∨ tok = "C" ∨ tok = "S" ∨ tok = "F") ∧ tagOf x = typeCode tok) :=
  ⟨(row_store_shape noFloat dupKeyOfflFile dupKeyOfflMap rfl).1, rfl, rfl, rfl,
   (row_store_shape noFloat dupKeyOfflFile dupKeyOfflMap rfl).2.2⟩

/-- C18 as stated fails on `negCountFile`, which declares the column count
-1: the load raises nothing and stores, for the data line, a row of length
0, which is not the declared count. -/
theorem row_store_shape_counterexample :
    declaredCount negCountFile = -1 ∧
    (ReadMapFromFile noFloat DUNEGenChannelMapSP.new (some negCountFile)).map
      (fun self => self.m_MapInfo) = .ok [[]] ∧
    ((([] : List AnyVal).length : Int) ≠ -1) :=
  ⟨rfl, rfl, by decide⟩

/-- C15 (amended). Header token counts are not checked. For a file with
four header lines declaring the column count `N`, the first three raise
nothing whatever their numbers of tokens: the name line gives exactly `N`
names, the results of `N` successive string extractions, and the type line
records one type per recognised token among the `N` it extracts, hence at
most `N`. The key-flag line gives exactly `N` flags. Once a line has no
token left, every further name is the empty string and every further flag
is 0. When every nonzero flag sits at an index whose recorded type is `I`,
the header is accepted, and then, if fewer than `N` types were recorded, a
data line makes the load raise `std::out_of_range`. Otherwise the load
fails at the first nonzero flag that does not: with `std::out_of_range` when
no type is recorded at its index, with `std::bad_typeid` when one is. -/
theorem header_counts_unchecked (rdF : FloatReader) (lines : List String)
    (a b c d : List Char) (ds : List (List Char))
    (hret : retained lines = a :: b :: c :: d :: ds) :
    ∃ v3, processLines rdF { self := DUNEGenChannelMapSP.new, state := 0, ncolumns := 0 }
        [a, b, c] = .ok v3 ∧
      v3.self.m_ColumnNames =
        readTokens { buf := b, fail := false } (declaredCount lines).toNat ∧
      v3.self.m_ColumnNames.length = (declaredCount lines).toNat ∧
      v3.self.m_ColumnTypes =
        ((readTokens { buf := c, fail := false } (declaredCount lines).toNat).filter
          (fun tok => decide (tok = "I" ∨ tok = "C" ∨ tok = "S" ∨ tok = "F"))).map typeCode ∧
      v3.self.m_ColumnTypes.length ≤ (declaredCount lines).toNat ∧
      (readInts { buf := d, fail := false } (declaredCount lines).toNat).length =
        (declaredCount lines).toNat ∧
      (∀ (ls : IStream) (k : Nat), sentry ls = none →
        readTokens ls k = List.replicate k "" ∧ readInts ls k = List.replicate k 0) ∧
      ((∀ (i : Nat) (fl : Int),
          (readInts { buf := d, fail := false } (declaredCount lines).toNat)[i]? = some fl →
          fl ≠ 0 → v3.self.m_ColumnTypes[i]? = some 0) →
        (∃ v4, processLines rdF
            { self := DUNEGenChannelMapSP.new, state := 0, ncolumns := 0 } [a, b, c, d] =
              .ok v4 ∧
          v4.self.m_ColumnNames = v3.self.m_ColumnNames ∧
          v4.self.m_ColumnTypes = v3.self.m_ColumnTypes ∧
          v4.self.m_KeyColFlags =
            readInts { buf := d, fail := false } (declaredCount lines).toNat) ∧
        (v3.self.m_ColumnTypes.length < (declaredCount lines).toNat → ds ≠ [] →
          ReadMapFromFile rdF DUNEGenChannelMapSP.new (some lines) = .error .out_of_range)) ∧
      (∀ (i : Nat) (fl : Int),
        (readInts { buf := d, fail := false } (declaredCount lines).toNat)[i]? = some fl →
        fl ≠ 0 → v3.self.m_ColumnTypes[i]? ≠ some 0 →
        (∀ (m : Nat) (fl' : Int), m < i →
          (readInts { buf := d, fail := false } (declaredCount lines).toNat)[m]? = some fl' →
          fl' ≠ 0 → v3.self.m_ColumnTypes[m]? = some 0) →
        ReadMapFromFile rdF DUNEGenChannelMapSP.new (some lines) =
          .error (match v3.self.m_ColumnTypes[i]? with
            | none => .out_of_range
            | some _ => .bad_typeid)) := by
  have hdc : declaredCount lines = (extractInt { buf := a, fail := false } 0).2 := by
    unfold declaredCount
    rw [hret]
  rw [hdc]
  obtain ⟨p1, p2, p3, p4, p5, p6, p7, p8, p9, p10⟩ :=
    header_pre { buf := b, fail := false } { buf := c, fail := false }
      (extractInt { buf := a, fail := false } 0).2.toNat
      (extractInt { buf := a, fail := false } 0).2.toNat (Nat.le_refl _)
  obtain ⟨a1, a2, a3, a4, a5, a6, a7, a8, a9⟩ :=
    readNames_spec { buf := b, fail := false } 0
      (extractInt { buf := a, fail := false } 0).2.toNat DUNEGenChannelMapSP.new rfl (by
        intro name
        simp [DUNEGenChannelMapSP.new, AMap.find, lastIdx])
  have hnames : (readTypes { buf := c, fail := false }
      (extractInt { buf := a, fail := false } 0).2.toNat
      (readNames { buf := b, fail := false } 0
        (extractInt { buf := a, fail := false } 0).2.toNat
        DUNEGenChannelMapSP.new)).m_ColumnNames =
      readTokens { buf := b, fail := false }
        (extractInt { buf := a, fail := false } 0).2.toNat := by
    rw [(readTypes_spec _ _ _ (by rw [a3]; simp [DUNEGenChannelMapSP.new])).2.2.1,
      readNames_names]
    simp [DUNEGenChannelMapSP.new]
  have htypes : (readTypes { buf := c, fail := false }
      (extractInt { buf := a, fail := false } 0).2.toNat
      (readNames { buf := b, fail := false } 0
        (extractInt { buf := a, fail := false } 0).2.toNat
        DUNEGenChannelMapSP.new)).m_ColumnTypes =
      ((readTokens { buf := c, fail := false }
          (extractInt { buf := a, fail := false } 0).2.toNat).filter
        (fun tok => decide (tok = "I" ∨ tok = "C" ∨ tok = "S" ∨ tok = "F"))).map typeCode := by
    rw [readTypes_types, a3]
    simp [DUNEGenChannelMapSP.new]
  have hload : ∀ e : Exn,
      processLines rdF { self := DUNEGenChannelMapSP.new, state := 0, ncolumns := 0 }
        (a :: b :: c :: d :: ds) = .error e →
      ReadMapFromFile rdF DUNEGenChannelMapSP.new (some lines) = .error e := by
    intro e he
    unfold ReadMapFromFile
    simp only [Option.getD_some]
    rw [readLoop_eq_processLines, hret, he]
    rfl
  refine ⟨_, processLines_header3 rdF a b c, hnames, p2, htypes,
    le_trans p4 (le_of_eq p2), readInts_length _ _,
    fun ls k h => ⟨readTokens_exhausted ls k h, readInts_exhausted ls k h⟩, ?_, ?_⟩
  · intro hflags
    obtain ⟨s', h1, h2, h3, h4⟩ := readFlags_ok { buf := d, fail := false } 0
      (extractInt { buf := a, fail := false } 0).2.toNat
      (readTypes { buf := c, fail := false }
        (extractInt { buf := a, fail := false } 0).2.toNat
        (readNames { buf := b, fail := false } 0
          (extractInt { buf := a, fail := false } 0).2.toNat
          DUNEGenChannelMapSP.new))
      (by rw [p2]; omega)
      (by
        intro m fl hm hne
        rw [Nat.zero_add]
        exact hflags m fl hm hne)
    constructor
    · refine ⟨{ self := s', state := 4,
                ncolumns := (extractInt { buf := a, fail := false } 0).2 }, ?_, h3, h4, ?_⟩
      · rw [processLines_header4, h1]
        rfl
      · show s'.m_KeyColFlags = _
        rw [h2, p5]
        rfl
    · intro hshort hds
      obtain ⟨line, ds', rfl⟩ := List.exists_cons_of_ne_nil hds
      apply hload
      rw [processLines_header4, h1, ok_bind, processLines, processLine_data _ _ _ rfl]
      have hcols := readColumns_short rdF s'.m_ColumnTypes s'.m_KeyColFlags s'.m_ColumnNames
        (by rw [h4]; exact p3)
        (extractInt { buf := a, fail := false } 0).2.toNat line
        (by rw [h4]; exact hshort)
      simp only
      rw [hcols]
      rfl
  · intro i fl hi hfl hbad hfirst
    apply hload
    have hbadF := readFlags_first_bad { buf := d, fail := false } 0
      (extractInt { buf := a, fail := false } 0).2.toNat
      (readTypes { buf := c, fail := false }
        (extractInt { buf := a, fail := false } 0).2.toNat
        (readNames { buf := b, fail := false } 0
          (extractInt { buf := a, fail := false } 0).2.toNat
          DUNEGenChannelMapSP.new))
      (by rw [p2]; omega) i fl hi hfl
      (by rw [Nat.zero_add]; exact hbad)
      (by
        intro m fl' hm hget hne
        rw [Nat.zero_add]
        exact hfirst m fl' hm hget hne)
    simp only [Nat.zero_add] at hbadF
    rw [processLines_header4, hbadF]
    rfl

/-- C15 at `shortTypesDataFile`, which declares two columns and gives one
type: the header is accepted and its data line makes the load raise
`std::out_of_range`; and at `shortTypesFlaggedFile`, which flags the column
left without a type: the key-flag line makes the load raise
`std::out_of_range`. -/
theorem header_counts_unchecked_witness :
    ReadMapFromFile noFloat DUNEGenChannelMapSP.new (some shortTypesDataFile) =
      .error .out_of_range ∧
    ReadMapFromFile noFloat DUNEGenChannelMapSP.new (some shortTypesFlaggedFile) =
      .error .out_of_range := by
  constructor
  · obtain ⟨v3, _, _, _, hty, _, _, _, hacc, _⟩ :=
      header_counts_unchecked noFloat shortTypesDataFile "2".data "a b".data "I".data
        "0 0".data ["1 2".data] rfl
    have hflags : readInts { buf := "0 0".data, fail := false }
        (declaredCount shortTypesDataFile).toNat = [0, 0] := rfl
    refine (hacc ?_).2 ?_ (by simp)
    · intro i fl hi hne
      rw [hflags] at hi
      match i, hi with
      | 0, hi => simp at hi; exact absurd hi.symm hne
      | 1, hi => simp at hi; exact absurd hi.symm hne
      | k + 2, hi => simp at hi
    · rw [hty]
      decide
  · obtain ⟨v3, _, _, _, hty, _, _, _, _, hrej⟩ :=
      header_counts_unchecked noFloat shortTypesFlaggedFile "2".data "a b".data "I".data
        "0 1".data [] rfl
    have hflags : readInts { buf := "0 1".data, fail := false }
        (declaredCount shortTypesFlaggedFile).toNat = [0, 1] := rfl
    have htypes : v3.self.m_ColumnTypes = [0] := by
      rw [hty]
      decide
    have h := hrej 1 1 (by rw [hflags]; rfl) (by decide) (by rw [htypes]; decide) (by
      intro m fl' hm hget hne
      rw [hflags] at hget
      match m, hm, hget with
      | 0, _, hget => simp at hget; exact absurd hget.symm hne)
    rw [htypes] at h
    exact h

/-- C15 as stated fails on three files that declare two columns: with a
single name (`shortNamesFile`) or a single key flag (`shortFlagsFile`) the
whole file loads without error, the missing name being the empty string and
the missing flag 0; with a single type token and no data line
(`shortTypesFile`) the load raises nothing either. -/
theorem header_counts_counterexample :
    (ReadMapFromFile noFloat DUNEGenChannelMapSP.new (some shortNamesFile)).map
      (fun self => (self.m_ColumnNames, self.m_MapInfo)) =
      .ok (["a", ""], [[AnyVal.int 1, AnyVal.int 2]]) ∧
    (ReadMapFromFile noFloat DUNEGenChannelMapSP.new (some shortFlagsFile)).map
      (fun self => (self.m_KeyColFlags, self.m_MapInfo)) =
      .ok ([1, 0], [[AnyVal.int 1, AnyVal.int 2]]) ∧
    (ReadMapFromFile noFloat DUNEGenChannelMapSP.new (some shortTypesFile)).map
      (fun self => (self.m_ColumnTypes, self.m_KeyColFlags)) = .ok ([0], [0, 0]) :=
  ⟨rfl, rfl, rfl⟩

/-- C14. Order independence. After a load without error into a fresh
object, for two input mappings with the same entries (distinct names,
integer values) iterated in different orders: a record returned by
`GetChanInfoFromDetectorElements` for one is returned for the other; the
lookup raises for one exactly when it raises for the other; and when every
name is a column name the two outcomes are equal altogether. -/
theorem order_independence (rdF : FloatReader) (lines : List String)
    (self : DUNEGenChannelMapSP)
    (hload : ReadMapFromFile rdF DUNEGenChannelMapSP.new (some lines) = .ok self)
    (q q' : ChanInfo_t) (hperm : q.fields.Perm q'.fields)
    (hnd : (q.fields.map Prod.fst).Nodup)
    (hint : ∀ e ∈ q.fields, ∃ v : Int, e.2 = AnyVal.int v) :
    (∀ info, GetChanInfoFromDetectorElements self q = .ok info ↔
      GetChanInfoFromDetectorElements self q' = .ok info) ∧
    ((∃ err, GetChanInfoFromDetectorElements self q = .error err) ↔
      ∃ err, GetChanInfoFromDetectorElements self q' = .error err) ∧
    ((∀ e ∈ q.fields, e.1 ∈ self.m_ColumnNames) →
      GetChanInfoFromDetectorElements self q = GetChanInfoFromDetectorElements self q') := by
  obtain ⟨rs, hL⟩ := load_ok rdF lines self hload
  have hnd' : (q'.fields.map Prod.fst).Nodup :=
    (List.Perm.nodup_iff (hperm.map Prod.fst)).mp hnd
  have hint' : ∀ e ∈ q'.fields, ∃ v : Int, e.2 = AnyVal.int v :=
    fun e he => hint e (hperm.mem_iff.mpr he)
  have hok : ∀ info, GetChanInfoFromDetectorElements self q = .ok info ↔
      GetChanInfoFromDetectorElements self q' = .ok info := fun info =>
    ⟨get_perm_ok self hL.names_inv hL.flags_inv q q' hperm hnd hint info,
     get_perm_ok self hL.names_inv hL.flags_inv q' q hperm.symm hnd' hint' info⟩
  refine ⟨hok, ?_, ?_⟩
  · constructor
    · rintro ⟨err, herr⟩
      cases h' : GetChanInfoFromDetectorElements self q' with
      | error e => exact ⟨e, rfl⟩
      | ok info =>
        rw [(hok info).mpr h'] at herr
        cases herr
    · rintro ⟨err, herr⟩
      cases h' : GetChanInfoFromDetectorElements self q with
      | error e => exact ⟨e, rfl⟩
      | ok info =>
        rw [(hok info).mp h'] at herr
        cases herr
  · intro hrec
    apply get_congr
    exact assembleKeys_perm self hL.names_inv hL.flags_inv q.fields q'.fields hperm hnd
      (fun e he => by
        rw [Ne, find_none_names self hL.names_inv]
        exact not_not.mpr (hrec e he)) hint _

/-- C14 at `exampleFile`: the query of the example scenario and the same
entries in reverse order give the same outcome. -/
theorem order_independence_witness :
    (exampleQuery.fields.Perm exampleQuery.fields.reverse) ∧
    GetChanInfoFromDetectorElements exampleMap exampleQuery =
      GetChanInfoFromDetectorElements exampleMap
        { fields := exampleQuery.fields.reverse, offlchan := 0 } :=
  ⟨(List.reverse_perm _).symm,
   (order_independence noFloat exampleFile exampleMap rfl exampleQuery
      { fields := exampleQuery.fields.reverse, offlchan := 0 }
      (List.reverse_perm _).symm (by decide)
      (by
        intro e he
        simp only [exampleQuery, List.mem_cons, List.mem_singleton, List.not_mem_nil,
          or_false] at he
        rcases he with h | h | h | h <;> subst h <;> exact ⟨_, rfl⟩)).2.2
      (by
        intro e he
        simp only [exampleQuery, List.mem_cons, List.mem_singleton, List.not_mem_nil,
          or_false] at he
        rcases he with h | h | h | h <;> subst h <;> decide)⟩

/-- C20. Omitted keys default to zero. After a load without error into a
fresh object: for an input mapping `q` with distinct recognised names and
integer values, and a key column whose name `q` does not hold, the mapping
`q` extended with that name at value 0, in any iteration order, gives the
outcome of `q`; the empty mapping assembles the key tuple (0,0,0,0); and
when no column is flagged as key, every data row is indexed under that
tuple, which the index sends to the last row. -/
theorem omitted_key_is_zero (rdF : FloatReader) (lines : List String)
    (self : DUNEGenChannelMapSP)
    (hload : ReadMapFromFile rdF DUNEGenChannelMapSP.new (some lines) = .ok self) :
    (∀ (q q' : ChanInfo_t) (nm : String) (k : Nat) (fl : Int),
      self.m_ColumnNames[k]? = some nm → self.m_KeyColFlags[k]? = some fl → fl ≠ 0 →
      (q.fields.map Prod.fst).Nodup →
      (∀ e ∈ q.fields, e.1 ∈ self.m_ColumnNames) →
      (∀ e ∈ q.fields, ∃ v : Int, e.2 = AnyVal.int v) →
      nm ∉ q.fields.map Prod.fst →
      q'.fields.Perm ((nm, AnyVal.int 0) :: q.fields) →
      GetChanInfoFromDetectorElements self q' = GetChanInfoFromDetectorElements self q) ∧
    assembleKeys self [] [0, 0, 0, 0] = .ok [0, 0, 0, 0] ∧
    ((∀ fl ∈ self.m_KeyColFlags, fl = 0) →
      (∀ (j : Nat) (line : List Char), (dataLines lines)[j]? = some line →
        ∃ r, decodeRow rdF self line = .ok r ∧ r.mapkeys = [0, 0, 0, 0]) ∧
      detFind self.m_DetToChanInfo [0, 0, 0, 0] =
        if self.m_MapInfo.length = 0 then none else some (self.m_MapInfo.length - 1)) := by
  obtain ⟨rs, hL⟩ := load_ok rdF lines self hload
  refine ⟨?_, rfl, ?_⟩
  · intro q q' nm k fl hk hfl hnz hnd hrec hint hnew hext
    apply get_congr
    have hfind : ∀ e ∈ q.fields, AMap.find e.1 self.m_CIMap ≠ none := by
      intro e he
      rw [Ne, find_none_names self hL.names_inv]
      exact not_not.mpr (hrec e he)
    obtain ⟨icol, hicol⟩ : ∃ icol, AMap.find nm self.m_CIMap = some icol := by
      apply Option.ne_none_iff_exists'.mp
      rw [Ne, find_none_names self hL.names_inv]
      exact not_not.mpr (List.getElem?_mem hk)
    rw [← assembleKeys_perm self hL.names_inv hL.flags_inv ((nm, AnyVal.int 0) :: q.fields)
      q'.fields hext.symm
      (by
        rw [List.map_cons]
        exact List.nodup_cons.mpr ⟨hnew, hnd⟩)
      (by
        intro e he
        rcases List.mem_cons.mp he with h | h
        · rw [h, hicol]
          simp
        · exact hfind e h)
      (by
        intro e he
        rcases List.mem_cons.mp he with h | h
        · exact ⟨0, by rw [h]⟩
        · exact hint e h)]
    have hlen4 : 4 ≤ (retained lines).length := by
      by_contra hc
      have := hL.flags_nil (by omega)
      rw [this] at hfl
      simp at hfl
    have hilt : icol < self.m_ColumnNames.length :=
      (List.getElem?_eq_some_iff.mp (find_some_names self hL.names_inv nm icol hicol)).1
    rcases assembleKeys_entry self nm 0 icol hicol with
      ⟨_, e1⟩ | ⟨w, f, hf, hz, hw, e1⟩ | ⟨hbad, _⟩
    · rw [e1]
    · obtain ⟨w', hw', hlt, _⟩ := loaded_ordinal_lt rdF lines self rs hL icol f hf hz
      rw [hw] at hw'
      have hww := Option.some.inj hw'
      subst hww
      rw [e1, if_pos (by simpa using hlt), set_zero_tuple]
    · exfalso
      have h1 := hL.flags_len hlen4
      have h2 := hL.flags_inv.wk_len
      rcases hbad with h | h
      · rw [List.getElem?_eq_none_iff] at h
        omega
      · rw [List.getElem?_eq_none_iff] at h
        omega
  · intro hno
    have hkeys : ∀ row : List AnyVal, rowKeys self.m_KeyColFlags row = [0, 0, 0, 0] := by
      intro row
      unfold rowKeys
      rw [keyVals_no_flag _ _ hno]
      rfl
    constructor
    · intro j line hline
      obtain ⟨r, hdec, hr, _⟩ := loaded_row_of_line rdF lines self rs hL j line hline
      obtain ⟨_, _, _, h4, _⟩ := loaded_row_shape rdF lines self rs hL j r hr
      exact ⟨r, hdec, by rw [h4, hkeys]⟩
    · rw [loaded_detFind rdF lines self rs hL [0, 0, 0, 0] rfl, ← lastIdx_true]
      apply lastIdx_congr
      intro row _
      rw [hkeys]
      rfl

/-- C20 at `zeroKeyFile`: the mapping `slot = 5` and its extension with
`crate = 0` both return the row (0, 5); at `noKeyFile`, which has no key
column, the empty mapping returns the last row. -/
theorem omitted_key_is_zero_witness :
    GetChanInfoFromDetectorElements zeroKeyMap
        { fields := [("slot", AnyVal.int 5), ("crate", AnyVal.int 0)], offlchan := 0 } =
      GetChanInfoFromDetectorElements zeroKeyMap
        { fields := [("slot", AnyVal.int 5)], offlchan := 0 } ∧
    GetChanInfoFromDetectorElements zeroKeyMap
        { fields := [("slot", AnyVal.int 5)], offlchan := 0 } =
      .ok { fields := [("crate", AnyVal.int 0), ("slot", AnyVal.int 5),
                       ("valid", AnyVal.bool true)], offlchan := 0 } ∧
    GetChanInfoFromDetectorElements noKeyMap { fields := [], offlchan := 0 } =
      .ok { fields := [("val", AnyVal.int 8), ("valid", AnyVal.bool true)], offlchan := 0 } :=
  ⟨(omitted_key_is_zero noFloat zeroKeyFile zeroKeyMap rfl).1
      { fields := [("slot", AnyVal.int 5)], offlchan := 0 }
      { fields := [("slot", AnyVal.int 5), ("crate", AnyVal.int 0)], offlchan := 0 }
      "crate" 0 1 rfl rfl (by decide)
      (by decide)
      (by
        intro e he
        simp only [List.mem_singleton] at he
        subst he
        decide)
      (by
        intro e he
        simp only [List.mem_singleton] at he
        subst he
        exact ⟨5, rfl⟩)
      (by decide)
      (List.Perm.swap _ _ _),
   rfl, rfl⟩

end dune
